import Mathlib

/-! # clQMC: rank-1 lattice rules and their coordinate streams

A shallow embedding of the lattice-rule part of clQMC
(`src/library/latticerule.c`, `src/include/clQMC/private/latticerule.c.h`,
`src/library/private.c`), of the library paths (`src/library/clQMC.c`) and of
the statistics of the tutorial programs (`src/client/DocsTutorial/common.c`,
`src/client/DocsTutorial/example4.c`), together with theorems about them.

Conventions of the embedding.

* `clqmc_uint` values are natural numbers; every place where the C code can
  wrap around is written with an explicit `% UINT_RANGE`.
* `clqmc_int` values are integers; the conversion to `clqmc_uint` that C
  applies in mixed signed/unsigned arithmetic is `toUint`.
* The two floating-point instantiations of the `fptype` macro parameter are
  described by a record of operations `FpType F`.  The control flow of the
  code is the same for every such record; numerical statements are made for
  the exact rational instances `clqmc_float` and `clqmc_double`.
* Arrays are lists.  Reading an array outside its extent and dividing an
  integer by zero are undefined behaviour in C; the embedding returns `none`
  there.
* A pointer to constant data (`stream->lattice`, `stream->shift`) is
  modelled by the data it points to; a pointer that may be `NULL` is an
  `Option`.
* The global buffer `clqmcErrorString` is passed explicitly: an operation
  that can set it takes its current contents and returns the new contents.
* The statistics are computed over `ExactFloat`: exact rationals with one
  more value for the results that are not finite numbers.
* Text written by `printf` and `fprintf` is a `String`; the conversion `%d`
  prints a signed 32-bit integer in decimal, and a `cl_uint` handed to it is
  read as the signed integer with the same 32 bits.
* The process environment (`getenv`, `access`) is a record of functions.
-/

namespace ClQMC

/-! ## Basic types -/

/-- Number of values of a 32-bit unsigned integer (`clqmc_uint`). -/
def UINT_RANGE : Nat := 2 ^ 32

/-- Number of values of `size_t` on the host (64-bit). -/
def SIZE_RANGE : Nat := 2 ^ 64

/-- Conversion of a signed 32-bit integer to `clqmc_uint`, as C performs it
when a `clqmc_int` meets a `clqmc_uint` in an arithmetic expression. -/
def toUint (x : Int) : Nat := (x % (UINT_RANGE : Int)).toNat

/-- Unsigned remainder `a % b`; division by zero is undefined behaviour. -/
def umod (a b : Nat) : Option Nat := if b = 0 then none else some (a % b)

/-- Unsigned quotient `a / b`; division by zero is undefined behaviour. -/
def udiv (a b : Nat) : Option Nat := if b = 0 then none else some (a / b)

/-- Status codes are `cl_int` values (`clqmcStatus`). -/
abbrev clqmcStatus := Int

/-- OpenCL constant `CL_SUCCESS` (from the OpenCL headers). -/
def CL_SUCCESS : Int := 0
/-- OpenCL constant `CL_OUT_OF_RESOURCES` (from the OpenCL headers). -/
def CL_OUT_OF_RESOURCES : Int := -5
/-- OpenCL constant `CL_INVALID_VALUE` (from the OpenCL headers). -/
def CL_INVALID_VALUE : Int := -30

def CLQMC_SUCCESS : clqmcStatus := CL_SUCCESS
def CLQMC_OUT_OF_RESOURCES : clqmcStatus := CL_OUT_OF_RESOURCES
def CLQMC_INVALID_VALUE : clqmcStatus := CL_INVALID_VALUE
def CLQMC_INVALID_ENVIRONMENT : clqmcStatus := CLQMC_INVALID_VALUE + 1
def CLQMC_NOT_IMPLEMENTED : clqmcStatus := CLQMC_INVALID_ENVIRONMENT + 1

/-! ## Error string (`private.c`) -/

def MSG_DEFAULT : String := "unknown status"
def MSG_SUCCESS : String := "success"
def MSG_OUT_OF_RESOURCES : String := "out of resources"
def MSG_INVALID_VALUE : String := "invalid value"
def MSG_INVALID_ENVIRONMENT : String := "invalid environment"
def MSG_NOT_IMPLEMENTED : String := "not implemented"

/-- The function `clqmcSetErrorString`.  `formatted` is the message after
`vsprintf` has expanded the format string.  Returns the status (the value of
`err`) and the new contents of the global buffer `clqmcErrorString`. -/
def clqmcSetErrorString (err : Int) (formatted : String) : clqmcStatus × String :=
  let base :=
    if err = CLQMC_SUCCESS then MSG_SUCCESS
    else if err = CLQMC_OUT_OF_RESOURCES then MSG_OUT_OF_RESOURCES
    else if err = CLQMC_INVALID_VALUE then MSG_INVALID_VALUE
    else if err = CLQMC_INVALID_ENVIRONMENT then MSG_INVALID_ENVIRONMENT
    else if err = CLQMC_NOT_IMPLEMENTED then MSG_NOT_IMPLEMENTED
    else MSG_DEFAULT
  (err, "[" ++ base ++ "] " ++ formatted)

/-! ## Floating-point types -/

/-- The operations the code uses on the macro parameter `fptype`. -/
structure FpType (F : Type) where
  /-- The name of the C type, as pasted into function names. -/
  typeName : String
  /-- The value of `sizeof(fptype)`. -/
  sizeof : Nat
  /-- Conversion of a `clqmc_uint` to `fptype`. -/
  ofUint : Nat → F
  /-- The constant `(fptype) 0.0`. -/
  zero : F
  /-- The constant `(fptype) 1.0`. -/
  one : F
  /-- The constant `-1.0` converted to `fptype`. -/
  negOne : F
  add : F → F → F
  mul : F → F → F
  div : F → F → F
  /-- The C library function `fmod`. -/
  fmod : F → F → F

/-- Rounding toward zero. -/
def truncQ (q : ℚ) : Int := if 0 ≤ q then ⌊q⌋ else ⌈q⌉

/-- Exact `fmod`: `x - trunc(x / y) * y`, the result has the sign of `x`. -/
def fmodQ (x y : ℚ) : ℚ := x - (truncQ (x / y) : ℚ) * y

/-- Exact rational arithmetic in the role of `fptype`. -/
def exactFp (typeName : String) (sizeof : Nat) : FpType ℚ where
  typeName := typeName
  sizeof := sizeof
  ofUint := fun k => (k : ℚ)
  zero := 0
  one := 1
  negOne := -1
  add := fun x y => x + y
  mul := fun x y => x * y
  div := fun x y => x / y
  fmod := fmodQ

/-- The single-precision variant, over exact arithmetic. -/
def clqmc_float : FpType ℚ := exactFp "clqmc_float" 4

/-- The double-precision variant, over exact arithmetic. -/
def clqmc_double : FpType ℚ := exactFp "clqmc_double" 8

/-! ## Lattice rules (`latticerule.c`) -/

/-- The structure `clqmcLatticeRule_` with its two hidden arrays. -/
structure clqmcLatticeRule (F : Type) where
  numPoints : Nat
  dimension : Nat
  /-- Hidden member `clqmc_int genVec[dimension]`. -/
  genVec : List Int
  /-- Hidden member `fptype genVecNormed[dimension]`. -/
  genVecNormed : List F
deriving DecidableEq

/-- The structure `clqmcLatticeRuleStream_`. -/
structure clqmcLatticeRuleStream (F : Type) where
  lattice : clqmcLatticeRule F
  pointIndex : Nat
  coordinateIndex : Nat
  shift : Option (List F)
deriving DecidableEq

/-- The loop `for (j = 0; j < count; j++) out[j] = body(j)`, where an
iteration may hit undefined behaviour. -/
def forLoop {β : Type} (body : Nat → Option β) : Nat → Option (List β)
  | 0 => some []
  | k + 1 =>
    match forLoop body k with
    | none => none
    | some out =>
      match body k with
      | none => none
      | some x => some (out ++ [x])

/-- What a creation function hands back: the returned pointer, the value
written through `objectSize`, the value written through `err`, and the
contents of `clqmcErrorString` afterwards. -/
structure CreateResult (F : Type) where
  lattice : Option (clqmcLatticeRule F)
  objectSize : Option Nat
  err : clqmcStatus
  errorString : String
deriving DecidableEq

/-- The static function `clqmcLatticeRuleCreate_`.  `malloc size` tells
whether the allocation of `size` bytes succeeds.  The hidden array
`genVecNormed` is left uninitialised (empty here). -/
def clqmcLatticeRuleCreate_ {F : Type} (malloc : Nat → Bool) (errorString : String)
    (numPoints dimension : Nat) (genVec : List Int) (fpsize : Nat) :
    Option (CreateResult F) :=
  let size := 8
  let size := (size + dimension * (4 + fpsize)) % SIZE_RANGE
  if !(malloc size) then
    let e := clqmcSetErrorString CLQMC_OUT_OF_RESOURCES
      "clqmcLatticeRuleCreate_(): could not allocate memory for lattice"
    some { lattice := none, objectSize := none, err := e.1, errorString := e.2 }
  else
    match forLoop (fun j => genVec[j]?) dimension with
    | none => none
    | some gv =>
      some { lattice := some { numPoints := numPoints, dimension := dimension,
                               genVec := gv, genVecNormed := [] },
             objectSize := some size, err := CLQMC_SUCCESS, errorString := errorString }

/-- The functions `clqmcLatticeRuleCreate_##fptype`. -/
def clqmcLatticeRuleCreate {F : Type} (fp : FpType F) (malloc : Nat → Bool)
    (errorString : String) (numPoints dimension : Nat) (genVec : List Int) :
    Option (CreateResult F) :=
  match clqmcLatticeRuleCreate_ malloc errorString numPoints dimension genVec fp.sizeof with
  | none => none
  | some r =>
    if r.err = CLQMC_SUCCESS then
      match r.lattice with
      | none => none
      | some lattice =>
        let norm := fp.div fp.one (fp.ofUint numPoints)
        let normed := forLoop (fun j =>
          match lattice.genVec[j]? with
          | none => none
          | some g =>
            match umod (toUint g) lattice.numPoints with
            | none => none
            | some gen =>
              let gen := if gen < 0 then (gen + lattice.numPoints) % UINT_RANGE else gen
              some (fp.mul (fp.ofUint gen) norm)) dimension
        match normed with
        | none => none
        | some nv => some { r with lattice := some { lattice with genVecNormed := nv } }
    else some r

/-- The function `clqmcLatticeRuleDestroy`; releasing the storage has no
counterpart in the embedding. -/
def clqmcLatticeRuleDestroy {F : Type} (errorString : String)
    (lattice : Option (clqmcLatticeRule F)) : clqmcStatus × String :=
  match lattice with
  | none => clqmcSetErrorString CLQMC_INVALID_VALUE
      "clqmcLatticeRuleDestroy(): lattice cannot be NULL"
  | some _ => (CLQMC_SUCCESS, errorString)

/-- The function `clqmcLatticeRuleNumPoints`. -/
def clqmcLatticeRuleNumPoints {F : Type} (lattice : clqmcLatticeRule F) : Nat :=
  lattice.numPoints

/-- The function `clqmcLatticeRuleDimension`. -/
def clqmcLatticeRuleDimension {F : Type} (lattice : clqmcLatticeRule F) : Nat :=
  lattice.dimension

/-! ## Streams (`private/latticerule.c.h`) -/

/-- What `clqmcLatticeRuleCreateOverStream` leaves behind: the returned
status, the memory of the target stream (`none` when the pointer is `NULL`)
and the contents of `clqmcErrorString`. -/
structure CreateOverResult (F : Type) where
  status : clqmcStatus
  stream : Option (clqmcLatticeRuleStream F)
  errorString : String
deriving DecidableEq

/-- The functions `clqmcLatticeRuleCreateOverStream_##fptype`.  `stream` is
the memory the target pointer designates before the call. -/
def clqmcLatticeRuleCreateOverStream {F : Type} (fp : FpType F) (errorString : String)
    (stream : Option (clqmcLatticeRuleStream F)) (lattice : clqmcLatticeRule F)
    (partCount partIndex : Nat) (shift : Option (List F)) :
    Option (CreateOverResult F) :=
  let func := "clqmcLatticeRuleCreateOverStream_" ++ fp.typeName
  match stream with
  | none =>
    let e := clqmcSetErrorString CLQMC_INVALID_VALUE (func ++ "(): stream cannot be NULL")
    some { status := e.1, stream := none, errorString := e.2 }
  | some st =>
    if partIndex ≥ partCount then
      let e := clqmcSetErrorString CLQMC_INVALID_VALUE (func ++ "(): partIndex >= partCount")
      some { status := e.1, stream := some st, errorString := e.2 }
    else
      match umod lattice.numPoints partCount with
      | none => none
      | some r =>
        if r ≠ 0 then
          let e := clqmcSetErrorString CLQMC_INVALID_VALUE
            (func ++ "(): number of points must be a multiple of partCount")
          some { status := e.1, stream := some st, errorString := e.2 }
        else
          match udiv lattice.numPoints partCount with
          | none => none
          | some q =>
            some { status := CLQMC_SUCCESS,
                   stream := some { lattice := lattice,
                                    pointIndex := (q * partIndex) % UINT_RANGE,
                                    coordinateIndex := 0,
                                    shift := shift },
                   errorString := errorString }

/-- The functions `clqmcLatticeRuleNextCoordinate_##fptype`: the returned
value and the stream afterwards. -/
def clqmcLatticeRuleNextCoordinate {F : Type} (fp : FpType F)
    (stream : clqmcLatticeRuleStream F) : Option (F × clqmcLatticeRuleStream F) :=
  if stream.coordinateIndex ≥ stream.lattice.dimension then
    some (fp.negOne, stream)
  else
    match stream.lattice.genVecNormed[stream.coordinateIndex]? with
    | none => none
    | some a =>
      let s : Option F :=
        match stream.shift with
        | some sh => sh[stream.coordinateIndex]?
        | none => some fp.zero
      match s with
      | none => none
      | some u =>
        let ret := fp.fmod (fp.add (fp.mul a (fp.ofUint stream.pointIndex)) u) fp.one
        some (ret, { stream with
                     coordinateIndex := (stream.coordinateIndex + 1) % UINT_RANGE })

/-- The function `clqmcLatticeRuleForwardToNextPoint`: the returned value and
the stream afterwards. -/
def clqmcLatticeRuleForwardToNextPoint {F : Type} (stream : clqmcLatticeRuleStream F) :
    Nat × clqmcLatticeRuleStream F :=
  let stream := { stream with coordinateIndex := 0 }
  let stream := { stream with pointIndex := (stream.pointIndex + 1) % UINT_RANGE }
  (stream.pointIndex, stream)

/-- The function `clqmcLatticeRuleCurrentPointIndex`. -/
def clqmcLatticeRuleCurrentPointIndex {F : Type} (stream : clqmcLatticeRuleStream F) : Nat :=
  stream.pointIndex

/-- The function `clqmcLatticeRuleCurrentCoordIndex`. -/
def clqmcLatticeRuleCurrentCoordIndex {F : Type} (stream : clqmcLatticeRuleStream F) : Nat :=
  stream.coordinateIndex

/-! ## Call sequences -/

/-- The stream after `k` calls of `clqmcLatticeRuleForwardToNextPoint`. -/
def forwardPoints {F : Type} : Nat → clqmcLatticeRuleStream F → clqmcLatticeRuleStream F
  | 0, stream => stream
  | k + 1, stream => (clqmcLatticeRuleForwardToNextPoint (forwardPoints k stream)).2

/-- The values returned by `k` successive calls of
`clqmcLatticeRuleNextCoordinate`, in call order, and the stream afterwards. -/
def nextCoordinates {F : Type} (fp : FpType F) :
    Nat → clqmcLatticeRuleStream F → Option (List F × clqmcLatticeRuleStream F)
  | 0, stream => some ([], stream)
  | k + 1, stream =>
    match nextCoordinates fp k stream with
    | none => none
    | some (vals, st) =>
      match clqmcLatticeRuleNextCoordinate fp st with
      | none => none
      | some (v, st1) => some (vals ++ [v], st1)

/-- A stream whose memory has not been written yet, for use as the target of
`clqmcLatticeRuleCreateOverStream`. -/
def blankStream (F : Type) : clqmcLatticeRuleStream F :=
  { lattice := { numPoints := 0, dimension := 0, genVec := [], genVecNormed := [] },
    pointIndex := 0, coordinateIndex := 0, shift := none }

/-! ## Notions used in the statements -/

/-- The normalised generating vector that `clqmcLatticeRuleCreate` computes
from the stored generating vector. -/
def normedOf {F : Type} (fp : FpType F) (numPoints : Nat) (genVec : List Int) : List F :=
  genVec.map (fun g =>
    fp.mul (fp.ofUint (toUint g % numPoints)) (fp.div fp.one (fp.ofUint numPoints)))

/-- The shift added to coordinate `j`: `shift[j]` when a shift is attached,
`(fptype) 0.0` otherwise. -/
def shiftAt {F : Type} (fp : FpType F) (shift : Option (List F)) (j : Nat) : F :=
  match shift with
  | none => fp.zero
  | some sh => sh.getD j fp.zero

/-- The expression `fmod(a * pointIndex + u, 1.0)` of
`clqmcLatticeRuleNextCoordinate`. -/
def coordinateExpr {F : Type} (fp : FpType F) (a : F) (pointIndex : Nat) (u : F) : F :=
  fp.fmod (fp.add (fp.mul a (fp.ofUint pointIndex)) u) fp.one

/-- The value of coordinate `j` of the current point of a stream. -/
def coordinateOf {F : Type} (fp : FpType F) (stream : clqmcLatticeRuleStream F) (j : Nat) : F :=
  coordinateExpr fp (stream.lattice.genVecNormed.getD j fp.zero) stream.pointIndex
    (shiftAt fp stream.shift j)

/-- The arrays a stream reads are large enough: the lattice carries
`dimension` normalised entries, `dimension` fits a `clqmc_uint`, and an
attached shift has at least `dimension` entries. -/
def StreamArraysOk {F : Type} (stream : clqmcLatticeRuleStream F) : Prop :=
  stream.lattice.genVecNormed.length = stream.lattice.dimension ∧
  stream.lattice.dimension < UINT_RANGE ∧
  ∀ sh, stream.shift = some sh → stream.lattice.dimension ≤ sh.length

/-- The unshifted lattice coordinate `((i * g) mod n) / n`. -/
def latticeCoordinate (n : Nat) (g : Int) (i : Nat) : ℚ :=
  ((((i : Int) * g) % (n : Int) : Int) : ℚ) / (n : ℚ)

/-- A small lattice: 8 points in dimension 1 with generating vector `[3]`. -/
def exampleLattice : clqmcLatticeRule ℚ :=
  { numPoints := 8, dimension := 1, genVec := [3], genVecNormed := [3 / 8] }

/-- A stream is fresh when `clqmcLatticeRuleCreateOverStream` has just created
it successfully or `clqmcLatticeRuleForwardToNextPoint` has just advanced it. -/
def FreshStream {F : Type} (fp : FpType F) (st : clqmcLatticeRuleStream F) : Prop :=
  (∃ es target lattice partCount partIndex shift es2,
    clqmcLatticeRuleCreateOverStream fp es target lattice partCount partIndex shift
      = some { status := CLQMC_SUCCESS, stream := some st, errorString := es2 }) ∨
  (∃ st0, (clqmcLatticeRuleForwardToNextPoint st0).2 = st)

/-! ## RQMC statistics (`client/DocsTutorial/common.c`) -/

/-- A floating-point value over exact arithmetic: a rational number, or a
value that is not a finite number (an infinity or a NaN, which a division by
zero produces). -/
inductive ExactFloat where
  | finite (q : ℚ)
  | nonfinite
deriving DecidableEq

/-- Floating-point addition; a non-finite operand gives a non-finite sum. -/
def ExactFloat.add : ExactFloat → ExactFloat → ExactFloat
  | .finite a, .finite b => .finite (a + b)
  | _, _ => .nonfinite

/-- Floating-point subtraction; a non-finite operand gives a non-finite
difference. -/
def ExactFloat.sub : ExactFloat → ExactFloat → ExactFloat
  | .finite a, .finite b => .finite (a - b)
  | _, _ => .nonfinite

/-- Floating-point multiplication; a non-finite operand gives a non-finite
product. -/
def ExactFloat.mul : ExactFloat → ExactFloat → ExactFloat
  | .finite a, .finite b => .finite (a * b)
  | _, _ => .nonfinite

/-- Floating-point division by an unsigned integer converted to floating
point; the divisor zero gives an infinity or a NaN. -/
def ExactFloat.divCount : ExactFloat → Nat → ExactFloat
  | .finite a, k => if k = 0 then .nonfinite else .finite (a / (k : ℚ))
  | .nonfinite, _ => .nonfinite

/-- The loop `for (i = 0; i < count; i++) acc = body(i, acc)`, where an
iteration may hit undefined behaviour. -/
def forFold {σ : Type} (body : Nat → σ → Option σ) : Nat → σ → Option σ
  | 0, acc => some acc
  | k + 1, acc =>
    match forFold body k acc with
    | none => none
    | some acc1 => body k acc1

/-- The function `computeStats`: the values written through `avg` and `var`.
The count `n` is a `size_t`, so `n - 1` wraps around for `n = 0`. -/
def computeStats (n : Nat) (values : List ExactFloat) : Option (ExactFloat × ExactFloat) :=
  let sum := ExactFloat.finite 0
  let sum_squares := ExactFloat.finite 0
  match forFold (fun i (acc : ExactFloat × ExactFloat) =>
      match values[i]? with
      | none => none
      | some v => some (acc.1.add v, acc.2.add (v.mul v))) n (sum, sum_squares) with
  | none => none
  | some (sum, sum_squares) =>
    let avg := sum.divCount n
    let var := (sum_squares.sub (avg.mul sum)).divCount ((n + SIZE_RANGE - 1) % SIZE_RANGE)
    some (avg, var)

/-- The function `rqmcReduce`: the values written to `estimates[0]`, ...,
`estimates[replications - 1]`.  The index `i * blocks + j` is computed in
`cl_uint` arithmetic. -/
def rqmcReduce (replications blocks : Nat) (values : List ExactFloat) :
    Option (List ExactFloat) :=
  forLoop (fun i =>
    let sum := ExactFloat.finite 0
    match forFold (fun j (sum : ExactFloat) =>
        match values[(i * blocks + j) % UINT_RANGE]? with
        | none => none
        | some v => some (sum.add v)) blocks sum with
    | none => none
    | some sum => some (sum.divCount blocks)) replications

/-- Right alignment in a field of `width` characters, as the `printf`
conversions `%16s`, `%16d` and `%16.6g` do it: spaces are added on the left
of a shorter text, a longer text is kept whole. -/
def padLeft (width : Nat) (text : String) : String :=
  String.mk (List.replicate (width - text.length) ' ') ++ text

/-- The `int` that a `printf` conversion `%d` reads when it is handed a
`cl_uint`: the same 32 bits, taken as a signed number. -/
def toInt32 (x : Nat) : Int :=
  if x % UINT_RANGE < 2 ^ 31 then ((x % UINT_RANGE : Nat) : Int)
  else ((x % UINT_RANGE : Nat) : Int) - (UINT_RANGE : Int)

/-- The text of the `printf` conversion `%d` for an `int`. -/
def printf_d (x : Int) : String := toString x

/-- The function `rqmcReport`: the text written to the standard output.
`fmtG` is the text of the conversion `%.6g` for a floating-point value,
`malloc size` tells whether the allocation of `size` bytes succeeds and
`fpsize` is `sizeof(clqmc_fptype)`.  When the allocation fails, `rqmcReduce`
writes through a null pointer as soon as there is one replication. -/
def rqmcReport (fmtG : ExactFloat → String) (malloc : Nat → Bool) (fpsize : Nat)
    (replications points blocks : Nat) (values : List ExactFloat) : Option String :=
  if !(malloc ((replications * fpsize) % SIZE_RANGE)) && replications ≠ 0 then none
  else
    match rqmcReduce replications blocks values with
    | none => none
    | some estimates =>
      match computeStats replications estimates with
      | none => none
      | some (avg, var) =>
        let out := padLeft 16 "replications" ++ padLeft 16 "points" ++ padLeft 16 "mean"
          ++ padLeft 16 (if replications > 1 then "variance" else "") ++ "\n"
        let out := out ++ padLeft 16 (printf_d (toInt32 replications))
          ++ padLeft 16 (printf_d (toInt32 points)) ++ padLeft 16 (fmtG avg)
        if replications > 1 then
          out ++ padLeft 16 (fmtG var) ++ "\n"
        else
          out ++ "\n"

/-! ## Point-by-point enumeration -/

/-- The main loop of the usage examples,
`for (i = 0; i < count; i++) { simulateOneRun(&stream); clqmcLatticeRuleForwardToNextPoint(&stream); }`,
where `simulateOneRun` reads the `dimension` coordinates of the current point
with `clqmcLatticeRuleNextCoordinate`.  For every point visited the result
records `clqmcLatticeRuleCurrentPointIndex` at the time of reading and the
coordinates read; the stream afterwards is returned as well. -/
def drivePoints {F : Type} (fp : FpType F) :
    Nat → clqmcLatticeRuleStream F →
      Option (List (Nat × List F) × clqmcLatticeRuleStream F)
  | 0, stream => some ([], stream)
  | k + 1, stream =>
    match drivePoints fp k stream with
    | none => none
    | some (visited, st) =>
      match nextCoordinates fp (clqmcLatticeRuleDimension st.lattice) st with
      | none => none
      | some (coords, st1) =>
        some (visited ++ [(clqmcLatticeRuleCurrentPointIndex st, coords)],
              (clqmcLatticeRuleForwardToNextPoint st1).2)

/-! ## Object layout (`private/latticerule.c.h`) -/

/-- The value of `sizeof(clqmc_uint)`. -/
def SIZEOF_UINT : Nat := 4

/-- The value of `sizeof(clqmc_int)`. -/
def SIZEOF_INT : Nat := 4

/-- Byte offset of the member `numPoints` of `struct clqmcLatticeRule_`, its
first member. -/
def OFFSETOF_numPoints : Nat := 0

/-- Byte offset of the member `dimension` of `struct clqmcLatticeRule_`; it
follows the `clqmc_uint` member `numPoints` without padding. -/
def OFFSETOF_dimension : Nat := OFFSETOF_numPoints + SIZEOF_UINT

/-- The value of `sizeof(clqmcLatticeRule)`: two `clqmc_uint` members. -/
def SIZEOF_LATTICE : Nat := OFFSETOF_dimension + SIZEOF_UINT

/-- The macro `_CLQMC_LATTICE_GENVEC`, `(clqmc_int*)(&(lat)[1])`, as a byte
offset from the start of the object. -/
def CLQMC_LATTICE_GENVEC : Nat := 1 * SIZEOF_LATTICE

/-- The macro `_CLQMC_LATTICE_GENVECNORMED`,
`(fptype*)(&_CLQMC_LATTICE_GENVEC(lat)[lat->dimension])`, as a byte offset from
the start of the object. -/
def CLQMC_LATTICE_GENVECNORMED {F : Type} (lattice : clqmcLatticeRule F) : Nat :=
  CLQMC_LATTICE_GENVEC + lattice.dimension * SIZEOF_INT

/-- Byte offset of the element `a[j]` of an array `a` that starts at offset
`base` and has elements of `elemSize` bytes. -/
def elementOffset (base elemSize j : Nat) : Nat := base + j * elemSize

/-! ## Reporting and release (`latticerule.c`) -/

/-- The function `clqmcLatticeRuleDestroyStream`; releasing the storage has no
counterpart in the embedding. -/
def clqmcLatticeRuleDestroyStream {F : Type} (stream : Option (clqmcLatticeRuleStream F)) :
    clqmcStatus :=
  match stream with
  | some _ => CLQMC_SUCCESS
  | none => CLQMC_SUCCESS

/-- What `clqmcLatticeRuleWriteInfo` leaves behind: the returned status, the
contents of the sink `file` and the contents of `clqmcErrorString`. -/
structure WriteInfoResult where
  status : clqmcStatus
  file : String
  errorString : String
deriving DecidableEq

/-- The function `clqmcLatticeRuleWriteInfo`.  `file` is what the sink holds
before the call.  The members `dimension` and `numPoints` are `clqmc_uint`
values printed with `%d`, the generating vector holds `clqmc_int` values
printed with `%d`. -/
def clqmcLatticeRuleWriteInfo {F : Type} (errorString : String)
    (lattice : Option (clqmcLatticeRule F)) (file : String) : Option WriteInfoResult :=
  match lattice with
  | none =>
    let e := clqmcSetErrorString CLQMC_INVALID_VALUE
      "clqmcLatticeRuleWriteInfo(): lattice cannot be NULL"
    some { status := e.1, file := file, errorString := e.2 }
  | some lattice =>
    let file := file ++ (printf_d (toInt32 lattice.dimension) ++ "-dimensional, "
      ++ printf_d (toInt32 lattice.numPoints)
      ++ "-point lattice rule with generating vector [ ")
    match forFold (fun j (file : String) =>
        match lattice.genVec[j]? with
        | none => none
        | some g => some (file ++ ((if j > 0 then ", " else "") ++ printf_d g)))
        lattice.dimension file with
    | none => none
    | some file =>
      let file := file ++ " ]\n"
      some { status := CLQMC_SUCCESS, file := file, errorString := errorString }

/-! ## Library paths (`clQMC.c`) -/

/-- What the library asks of its environment: `getenv name` is the value of
an environment variable (`none` when it is not defined) and `access path`
tells whether `access(path, F_OK) != -1`, that is whether the file exists. -/
structure Environment where
  getenv : String → Option String
  access : String → Bool

def lib_path_default1 : String := "/usr"
def lib_path_default1_check : String := "/usr/include/clQMC/clQMC.h"
def lib_path_default2 : String := "."
def lib_path_default2_check : String := "./include/clQMC/clQMC.h"

/-- The function `clqmcGetLibraryRoot`; `none` is the null pointer. -/
def clqmcGetLibraryRoot (env : Environment) : Option String :=
  let lib_path := env.getenv "CLQMC_ROOT"
  if lib_path ≠ none ∧ lib_path ≠ some "" then lib_path
  else if env.access lib_path_default1_check then some lib_path_default1
  else if env.access lib_path_default2_check then some lib_path_default2
  else none

/-- The size of the static buffer `lib_includes`. -/
def SIZEOF_lib_includes : Nat := 1024

/-- What `clqmcGetLibraryDeviceIncludes` leaves behind: the returned pointer
(`none` for `NULL`), the value of `*err` (`none` when `err` is `NULL`) and the
contents of `clqmcErrorString`. -/
structure DeviceIncludesResult where
  includes : Option String
  err : Option clqmcStatus
  errorString : String
deriving DecidableEq

/-- The function `clqmcGetLibraryDeviceIncludes` (the branch that is compiled
without `_MSC_VER`).  `errPresent` tells whether the argument `err` is not
`NULL`; `snprintf` returns the length in bytes of the whole text. -/
def clqmcGetLibraryDeviceIncludes (env : Environment) (errorString : String)
    (errPresent : Bool) : DeviceIncludesResult :=
  let root := clqmcGetLibraryRoot env
  let err : Option clqmcStatus := if errPresent then some CLQMC_SUCCESS else none
  match root with
  | none =>
    if errPresent then
      let e := clqmcSetErrorString CLQMC_INVALID_ENVIRONMENT
        "environment variable CLQMC_ROOT not set"
      { includes := none, err := some e.1, errorString := e.2 }
    else { includes := none, err := err, errorString := errorString }
  | some root =>
    let text := "-I\"" ++ root ++ "/include\""
    let nbytes := text.utf8ByteSize
    if nbytes ≥ SIZEOF_lib_includes then
      if errPresent then
        let e := clqmcSetErrorString CLQMC_OUT_OF_RESOURCES
          ("value of CLQMC_ROOT too long (max = "
            ++ toString (SIZEOF_lib_includes - 16) ++ ")")
        { includes := none, err := some e.1, errorString := e.2 }
      else { includes := none, err := err, errorString := errorString }
    else { includes := some text, err := err, errorString := errorString }

/-! ## Allocating wrapper and reachable stream states -/

/-- The value of `sizeof(clqmcLatticeRuleStream)` on a host with 8-byte
pointers: a pointer, two `clqmc_uint` members and a pointer. -/
def SIZEOF_STREAM : Nat := 24

/-- What `clqmcLatticeRuleCreateStream` hands back: the object behind the
returned pointer (`none` for `NULL`), the value written through `err` and the
contents of `clqmcErrorString` afterwards. -/
structure CreateStreamResult (F : Type) where
  stream : Option (clqmcLatticeRuleStream F)
  err : clqmcStatus
  errorString : String
deriving DecidableEq

/-- The functions `clqmcLatticeRuleCreateStream_##fptype`.  `malloc size`
tells whether the allocation of `size` bytes succeeds and `uninitialised` is
what the allocated memory holds before anything is written to it. -/
def clqmcLatticeRuleCreateStream {F : Type} (fp : FpType F) (malloc : Nat → Bool)
    (uninitialised : clqmcLatticeRuleStream F) (errorString : String)
    (lattice : clqmcLatticeRule F) (partCount partIndex : Nat) (shift : Option (List F)) :
    Option (CreateStreamResult F) :=
  if !(malloc SIZEOF_STREAM) then
    let e := clqmcSetErrorString CLQMC_OUT_OF_RESOURCES
      ("clqmcLatticeRuleCreateStream_" ++ fp.typeName
        ++ "(): could not allocate memory for stream")
    some { stream := none, err := e.1, errorString := e.2 }
  else
    match clqmcLatticeRuleCreateOverStream fp errorString (some uninitialised) lattice
        partCount partIndex shift with
    | none => none
    | some r => some { stream := r.stream, err := r.status, errorString := r.errorString }

/-- The stream states that a successful `clqmcLatticeRuleCreateOverStream`
followed by any finite sequence of calls of `clqmcLatticeRuleNextCoordinate`
and `clqmcLatticeRuleForwardToNextPoint` can produce. -/
inductive Reachable {F : Type} (fp : FpType F) : clqmcLatticeRuleStream F → Prop where
  | created (es es2 : String) (target : Option (clqmcLatticeRuleStream F))
      (lattice : clqmcLatticeRule F) (partCount partIndex : Nat) (shift : Option (List F))
      (st : clqmcLatticeRuleStream F)
      (h : clqmcLatticeRuleCreateOverStream fp es target lattice partCount partIndex shift
        = some { status := CLQMC_SUCCESS, stream := some st, errorString := es2 }) :
      Reachable fp st
  | nextCoordinate (st st1 : clqmcLatticeRuleStream F) (v : F) (hst : Reachable fp st)
      (h : clqmcLatticeRuleNextCoordinate fp st = some (v, st1)) : Reachable fp st1
  | forwardToNextPoint (st : clqmcLatticeRuleStream F) (hst : Reachable fp st) :
      Reachable fp (clqmcLatticeRuleForwardToNextPoint st).2

/-- The coordinates that the stream created for `(partCount, partIndex)`
returns when it is driven for `numPoints / partCount` points, in the order in
which `clqmcLatticeRuleNextCoordinate` returns them. -/
def enumeratePartition {F : Type} (fp : FpType F) (es : String)
    (target : clqmcLatticeRuleStream F) (lattice : clqmcLatticeRule F)
    (shift : Option (List F)) (partCount partIndex : Nat) : Option (List F) :=
  match clqmcLatticeRuleCreateOverStream fp es (some target) lattice partCount partIndex
      shift with
  | none => none
  | some r =>
    match r.stream with
    | none => none
    | some st =>
      if r.status = CLQMC_SUCCESS then
        match drivePoints fp (clqmcLatticeRuleNumPoints lattice / partCount) st with
        | none => none
        | some (visited, _) => some (visited.map (fun v => v.2)).flatten
      else none

/-! ## Error string, continued (`clQMC.c`, `private.c`) -/

/-- Modelled from the spec: the kernel `simulateWithRQMC` of
`example4_kernel.cl` is not among the sources; this is the replication index
`uint k = (gid / N) * rw + kw` of the excerpt of that kernel in the
documentation (`clQMC.h`, Example 4), in `uint` arithmetic. -/
def example4_k (N rw gid kw : Nat) : Nat := ((gid / N) * rw + kw) % UINT_RANGE

/-- Modelled from the spec: the kernel `simulateWithRQMC` of
`example4_kernel.cl` is not among the sources; this is the point subset index
`uint j = gid % N` of the excerpt of that kernel in the documentation
(`clQMC.h`, Example 4). -/
def example4_j (N gid : Nat) : Nat := gid % N

/-- Modelled from the spec: the kernel `simulateWithRQMC` of
`example4_kernel.cl` is not among the sources; this is the index `k * N + j`
of the output slot in `out[k * N + j] = sum / nw` of the excerpt of that
kernel in the documentation (`clQMC.h`, Example 4), in `uint` arithmetic. -/
def example4_slot (N rw gid kw : Nat) : Nat :=
  (example4_k N rw gid kw * N + example4_j N gid) % UINT_RANGE

/-- The number of work items that `task` of `example4.c` launches,
`(replications / replications_per_work_item) * points_block_count`. -/
def example4_global_size (r rw N : Nat) : Nat := (r / rw) * N

/-! ## Auxiliary facts about loops and lists -/

theorem forLoop_eq_map {β : Type} (body : Nat → Option β) (g : Nat → β) (k : Nat)
    (h : ∀ j, j < k → body j = some (g j)) :
    forLoop body k = some ((List.range k).map g) := by
  induction k with
  | zero => rfl
  | succ k ih =>
    have h1 := ih (fun j hj => h j (Nat.lt_succ_of_lt hj))
    have h2 := h k (Nat.lt_succ_self k)
    simp [forLoop, h1, h2, List.range_succ]

theorem range_map_getD_map {α β : Type} (l : List α) (d : α) (f : α → β) :
    (List.range l.length).map (fun j => f (l.getD j d)) = l.map f := by
  apply List.ext_getElem
  · simp
  · intro j h1 h2
    have h3 : j < l.length := by simpa using h2
    simp [List.getElem?_eq_getElem h3]

theorem range_map_getD {α : Type} (l : List α) (d : α) :
    (List.range l.length).map (fun j => l.getD j d) = l := by
  simpa using range_map_getD_map l d id

/-- A successful creation: the allocation succeeds, the caller's array holds
`dimension` entries and `numPoints` is positive. -/
theorem create_success {F : Type} (fp : FpType F) (malloc : Nat → Bool) (es : String)
    (n s : Nat) (g : List Int) (hn : 0 < n) (hg : g.length = s)
    (hm : malloc ((8 + s * (4 + fp.sizeof)) % SIZE_RANGE) = true) :
    clqmcLatticeRuleCreate fp malloc es n s g =
      some { lattice := some { numPoints := n, dimension := s, genVec := g,
                               genVecNormed := normedOf fp n g },
             objectSize := some ((8 + s * (4 + fp.sizeof)) % SIZE_RANGE),
             err := CLQMC_SUCCESS, errorString := es } := by
  subst hg
  have h1 : forLoop (fun j => g[j]?) g.length = some g := by
    rw [forLoop_eq_map _ (fun j => g.getD j 0) _
      (fun j hj => by simp [List.getElem?_eq_getElem hj])]
    rw [range_map_getD]
  have hn0 : n ≠ 0 := Nat.pos_iff_ne_zero.mp hn
  have h2 : forLoop (fun j =>
          match g[j]? with
          | none => none
          | some x =>
            match umod (toUint x) n with
            | none => none
            | some gen => some (fp.mul (fp.ofUint gen) (fp.div fp.one (fp.ofUint n)))) g.length
        = some (normedOf fp n g) := by
    rw [forLoop_eq_map _ (fun j => fp.mul (fp.ofUint (toUint (g.getD j 0) % n))
        (fp.div fp.one (fp.ofUint n))) _
      (fun j hj => by simp [List.getElem?_eq_getElem hj, umod, hn0])]
    rw [range_map_getD_map g 0 (fun x => fp.mul (fp.ofUint (toUint x % n))
        (fp.div fp.one (fp.ofUint n)))]
    rfl
  simp [clqmcLatticeRuleCreate, clqmcLatticeRuleCreate_, hm, h1, h2]

/-! ## Auxiliary facts about streams -/

theorem createOverStream_success {F : Type} (fp : FpType F) (es : String)
    (st : clqmcLatticeRuleStream F) (lattice : clqmcLatticeRule F)
    (partCount partIndex : Nat) (shift : Option (List F))
    (h1 : partIndex < partCount) (h2 : lattice.numPoints % partCount = 0) :
    clqmcLatticeRuleCreateOverStream fp es (some st) lattice partCount partIndex shift =
      some { status := CLQMC_SUCCESS,
             stream := some { lattice := lattice,
                              pointIndex := (lattice.numPoints / partCount * partIndex) % UINT_RANGE,
                              coordinateIndex := 0,
                              shift := shift },
             errorString := es } := by
  have hpc : partCount ≠ 0 := by omega
  simp [clqmcLatticeRuleCreateOverStream, Nat.not_le.mpr h1, umod, udiv, hpc, h2]

theorem forwardPoints_succ {F : Type} (k : Nat) (st : clqmcLatticeRuleStream F) :
    forwardPoints (k + 1) st =
      { lattice := st.lattice, pointIndex := (st.pointIndex + (k + 1)) % UINT_RANGE,
        coordinateIndex := 0, shift := st.shift } := by
  induction k with
  | zero => simp [forwardPoints, clqmcLatticeRuleForwardToNextPoint]
  | succ k ih =>
    rw [forwardPoints, ih]
    simp [clqmcLatticeRuleForwardToNextPoint, Nat.add_assoc]

theorem forwardPoints_fresh {F : Type} (k : Nat) (st : clqmcLatticeRuleStream F)
    (h0 : st.coordinateIndex = 0) (hp : st.pointIndex + k < UINT_RANGE) :
    forwardPoints k st = { st with pointIndex := st.pointIndex + k } := by
  cases k with
  | zero => simp [forwardPoints]
  | succ k =>
    rw [forwardPoints_succ, Nat.mod_eq_of_lt hp]
    cases st
    simp_all

theorem nextCoordinate_inside {F : Type} (fp : FpType F) (st : clqmcLatticeRuleStream F)
    (hok : StreamArraysOk st) (hj : st.coordinateIndex < st.lattice.dimension) :
    clqmcLatticeRuleNextCoordinate fp st =
      some (coordinateOf fp st st.coordinateIndex,
            { st with coordinateIndex := st.coordinateIndex + 1 }) := by
  obtain ⟨hA, hdim, hsh⟩ := hok
  have hjA : st.coordinateIndex < st.lattice.genVecNormed.length := by omega
  have hwrap : (st.coordinateIndex + 1) % UINT_RANGE = st.coordinateIndex + 1 :=
    Nat.mod_eq_of_lt (by omega)
  cases hs : st.shift with
  | none =>
    simp [clqmcLatticeRuleNextCoordinate, Nat.not_le.mpr hj, List.getElem?_eq_getElem hjA,
      hs, hwrap, coordinateOf, coordinateExpr, shiftAt]
  | some sh =>
    have hjS : st.coordinateIndex < sh.length := lt_of_lt_of_le hj (hsh sh hs)
    simp [clqmcLatticeRuleNextCoordinate, Nat.not_le.mpr hj, List.getElem?_eq_getElem hjA,
      List.getElem?_eq_getElem hjS, hs, hwrap, coordinateOf, coordinateExpr, shiftAt]

theorem nextCoordinate_exhausted {F : Type} (fp : FpType F) (st : clqmcLatticeRuleStream F)
    (hj : st.lattice.dimension ≤ st.coordinateIndex) :
    clqmcLatticeRuleNextCoordinate fp st = some (fp.negOne, st) := by
  simp [clqmcLatticeRuleNextCoordinate, hj]

theorem nextCoordinates_inside {F : Type} (fp : FpType F) (st : clqmcLatticeRuleStream F)
    (hok : StreamArraysOk st) (h0 : st.coordinateIndex = 0) (k : Nat)
    (hk : k ≤ st.lattice.dimension) :
    nextCoordinates fp k st =
      some ((List.range k).map (coordinateOf fp st), { st with coordinateIndex := k }) := by
  induction k with
  | zero =>
    cases st
    simp_all [nextCoordinates]
  | succ k ih =>
    have hk1 : k < st.lattice.dimension := hk
    rw [nextCoordinates, ih (Nat.le_of_lt hk1)]
    have hok1 : StreamArraysOk { st with coordinateIndex := k } := hok
    have := nextCoordinate_inside fp { st with coordinateIndex := k } hok1 hk1
    simp only [this]
    simp [List.range_succ, coordinateOf]

theorem nextCoordinates_exhausted {F : Type} (fp : FpType F) (st : clqmcLatticeRuleStream F)
    (hok : StreamArraysOk st) (h0 : st.coordinateIndex = 0) (m : Nat) :
    nextCoordinates fp (st.lattice.dimension + m) st =
      some ((List.range st.lattice.dimension).map (coordinateOf fp st)
              ++ List.replicate m fp.negOne,
            { st with coordinateIndex := st.lattice.dimension }) := by
  induction m with
  | zero => simpa using nextCoordinates_inside fp st hok h0 _ (Nat.le_refl _)
  | succ m ih =>
    rw [← Nat.add_assoc, nextCoordinates, ih]
    have := nextCoordinate_exhausted fp { st with coordinateIndex := st.lattice.dimension }
      (Nat.le_refl _)
    simp only [this]
    simp [List.replicate_succ']

/-! ## Auxiliary facts about exact arithmetic -/

theorem fmodQ_one_of_nonneg (x : ℚ) (hx : 0 ≤ x) : fmodQ x 1 = Int.fract x := by
  simp only [fmodQ, truncQ, div_one, if_pos hx, mul_one]
  exact Int.self_sub_floor x

theorem fmodQ_one_ne_neg_one (x : ℚ) : fmodQ x 1 ≠ -1 := by
  by_cases hx : 0 ≤ x
  · rw [fmodQ_one_of_nonneg x hx]
    have := Int.fract_nonneg x
    linarith
  · have h1 := Int.ceil_lt_add_one x
    simp only [fmodQ, truncQ, hx, if_false, div_one, mul_one]
    intro h
    linarith

theorem toUint_of_nonneg (a : Int) (h0 : 0 ≤ a) (h1 : a < (UINT_RANGE : Int)) :
    toUint a = a.toNat := by
  unfold toUint
  rw [Int.emod_eq_of_lt h0 h1]

theorem latticeCoordinate_nonneg (n : Nat) (g : Int) (i : Nat) (hn : 0 < n) :
    0 ≤ latticeCoordinate n g i := by
  have hn0 : (n : Int) ≠ 0 := by omega
  have h := Int.emod_nonneg ((i : Int) * g) hn0
  have h2 : (0 : ℚ) ≤ ((((i : Int) * g) % (n : Int) : Int) : ℚ) := by exact_mod_cast h
  exact div_nonneg h2 (by positivity)

theorem latticeCoordinate_lt_one (n : Nat) (g : Int) (i : Nat) (hn : 0 < n) :
    latticeCoordinate n g i < 1 := by
  have hn0 : (0 : Int) < (n : Int) := by omega
  have h := Int.emod_lt_of_pos ((i : Int) * g) hn0
  have h2 : ((((i : Int) * g) % (n : Int) : Int) : ℚ) < (n : ℚ) := by exact_mod_cast h
  have hq : (0 : ℚ) < (n : ℚ) := by exact_mod_cast hn
  rw [latticeCoordinate, div_lt_one hq]
  exact h2

/-- The product `normalized * pointIndex` differs from the lattice coordinate
by an integer. -/
theorem normed_mul_point (n : Nat) (g : Int) (i : Nat) (hn : 0 < n)
    (h0 : 0 ≤ g) (h1 : g < (UINT_RANGE : Int)) :
    ((toUint g % n : Nat) : ℚ) * (1 / (n : ℚ)) * (i : ℚ) =
      latticeCoordinate n g i + ((((i : Int) * (g % (n : Int))) / (n : Int) : Int) : ℚ) := by
  have hq : (n : ℚ) ≠ 0 := by exact_mod_cast (Nat.pos_iff_ne_zero.mp hn)
  have hcast : ((toUint g % n : Nat) : ℚ) = ((g % (n : Int) : Int) : ℚ) := by
    rw [toUint_of_nonneg g h0 h1]
    have : ((g.toNat % n : Nat) : Int) = g % (n : Int) := by
      rw [Int.natCast_mod, Int.toNat_of_nonneg h0]
    exact (Int.cast_natCast _).symm.trans (congrArg (fun z : Int => (z : ℚ)) this)
  have hmod : ((i : Int) * g) % (n : Int) = ((i : Int) * (g % (n : Int))) % (n : Int) := by
    rw [Int.mul_emod, Int.mul_emod (i : Int) (g % (n : Int)), Int.emod_emod]
  have hsplit := Int.emod_add_ediv ((i : Int) * (g % (n : Int))) (n : Int)
  have hsplitQ : ((((i : Int) * (g % (n : Int))) % (n : Int) : Int) : ℚ)
      + (n : ℚ) * ((((i : Int) * (g % (n : Int))) / (n : Int) : Int) : ℚ)
      = (i : ℚ) * ((g % (n : Int) : Int) : ℚ) := by exact_mod_cast hsplit
  rw [hcast, latticeCoordinate, hmod]
  field_simp
  linarith

theorem create_lattice_eq {F : Type} (fp : FpType F) (malloc : Nat → Bool) (es : String)
    (n s : Nat) (g : List Int) (r : CreateResult F) (L : clqmcLatticeRule F)
    (hn : 0 < n) (hg : g.length = s)
    (hc : clqmcLatticeRuleCreate fp malloc es n s g = some r) (hL : r.lattice = some L) :
    L = { numPoints := n, dimension := s, genVec := g, genVecNormed := normedOf fp n g } := by
  by_cases hm : malloc ((8 + s * (4 + fp.sizeof)) % SIZE_RANGE) = true
  · rw [create_success fp malloc es n s g hn hg hm] at hc
    injection hc with hc
    subst hc
    simp at hL
    exact hL.symm
  · simp [clqmcLatticeRuleCreate, clqmcLatticeRuleCreate_, hm, clqmcSetErrorString,
      CLQMC_SUCCESS, CLQMC_OUT_OF_RESOURCES, CL_SUCCESS, CL_OUT_OF_RESOURCES] at hc
    subst hc
    simp at hL

theorem normedOf_getD (typeName : String) (sizeof : Nat) (n : Nat) (g : List Int) (j : Nat)
    (hj : j < g.length) :
    (normedOf (exactFp typeName sizeof) n g).getD j 0 =
      ((toUint (g.getD j 0) % n : Nat) : ℚ) * (1 / (n : ℚ)) := by
  simp [normedOf, List.getD, List.getElem?_eq_getElem hj, exactFp]

/-- Over exact arithmetic the coordinate a stream computes is the fractional
part of the lattice coordinate plus the shift. -/
theorem coordinateOf_exact (typeName : String) (sizeof : Nat) (n s : Nat) (g : List Int)
    (i c j : Nat) (shift : Option (List ℚ)) (hn : 0 < n) (hj : j < g.length)
    (h0 : 0 ≤ g.getD j 0) (h1 : g.getD j 0 < (UINT_RANGE : Int))
    (hu : 0 ≤ shiftAt (exactFp typeName sizeof) shift j) :
    coordinateOf (exactFp typeName sizeof)
      { lattice := { numPoints := n, dimension := s, genVec := g,
                     genVecNormed := normedOf (exactFp typeName sizeof) n g },
        pointIndex := i, coordinateIndex := c, shift := shift } j
      = Int.fract (latticeCoordinate n (g.getD j 0) i
          + shiftAt (exactFp typeName sizeof) shift j) := by
  have hz : (exactFp typeName sizeof).zero = (0 : ℚ) := rfl
  simp only [coordinateOf, coordinateExpr, hz, normedOf_getD typeName sizeof n g j hj]
  show fmodQ (((toUint (g.getD j 0) % n : Nat) : ℚ) * (1 / (n : ℚ)) * (i : ℚ)
      + shiftAt (exactFp typeName sizeof) shift j) 1 = _
  rw [normed_mul_point n (g.getD j 0) i hn h0 h1]
  have hlc := latticeCoordinate_nonneg n (g.getD j 0) i hn
  have hint : (0 : ℚ) ≤ ((((i : Int) * (g.getD j 0 % (n : Int))) / (n : Int) : Int) : ℚ) := by
    have hn0 : (0 : Int) ≤ (n : Int) := by omega
    have hmod : 0 ≤ g.getD j 0 % (n : Int) := Int.emod_nonneg _ (by omega)
    have : 0 ≤ ((i : Int) * (g.getD j 0 % (n : Int))) / (n : Int) :=
      Int.ediv_nonneg (mul_nonneg (by omega) hmod) hn0
    exact_mod_cast this
  rw [fmodQ_one_of_nonneg _ (by linarith)]
  rw [add_right_comm, Int.fract_add_int]

theorem exampleLattice_created :
    clqmcLatticeRuleCreate (exactFp "clqmc_double" 8) (fun _ => true) "" 8 1 [3] =
      some { lattice := some exampleLattice, objectSize := some 20,
             err := CLQMC_SUCCESS, errorString := "" } := by
  rw [create_success _ _ _ 8 1 [3] (by decide) rfl rfl]
  simp [normedOf, exactFp, exampleLattice, toUint, UINT_RANGE, SIZE_RANGE]
  norm_num

/-! ## The claims -/

/-- C1: over exact rational arithmetic, for a lattice created with `n > 0`
points, dimension `s` and a generating vector `g` with entries in `[1, n-1]`,
the stream created with `partCount = 1`, `partIndex = 0` and no shift and
advanced `i < n` times with `clqmcLatticeRuleForwardToNextPoint` returns, as
the values of its `s` calls of `clqmcLatticeRuleNextCoordinate`, the
numbers `((i * (g[j] mod n)) mod n) / n` for `j = 0, ..., s-1`, in this order. -/
theorem unshifted_enumeration_formula (typeName : String) (sizeof : Nat) (malloc : Nat → Bool)
    (es es2 : String) (n s : Nat) (g : List Int) (r : CreateResult ℚ)
    (L : clqmcLatticeRule ℚ) (target : clqmcLatticeRuleStream ℚ) (i : Nat)
    (hn : 0 < n) (hn32 : n < UINT_RANGE) (hs32 : s < UINT_RANGE) (hg : g.length = s)
    (hvalid : ∀ a ∈ g, 1 ≤ a ∧ a ≤ (n : Int) - 1)
    (hc : clqmcLatticeRuleCreate (exactFp typeName sizeof) malloc es n s g = some r)
    (hL : r.lattice = some L) (hi : i < n) :
    clqmcLatticeRuleCreateOverStream (exactFp typeName sizeof) es2 (some target) L 1 0 none
      = some { status := CLQMC_SUCCESS,
               stream := some { lattice := L, pointIndex := 0, coordinateIndex := 0,
                                shift := none },
               errorString := es2 } ∧
    nextCoordinates (exactFp typeName sizeof) s
        (forwardPoints i { lattice := L, pointIndex := 0, coordinateIndex := 0, shift := none })
      = some (g.map (fun a =>
                ((((i : Int) * (a % (n : Int))) % (n : Int) : Int) : ℚ) / (n : ℚ)),
              { lattice := L, pointIndex := i, coordinateIndex := s, shift := none }) := by
  have hLeq := create_lattice_eq _ malloc es n s g r L hn hg hc hL
  subst hLeq
  constructor
  · rw [createOverStream_success _ es2 target _ 1 0 none (by decide) (Nat.mod_one _)]
    simp
  · rw [forwardPoints_fresh i _ rfl (by simp; omega)]
    have hok : StreamArraysOk
        ({ lattice := { numPoints := n, dimension := s, genVec := g,
                        genVecNormed := normedOf (exactFp typeName sizeof) n g },
           pointIndex := 0 + i, coordinateIndex := 0, shift := none } :
          clqmcLatticeRuleStream ℚ) := by
      refine ⟨?_, hs32, ?_⟩
      · simp [normedOf, hg]
      · intro sh h
        simp at h
    rw [nextCoordinates_inside _ _ hok rfl s (Nat.le_refl _)]
    simp only [Nat.zero_add, Option.some.injEq, Prod.mk.injEq, and_true]
    subst hg
    rw [← range_map_getD_map g 0 (fun a =>
      ((((i : Int) * (a % (n : Int))) % (n : Int) : Int) : ℚ) / (n : ℚ))]
    apply List.map_congr_left
    intro j hj
    have hj2 : j < g.length := List.mem_range.mp hj
    have hmem : g.getD j 0 ∈ g := by
      simp [List.getD, List.getElem?_eq_getElem hj2]
    obtain ⟨hlo, hhi⟩ := hvalid _ hmem
    have hlt : g.getD j 0 < (UINT_RANGE : Int) := by
      have : (n : Int) < (UINT_RANGE : Int) := by exact_mod_cast hn32
      omega
    rw [coordinateOf_exact typeName sizeof n g.length g i 0 j none hn hj2 (by omega) hlt
      (by simp [shiftAt, exactFp])]
    have hz : shiftAt (exactFp typeName sizeof) none j = 0 := rfl
    rw [hz, add_zero]
    have hmod : ((i : Int) * g.getD j 0) % (n : Int)
        = ((i : Int) * (g.getD j 0 % (n : Int))) % (n : Int) := by
      rw [Int.mul_emod, Int.mul_emod (i : Int) (g.getD j 0 % (n : Int)), Int.emod_emod]
    rw [← hmod]
    exact Int.fract_eq_iff.mpr ⟨latticeCoordinate_nonneg n _ i hn,
      latticeCoordinate_lt_one n _ i hn, 0, by simp [latticeCoordinate]⟩

/-- Witness for C1: `n = 8`, `s = 1`, `g = [3]` gives `0, 3/8, 6/8, 1/8, 4/8,
7/8, 2/8, 5/8` for the points `0, ..., 7`. -/
theorem unshifted_enumeration_formula_witness :
    (List.range 8).map (fun i =>
      (nextCoordinates clqmc_double 1
        (forwardPoints i { lattice := exampleLattice, pointIndex := 0, coordinateIndex := 0,
                           shift := none })).map (fun p => p.1))
      = [some [0], some [3 / 8], some [6 / 8], some [1 / 8], some [4 / 8], some [7 / 8],
         some [2 / 8], some [5 / 8]] := by
  have key : ∀ i, i < 8 →
      (nextCoordinates clqmc_double 1
        (forwardPoints i { lattice := exampleLattice, pointIndex := 0, coordinateIndex := 0,
                           shift := none })).map (fun p => p.1)
        = some [((((i : Int) * (3 % 8)) % 8 : Int) : ℚ) / 8] := by
    intro i hi
    have h := (unshifted_enumeration_formula "clqmc_double" 8 (fun _ => true) "" "" 8 1 [3] _
      exampleLattice (blankStream ℚ) i (by decide) (by decide) (by decide) rfl
      (by decide) exampleLattice_created rfl hi).2
    rw [show clqmc_double = exactFp "clqmc_double" 8 from rfl, h]
    simp
  simp only [List.range_succ, List.range_zero, List.nil_append, List.cons_append, List.map]
  rw [key 0 (by decide), key 1 (by decide), key 2 (by decide), key 3 (by decide),
    key 4 (by decide), key 5 (by decide), key 6 (by decide), key 7 (by decide)]
  norm_num

/-- C2: over exact rational arithmetic, for a lattice created with `n > 0`
points and a generating vector with entries in `[1, n-1]`, and a shift vector
`S` with entries in `[0, 1)`, a stream standing at point `i` (in particular
every `i < n`) and coordinate `j < s` returns from `clqmcLatticeRuleNextCoordinate` the value
`(u + S[j]) mod 1` with `u = ((i * g[j]) mod n) / n`; this value is `u + S[j]`
reduced by one when it reaches one, and it lies in `[0, 1)`. -/
theorem shifted_coordinate_formula (typeName : String) (sizeof : Nat) (malloc : Nat → Bool)
    (es : String) (n s : Nat) (g : List Int) (r : CreateResult ℚ)
    (L : clqmcLatticeRule ℚ) (S : List ℚ) (i j : Nat)
    (hn : 0 < n) (hn32 : n < UINT_RANGE) (hs32 : s < UINT_RANGE) (hg : g.length = s)
    (hvalid : ∀ a ∈ g, 1 ≤ a ∧ a ≤ (n : Int) - 1)
    (hc : clqmcLatticeRuleCreate (exactFp typeName sizeof) malloc es n s g = some r)
    (hL : r.lattice = some L)
    (hS : S.length = s) (hS01 : ∀ x ∈ S, 0 ≤ x ∧ x < 1) (hj : j < s) :
    clqmcLatticeRuleNextCoordinate (exactFp typeName sizeof)
        { lattice := L, pointIndex := i, coordinateIndex := j, shift := some S }
      = some (Int.fract (latticeCoordinate n (g.getD j 0) i + S.getD j 0),
              { lattice := L, pointIndex := i, coordinateIndex := j + 1, shift := some S }) ∧
    Int.fract (latticeCoordinate n (g.getD j 0) i + S.getD j 0)
      = (if latticeCoordinate n (g.getD j 0) i + S.getD j 0 < 1
          then latticeCoordinate n (g.getD j 0) i + S.getD j 0
          else latticeCoordinate n (g.getD j 0) i + S.getD j 0 - 1) ∧
    0 ≤ Int.fract (latticeCoordinate n (g.getD j 0) i + S.getD j 0) ∧
    Int.fract (latticeCoordinate n (g.getD j 0) i + S.getD j 0) < 1 := by
  have hLeq := create_lattice_eq _ malloc es n s g r L hn hg hc hL
  subst hLeq
  have hjg : j < g.length := by omega
  have hjS : j < S.length := by omega
  have hmem : g.getD j 0 ∈ g := by
    simp [List.getD, List.getElem?_eq_getElem hjg]
  have hmemS : S.getD j 0 ∈ S := by
    simp [List.getD, List.getElem?_eq_getElem hjS]
  obtain ⟨hlo, hhi⟩ := hvalid _ hmem
  obtain ⟨hS0, hS1⟩ := hS01 _ hmemS
  have hlt : g.getD j 0 < (UINT_RANGE : Int) := by
    have : (n : Int) < (UINT_RANGE : Int) := by exact_mod_cast hn32
    omega
  have hu0 := latticeCoordinate_nonneg n (g.getD j 0) i hn
  have hu1 := latticeCoordinate_lt_one n (g.getD j 0) i hn
  refine ⟨?_, ?_, Int.fract_nonneg _, Int.fract_lt_one _⟩
  · have hok : StreamArraysOk
        ({ lattice := { numPoints := n, dimension := s, genVec := g,
                        genVecNormed := normedOf (exactFp typeName sizeof) n g },
           pointIndex := i, coordinateIndex := j, shift := some S } :
          clqmcLatticeRuleStream ℚ) := by
      refine ⟨?_, hs32, ?_⟩
      · simp [normedOf, hg]
      · intro sh h
        simp at h
        subst h
        exact le_of_eq hS.symm
    rw [nextCoordinate_inside _ _ hok hj]
    have hsh : shiftAt (exactFp typeName sizeof) (some S) j = S.getD j 0 := rfl
    rw [coordinateOf_exact typeName sizeof n s g i j j (some S) hn hjg (by omega) hlt
      (by rw [hsh]; exact hS0), hsh]
  · split_ifs with h
    · exact Int.fract_eq_iff.mpr ⟨by linarith, h, 0, by simp⟩
    · exact Int.fract_eq_iff.mpr ⟨by linarith, by linarith, 1, by simp⟩

/-- Witness for C2: the lattice with `n = 8`, `g = [3]`, the shift `[3/4]`,
point `1`, coordinate `0`: the value is `(3/8 + 3/4) mod 1 = 1/8`. -/
theorem shifted_coordinate_formula_witness :
    clqmcLatticeRuleNextCoordinate clqmc_double
        { lattice := exampleLattice, pointIndex := 1, coordinateIndex := 0,
          shift := some [3 / 4] }
      = some (Int.fract (latticeCoordinate 8 3 1 + 3 / 4),
              { lattice := exampleLattice, pointIndex := 1, coordinateIndex := 1,
                shift := some [3 / 4] }) ∧
    Int.fract (latticeCoordinate 8 3 1 + 3 / 4) = 1 / 8 := by
  have h := shifted_coordinate_formula "clqmc_double" 8 (fun _ => true) "" 8 1 [3] _
    exampleLattice [3 / 4] 1 0 (by decide) (by decide) (by decide) rfl (by decide)
    exampleLattice_created rfl rfl (by intro x hx; simp at hx; subst hx; norm_num)
    (by decide)
  refine ⟨h.1, ?_⟩
  have h2 := h.2.1
  simp only [List.getD_cons_zero] at h2
  rw [h2]
  norm_num [latticeCoordinate]

/-- The outcome of `clqmcLatticeRuleCreateOverStream` on a present target, by
cases on the partition arguments. -/
theorem createOverStream_present {F : Type} (fp : FpType F) (es : String)
    (st : clqmcLatticeRuleStream F) (lattice : clqmcLatticeRule F)
    (partCount partIndex : Nat) (shift : Option (List F)) :
    ∃ r, clqmcLatticeRuleCreateOverStream fp es (some st) lattice partCount partIndex shift
        = some r ∧
      ((partCount ≤ partIndex ∨ lattice.numPoints % partCount ≠ 0) →
        r.status = CLQMC_INVALID_VALUE ∧ r.stream = some st) ∧
      (¬ (partCount ≤ partIndex ∨ lattice.numPoints % partCount ≠ 0) →
        r.status = CLQMC_SUCCESS ∧ r.errorString = es ∧
        r.stream = some { lattice := lattice,
                          pointIndex := (lattice.numPoints / partCount * partIndex) % UINT_RANGE,
                          coordinateIndex := 0, shift := shift }) := by
  by_cases h1 : partCount ≤ partIndex
  · refine ⟨_, by simp [clqmcLatticeRuleCreateOverStream, h1]; rfl, ?_, ?_⟩
    · intro _
      exact ⟨rfl, rfl⟩
    · intro h
      exact absurd (Or.inl h1) h
  · have hpc : partCount ≠ 0 := by omega
    by_cases h2 : lattice.numPoints % partCount = 0
    · refine ⟨_, createOverStream_success fp es st lattice partCount partIndex shift
        (by omega) h2, ?_, ?_⟩
      · intro h
        rcases h with h | h
        · exact absurd h h1
        · exact absurd h2 h
      · intro _
        exact ⟨rfl, rfl, rfl⟩
    · refine ⟨_, by simp [clqmcLatticeRuleCreateOverStream, h1, umod, hpc, h2]; rfl, ?_, ?_⟩
      · intro _
        exact ⟨rfl, rfl⟩
      · intro h
        exact absurd (Or.inr h2) h

theorem invalid_ne_success : CLQMC_INVALID_VALUE ≠ CLQMC_SUCCESS := by decide

theorem freshStream_coordinateIndex {F : Type} (fp : FpType F) (st : clqmcLatticeRuleStream F)
    (h : FreshStream fp st) : st.coordinateIndex = 0 := by
  rcases h with ⟨es, target, lattice, partCount, partIndex, shift, es2, h⟩ | ⟨st0, h⟩
  · cases target with
    | none =>
      simp [clqmcLatticeRuleCreateOverStream] at h
    | some t =>
      obtain ⟨r, hr, hbad, hgood⟩ :=
        createOverStream_present fp es t lattice partCount partIndex shift
      rw [hr] at h
      injection h with h
      subst h
      by_cases hc : partCount ≤ partIndex ∨ lattice.numPoints % partCount ≠ 0
      · exact absurd (hbad hc).1.symm invalid_ne_success
      · have := (hgood hc).2.2
        simp at this
        rw [this]
  · rw [← h]
    rfl

/-- C3: for a stream just created by `clqmcLatticeRuleCreateOverStream` or
just advanced by `clqmcLatticeRuleForwardToNextPoint`, over a lattice of
dimension `s`, call number `k + 1` of `clqmcLatticeRuleNextCoordinate` with
`k < s` returns the coordinate value `fmod(normalized[k] * pointIndex + shift, 1.0)`,
which is not the sentinel, and moves `coordinateIndex` from `k` to `k + 1`;
every call after the first `s` returns exactly `-1.0` and leaves the stream as
it was.  The statement is the same for every floating-point type `fp`, single
or double precision, whose `fmod(x, 1.0)` is never `-1.0`. -/
theorem next_coordinate_exhaustion {F : Type} (fp : FpType F) (st : clqmcLatticeRuleStream F)
    (hfresh : FreshStream fp st) (hok : StreamArraysOk st)
    (hfmod : ∀ x, fp.fmod x fp.one ≠ fp.negOne) :
    (∀ k, k < st.lattice.dimension →
      ∃ vals, nextCoordinates fp k st = some (vals, { st with coordinateIndex := k }) ∧
        vals.length = k ∧
        clqmcLatticeRuleNextCoordinate fp { st with coordinateIndex := k }
          = some (coordinateOf fp st k, { st with coordinateIndex := k + 1 }) ∧
        coordinateOf fp st k ≠ fp.negOne) ∧
    (∀ k, st.lattice.dimension ≤ k →
      ∃ vals, nextCoordinates fp k st
          = some (vals, { st with coordinateIndex := st.lattice.dimension }) ∧
        vals.length = k ∧
        clqmcLatticeRuleNextCoordinate fp { st with coordinateIndex := st.lattice.dimension }
          = some (fp.negOne, { st with coordinateIndex := st.lattice.dimension })) := by
  have h0 := freshStream_coordinateIndex fp st hfresh
  constructor
  · intro k hk
    refine ⟨_, nextCoordinates_inside fp st hok h0 k (Nat.le_of_lt hk), by simp, ?_, ?_⟩
    · have hok1 : StreamArraysOk { st with coordinateIndex := k } := hok
      exact nextCoordinate_inside fp { st with coordinateIndex := k } hok1 hk
    · exact hfmod _
  · intro k hk
    obtain ⟨m, rfl⟩ := Nat.exists_eq_add_of_le hk
    refine ⟨_, nextCoordinates_exhausted fp st hok h0 m, by simp, ?_⟩
    exact nextCoordinate_exhausted fp _ (Nat.le_refl _)

/-- Witness for C3: the single-precision stream over the lattice with `n = 8`,
`g = [3]`, created for the whole point set: the first call returns the
coordinate `0`, the second call returns `-1` and changes nothing. -/
theorem next_coordinate_exhaustion_witness :
    clqmcLatticeRuleNextCoordinate clqmc_float
        { lattice := exampleLattice, pointIndex := 0, coordinateIndex := 0, shift := none }
      = some (0, { lattice := exampleLattice, pointIndex := 0, coordinateIndex := 1,
                   shift := none }) ∧
    clqmcLatticeRuleNextCoordinate clqmc_float
        { lattice := exampleLattice, pointIndex := 0, coordinateIndex := 1, shift := none }
      = some (-1, { lattice := exampleLattice, pointIndex := 0, coordinateIndex := 1,
                    shift := none }) := by
  have h := next_coordinate_exhaustion clqmc_float
    { lattice := exampleLattice, pointIndex := 0, coordinateIndex := 0, shift := none }
    (Or.inl ⟨"", some (blankStream ℚ), exampleLattice, 1, 0, none, "",
      by rw [createOverStream_success _ _ _ _ 1 0 none (by decide) (Nat.mod_one _)]; rfl⟩)
    ⟨rfl, by decide, by intro sh hsh; simp at hsh⟩
    (fun x => fmodQ_one_ne_neg_one x)
  obtain ⟨_, _, _, h1, _⟩ := h.1 0 (by decide)
  obtain ⟨_, _, _, h2⟩ := h.2 1 (by decide)
  refine ⟨?_, h2⟩
  rw [h1]
  simp [coordinateOf, coordinateExpr, shiftAt, clqmc_float, exactFp, exampleLattice, fmodQ,
    truncQ]

/-- C4: for `n > 0` points and `partCount > 0` dividing `n`, the streams
created for `partIndex = 0, ..., partCount - 1` start at
`(n / partCount) * partIndex`, and the ranges
`[(n / partCount) * partIndex, (n / partCount) * (partIndex + 1))` are pairwise
disjoint and their union is exactly `[0, n)`. -/
theorem partition_ranges_tile {F : Type} (fp : FpType F) (es : String)
    (target : clqmcLatticeRuleStream F) (lattice : clqmcLatticeRule F)
    (shift : Option (List F)) (partCount : Nat)
    (hn : 0 < lattice.numPoints) (hn32 : lattice.numPoints < UINT_RANGE)
    (hpc : 0 < partCount) (hdvd : partCount ∣ lattice.numPoints) :
    (∀ partIndex, partIndex < partCount →
      clqmcLatticeRuleCreateOverStream fp es (some target) lattice partCount partIndex shift
        = some { status := CLQMC_SUCCESS,
                 stream := some { lattice := lattice,
                                  pointIndex := lattice.numPoints / partCount * partIndex,
                                  coordinateIndex := 0, shift := shift },
                 errorString := es }) ∧
    (∀ p q, p < partCount → q < partCount → p ≠ q →
      Disjoint
        (Finset.Ico (lattice.numPoints / partCount * p) (lattice.numPoints / partCount * (p + 1)))
        (Finset.Ico (lattice.numPoints / partCount * q)
          (lattice.numPoints / partCount * (q + 1)))) ∧
    (Finset.range partCount).biUnion (fun p =>
        Finset.Ico (lattice.numPoints / partCount * p) (lattice.numPoints / partCount * (p + 1)))
      = Finset.range lattice.numPoints := by
  obtain ⟨b, hb⟩ := hdvd
  have hdiv : lattice.numPoints / partCount = b := by
    rw [hb, Nat.mul_div_cancel_left b hpc]
  have hb0 : 0 < b := by
    rcases Nat.eq_zero_or_pos b with h | h
    · rw [h, Nat.mul_zero] at hb
      omega
    · exact h
  have hmem : ∀ p i, i ∈ Finset.Ico (b * p) (b * (p + 1)) ↔ i / b = p := by
    intro p i
    rw [Finset.mem_Ico]
    constructor
    · rintro ⟨h1, h2⟩
      apply le_antisymm
      · exact Nat.lt_succ_iff.mp
          ((Nat.div_lt_iff_lt_mul hb0).mpr (by rw [Nat.mul_comm]; exact h2))
      · exact (Nat.le_div_iff_mul_le hb0).mpr (by rw [Nat.mul_comm]; exact h1)
    · intro h
      subst h
      constructor
      · rw [Nat.mul_comm]; exact Nat.div_mul_le_self i b
      · rw [Nat.mul_comm]; exact (Nat.div_lt_iff_lt_mul hb0).mp (Nat.lt_succ_self _)
  rw [hdiv]
  refine ⟨?_, ?_, ?_⟩
  · intro partIndex hpi
    have hmod : lattice.numPoints % partCount = 0 := by
      rw [hb]; exact Nat.mul_mod_right _ _
    rw [createOverStream_success fp es target lattice partCount partIndex shift hpi hmod, hdiv]
    have hlt : b * partIndex < UINT_RANGE := by
      have h1 : b * partIndex ≤ b * partCount := Nat.mul_le_mul_left b (Nat.le_of_lt hpi)
      have h2 : b * partCount = lattice.numPoints := by rw [hb, Nat.mul_comm]
      omega
    rw [Nat.mod_eq_of_lt hlt]
  · intro p q _ _ hpq
    rw [Finset.disjoint_left]
    intro i hi hi2
    exact hpq (((hmem p i).mp hi).symm.trans ((hmem q i).mp hi2))
  · ext i
    simp only [Finset.mem_biUnion, Finset.mem_range]
    constructor
    · rintro ⟨p, hp, hi⟩
      have h1 := (hmem p i).mp hi
      rw [← h1] at hp
      rw [hb]
      exact (Nat.div_lt_iff_lt_mul hb0).mp hp
    · intro hi
      refine ⟨i / b, ?_, (hmem _ i).mpr rfl⟩
      rw [hb] at hi
      exact (Nat.div_lt_iff_lt_mul hb0).mpr hi

/-- Witness for C4: `n = 8` and `partCount = 2`: partition `0` covers the
indices `0..3`, partition `1` covers `4..7`. -/
theorem partition_ranges_tile_witness :
    clqmcLatticeRuleCreateOverStream clqmc_double "" (some (blankStream ℚ)) exampleLattice 2 1
        none
      = some { status := CLQMC_SUCCESS,
               stream := some { lattice := exampleLattice, pointIndex := 4,
                                coordinateIndex := 0, shift := none },
               errorString := "" } ∧
    Disjoint (Finset.Ico 0 4) (Finset.Ico 4 8) ∧
    (Finset.range 2).biUnion (fun p => Finset.Ico (4 * p) (4 * (p + 1))) = Finset.range 8 := by
  have h := partition_ranges_tile clqmc_double "" (blankStream ℚ) exampleLattice none 2
    (by decide) (by decide) (by decide) (by decide)
  exact ⟨h.1 1 (by decide), h.2.1 0 1 (by decide) (by decide) (by decide), h.2.2⟩

/-- The outcome of `clqmcLatticeRuleCreateOverStream` on an absent target. -/
theorem createOverStream_absent {F : Type} (fp : FpType F) (es : String)
    (lattice : clqmcLatticeRule F) (partCount partIndex : Nat) (shift : Option (List F)) :
    ∃ r, clqmcLatticeRuleCreateOverStream fp es none lattice partCount partIndex shift = some r ∧
      r.status = CLQMC_INVALID_VALUE ∧ r.stream = none :=
  ⟨_, rfl, rfl, rfl⟩

/-- C5: with a present target stream `clqmcLatticeRuleCreateOverStream`
returns `CLQMC_INVALID_VALUE` if and only if `partIndex >= partCount` or
`n mod partCount != 0`, and `CLQMC_SUCCESS` otherwise; with an absent target
stream it returns `CLQMC_INVALID_VALUE`. -/
theorem createOverStream_status {F : Type} (fp : FpType F) (es : String)
    (st : clqmcLatticeRuleStream F) (lattice : clqmcLatticeRule F)
    (partCount partIndex : Nat) (shift : Option (List F)) :
    (∃ r, clqmcLatticeRuleCreateOverStream fp es (some st) lattice partCount partIndex shift
        = some r ∧
      (r.status = CLQMC_INVALID_VALUE ↔
        (partIndex ≥ partCount ∨ lattice.numPoints % partCount ≠ 0)) ∧
      (r.status = CLQMC_SUCCESS ↔
        ¬ (partIndex ≥ partCount ∨ lattice.numPoints % partCount ≠ 0))) ∧
    (∃ r, clqmcLatticeRuleCreateOverStream fp es none lattice partCount partIndex shift
        = some r ∧
      r.status = CLQMC_INVALID_VALUE) := by
  constructor
  · obtain ⟨r, hr, hbad, hgood⟩ :=
      createOverStream_present fp es st lattice partCount partIndex shift
    refine ⟨r, hr, ?_, ?_⟩
    · constructor
      · intro h
        by_contra hc
        have h2 := (hgood hc).1
        rw [h] at h2
        exact invalid_ne_success h2
      · intro hc
        exact (hbad hc).1
    · constructor
      · intro h hc
        have h2 := (hbad hc).1
        rw [h] at h2
        exact invalid_ne_success h2.symm
      · intro hc
        exact (hgood hc).1
  · obtain ⟨r, hr, h, _⟩ := createOverStream_absent fp es lattice partCount partIndex shift
    exact ⟨r, hr, h⟩

/-- C6: whenever `clqmcLatticeRuleCreateOverStream` returns `CLQMC_SUCCESS`
for a lattice of `n > 0` points, the target stream has
`pointIndex = (n / partCount) * partIndex`, a product that does not overflow
32 bits and is less than `n`, `coordinateIndex = 0`, the lattice passed in
and the shift passed in (absent if none was given). -/
theorem createOverStream_postcondition {F : Type} (fp : FpType F) (es : String)
    (target : Option (clqmcLatticeRuleStream F)) (lattice : clqmcLatticeRule F)
    (partCount partIndex : Nat) (shift : Option (List F)) (r : CreateOverResult F)
    (hn : 0 < lattice.numPoints) (hn32 : lattice.numPoints < UINT_RANGE)
    (hr : clqmcLatticeRuleCreateOverStream fp es target lattice partCount partIndex shift
      = some r)
    (hs : r.status = CLQMC_SUCCESS) :
    ∃ st, r.stream = some st ∧
      st.pointIndex = lattice.numPoints / partCount * partIndex ∧
      lattice.numPoints / partCount * partIndex < UINT_RANGE ∧
      st.pointIndex < lattice.numPoints ∧
      st.coordinateIndex = 0 ∧
      st.lattice = lattice ∧
      st.shift = shift := by
  cases target with
  | none =>
    obtain ⟨r2, hr2, h, _⟩ := createOverStream_absent fp es lattice partCount partIndex shift
    rw [hr] at hr2
    injection hr2 with hr2
    subst hr2
    rw [hs] at h
    exact absurd h.symm invalid_ne_success
  | some t =>
    obtain ⟨r2, hr2, hbad, hgood⟩ :=
      createOverStream_present fp es t lattice partCount partIndex shift
    rw [hr] at hr2
    injection hr2 with hr2
    subst hr2
    by_cases hc : partCount ≤ partIndex ∨ lattice.numPoints % partCount ≠ 0
    · have h := (hbad hc).1
      rw [hs] at h
      exact absurd h.symm invalid_ne_success
    · have hpi : partIndex < partCount := by
        by_contra h
        exact hc (Or.inl (Nat.le_of_not_lt h))
      have hmod : lattice.numPoints % partCount = 0 := by
        by_contra h
        exact hc (Or.inr h)
      have hlt : lattice.numPoints / partCount * partIndex < lattice.numPoints := by
        have hq : 0 < lattice.numPoints / partCount := by
          apply Nat.div_pos _ (by omega)
          exact Nat.le_of_dvd hn (Nat.dvd_of_mod_eq_zero hmod)
        calc lattice.numPoints / partCount * partIndex
            < lattice.numPoints / partCount * partCount := Nat.mul_lt_mul_of_pos_left hpi hq
          _ = lattice.numPoints := Nat.div_mul_cancel (Nat.dvd_of_mod_eq_zero hmod)
      have hwrap : (lattice.numPoints / partCount * partIndex) % UINT_RANGE
          = lattice.numPoints / partCount * partIndex := Nat.mod_eq_of_lt (by omega)
      refine ⟨_, (hgood hc).2.2, ?_, by omega, ?_, rfl, rfl, rfl⟩
      · exact hwrap
      · show (lattice.numPoints / partCount * partIndex) % UINT_RANGE < lattice.numPoints
        rw [hwrap]
        exact hlt

/-- Witness for C6: partition `1` of `2` of the lattice with `n = 8`. -/
theorem createOverStream_postcondition_witness :
    ∃ st : clqmcLatticeRuleStream ℚ,
      some { lattice := exampleLattice, pointIndex := 4, coordinateIndex := 0,
             shift := some [1 / 2] } = some st ∧
      st.pointIndex = 8 / 2 * 1 ∧ 8 / 2 * 1 < UINT_RANGE ∧ st.pointIndex < 8 ∧
      st.coordinateIndex = 0 ∧ st.lattice = exampleLattice ∧ st.shift = some [1 / 2] :=
  createOverStream_postcondition clqmc_double "" (some (blankStream ℚ)) exampleLattice 2 1
    (some [1 / 2])
    { status := CLQMC_SUCCESS,
      stream := some { lattice := exampleLattice, pointIndex := 4, coordinateIndex := 0,
                       shift := some [1 / 2] },
      errorString := "" }
    (by decide) (by decide)
    (by rw [createOverStream_success _ _ _ _ 2 1 _ (by decide) (by decide)]; rfl)
    rfl

/-- C7: a call of `clqmcLatticeRuleCreateOverStream` that returns a status
other than `CLQMC_SUCCESS` leaves the target stream, with its four fields
`lattice`, `pointIndex`, `coordinateIndex` and `shift`, as it was before the
call. -/
theorem createOverStream_failure_keeps_stream {F : Type} (fp : FpType F) (es : String)
    (target : Option (clqmcLatticeRuleStream F)) (lattice : clqmcLatticeRule F)
    (partCount partIndex : Nat) (shift : Option (List F)) (r : CreateOverResult F)
    (hr : clqmcLatticeRuleCreateOverStream fp es target lattice partCount partIndex shift
      = some r)
    (hs : r.status ≠ CLQMC_SUCCESS) :
    r.stream = target := by
  cases target with
  | none =>
    obtain ⟨r2, hr2, _, h⟩ := createOverStream_absent fp es lattice partCount partIndex shift
    rw [hr] at hr2
    injection hr2 with hr2
    subst hr2
    exact h
  | some t =>
    obtain ⟨r2, hr2, hbad, hgood⟩ :=
      createOverStream_present fp es t lattice partCount partIndex shift
    rw [hr] at hr2
    injection hr2 with hr2
    subst hr2
    by_cases hc : partCount ≤ partIndex ∨ lattice.numPoints % partCount ≠ 0
    · exact (hbad hc).2
    · exact absurd (hgood hc).1 hs

/-- Witness for C7: three partitions of the lattice with `n = 8` are refused
and the target stream is kept. -/
theorem createOverStream_failure_keeps_stream_witness :
    (CreateOverResult.mk CLQMC_INVALID_VALUE
        (some { lattice := exampleLattice, pointIndex := 5, coordinateIndex := 1,
                shift := none })
        "[invalid value] clqmcLatticeRuleCreateOverStream_clqmc_double(): number of points must be a multiple of partCount").stream
      = some { lattice := exampleLattice, pointIndex := 5, coordinateIndex := 1,
               shift := none } :=
  createOverStream_failure_keeps_stream clqmc_double ""
    (some { lattice := exampleLattice, pointIndex := 5, coordinateIndex := 1, shift := none })
    exampleLattice 3 0 (some [1 / 2]) _
    (by simp [clqmcLatticeRuleCreateOverStream, umod, exampleLattice, clqmcSetErrorString,
          clqmc_double, exactFp, CLQMC_INVALID_VALUE, CLQMC_SUCCESS, CLQMC_OUT_OF_RESOURCES,
          CL_INVALID_VALUE, CL_SUCCESS, CL_OUT_OF_RESOURCES, MSG_INVALID_VALUE])
    (by decide)

/-- C8, evaluated on the code: for `n = 3` and the generating vector `[-1]`
`clqmcLatticeRuleCreate` stores `normalized[0] = 0`, because `-1` is converted
to the unsigned value `4294967295` before the remainder is taken and the test
`gen < 0` on the unsigned `gen` never holds; the non-negative residue of `-1`
modulo `3` divided by `3` is `2/3`. -/
theorem create_negative_entry_not_corrected :
    clqmcLatticeRuleCreate clqmc_double (fun _ => true) "" 3 1 [-1]
      = some { lattice := some { numPoints := 3, dimension := 1, genVec := [-1],
                                 genVecNormed := [0] },
               objectSize := some 20, err := CLQMC_SUCCESS, errorString := "" } ∧
    toUint (-1) = 4294967295 ∧
    ((((Int.tmod (Int.tmod (-1) 3 + 3) 3 : Int) : ℚ) / 3) = 2 / 3) ∧
    (0 : ℚ) ≠ 2 / 3 := by
  refine ⟨?_, by decide, ?_, by norm_num⟩
  · rw [show clqmc_double = exactFp "clqmc_double" 8 from rfl,
      create_success _ _ _ 3 1 [-1] (by decide) rfl rfl]
    simp [normedOf, exactFp, toUint, UINT_RANGE, SIZE_RANGE]
  · rw [show Int.tmod (Int.tmod (-1) 3 + 3) 3 = 2 from by decide]
    norm_num

/-- C9: for `n > 0` and a generating vector of `s` integers, every entry of
the normalised generating vector that `clqmcLatticeRuleCreate` computes is,
over exact arithmetic, the rational `gen / n` with `gen` the unsigned
remainder the code takes, and satisfies `0 <= normalized[j] < 1`. -/
theorem create_normalized_in_unit_interval (typeName : String) (sizeof : Nat)
    (malloc : Nat → Bool) (es : String) (n s : Nat) (g : List Int) (r : CreateResult ℚ)
    (L : clqmcLatticeRule ℚ)
    (hn : 0 < n) (hg : g.length = s)
    (hc : clqmcLatticeRuleCreate (exactFp typeName sizeof) malloc es n s g = some r)
    (hL : r.lattice = some L) :
    L.genVecNormed = g.map (fun a => ((toUint a % n : Nat) : ℚ) / (n : ℚ)) ∧
    L.genVecNormed.length = s ∧
    ∀ x ∈ L.genVecNormed, 0 ≤ x ∧ x < 1 := by
  have hLeq := create_lattice_eq _ malloc es n s g r L hn hg hc hL
  subst hLeq
  have hq : (0 : ℚ) < (n : ℚ) := by exact_mod_cast hn
  have hnorm : normedOf (exactFp typeName sizeof) n g
      = g.map (fun a => ((toUint a % n : Nat) : ℚ) / (n : ℚ)) := by
    simp [normedOf, exactFp, div_eq_mul_inv]
  refine ⟨hnorm, by simp [normedOf, hg], ?_⟩
  intro x hx
  simp only [hnorm, List.mem_map] at hx
  obtain ⟨a, _, rfl⟩ := hx
  constructor
  · exact div_nonneg (by positivity) (le_of_lt hq)
  · rw [div_lt_one hq]
    exact_mod_cast Nat.mod_lt (toUint a) hn

/-- Witness for C9: the lattice with `n = 8` and `g = [3]` has the normalised
generating vector `[3/8]`. -/
theorem create_normalized_in_unit_interval_witness :
    exampleLattice.genVecNormed = [3].map (fun a => ((toUint a % 8 : Nat) : ℚ) / ((8 : Nat) : ℚ)) ∧
    exampleLattice.genVecNormed.length = 1 ∧
    ∀ x ∈ exampleLattice.genVecNormed, 0 ≤ x ∧ x < 1 :=
  create_normalized_in_unit_interval "clqmc_double" 8 (fun _ => true) "" 8 1 [3] _
    exampleLattice (by decide) rfl exampleLattice_created rfl

/-- C10: `clqmcLatticeRuleForwardToNextPoint` sets `coordinateIndex` to `0`,
increases `pointIndex` by one modulo `2^32`, returns the new `pointIndex` and
keeps the lattice and the shift, whatever the number of points of the lattice
is; afterwards `clqmcLatticeRuleCurrentPointIndex` returns the new
`pointIndex` and `clqmcLatticeRuleCurrentCoordIndex` returns `0`.  The
advance past the last point of the lattice with `n = 8` is shown as well. -/
theorem forwardToNextPoint_effect {F : Type} (st : clqmcLatticeRuleStream F) :
    (clqmcLatticeRuleForwardToNextPoint st).2.coordinateIndex = 0 ∧
    (clqmcLatticeRuleForwardToNextPoint st).2.pointIndex = (st.pointIndex + 1) % UINT_RANGE ∧
    (clqmcLatticeRuleForwardToNextPoint st).1 = (st.pointIndex + 1) % UINT_RANGE ∧
    (clqmcLatticeRuleForwardToNextPoint st).2.lattice = st.lattice ∧
    (clqmcLatticeRuleForwardToNextPoint st).2.shift = st.shift ∧
    clqmcLatticeRuleCurrentPointIndex (clqmcLatticeRuleForwardToNextPoint st).2
      = (clqmcLatticeRuleForwardToNextPoint st).1 ∧
    clqmcLatticeRuleCurrentCoordIndex (clqmcLatticeRuleForwardToNextPoint st).2 = 0 ∧
    clqmcLatticeRuleForwardToNextPoint
        ({ lattice := exampleLattice, pointIndex := 7, coordinateIndex := 1, shift := none } :
          clqmcLatticeRuleStream ℚ)
      = (8, { lattice := exampleLattice, pointIndex := 8, coordinateIndex := 0,
              shift := none }) :=
  ⟨rfl, rfl, rfl, rfl, rfl, rfl, rfl, rfl⟩

/-! ## Auxiliary facts about the statistics -/

theorem forFold_finite_sum (body : Nat → ExactFloat → Option ExactFloat) (f : Nat → ℚ)
    (k : Nat) (a : ℚ)
    (h : ∀ j, j < k → ∀ x, body j (ExactFloat.finite x) = some (ExactFloat.finite (x + f j))) :
    forFold body k (ExactFloat.finite a)
      = some (ExactFloat.finite (a + ((List.range k).map f).sum)) := by
  induction k with
  | zero => simp [forFold]
  | succ k ih =>
    rw [forFold, ih (fun j hj => h j (Nat.lt_succ_of_lt hj))]
    simp only [h k (Nat.lt_succ_self k)]
    simp [List.range_succ, add_assoc]

theorem forFold_finite_sum_pair
    (body : Nat → ExactFloat × ExactFloat → Option (ExactFloat × ExactFloat))
    (f g : Nat → ℚ) (k : Nat) (a b : ℚ)
    (h : ∀ j, j < k → ∀ x y, body j (ExactFloat.finite x, ExactFloat.finite y)
      = some (ExactFloat.finite (x + f j), ExactFloat.finite (y + g j))) :
    forFold body k (ExactFloat.finite a, ExactFloat.finite b)
      = some (ExactFloat.finite (a + ((List.range k).map f).sum),
              ExactFloat.finite (b + ((List.range k).map g).sum)) := by
  induction k with
  | zero => simp [forFold]
  | succ k ih =>
    rw [forFold, ih (fun j hj => h j (Nat.lt_succ_of_lt hj))]
    simp only [h k (Nat.lt_succ_self k)]
    simp [List.range_succ, add_assoc]

theorem map_finite_getElem (vals : List ℚ) (i : Nat) (hi : i < vals.length) :
    (vals.map ExactFloat.finite)[i]? = some (ExactFloat.finite (vals.getD i 0)) := by
  simp [List.getD, List.getElem?_eq_getElem hi]

/-- The sums that `computeStats` accumulates over `n` finite values. -/
theorem computeStats_finite (vals : List ℚ) :
    computeStats vals.length (vals.map ExactFloat.finite)
      = some ((ExactFloat.finite vals.sum).divCount vals.length,
              ((ExactFloat.finite (vals.map (fun x => x * x)).sum).sub
                (((ExactFloat.finite vals.sum).divCount vals.length).mul
                  (ExactFloat.finite vals.sum))).divCount
                ((vals.length + SIZE_RANGE - 1) % SIZE_RANGE)) := by
  have hfold := forFold_finite_sum_pair
    (fun i (acc : ExactFloat × ExactFloat) =>
      match (vals.map ExactFloat.finite)[i]? with
      | none => none
      | some v => some (acc.1.add v, acc.2.add (v.mul v)))
    (fun i => vals.getD i 0) (fun i => vals.getD i 0 * vals.getD i 0) vals.length 0 0
    (fun j hj x y => by simp [map_finite_getElem vals j hj, ExactFloat.add, ExactFloat.mul])
  rw [range_map_getD, range_map_getD_map vals 0 (fun x => x * x)] at hfold
  simp only [zero_add] at hfold
  simp only [computeStats, hfold]

theorem sum_sq_dev (vals : List ℚ) (m : ℚ) :
    (vals.map (fun x => (x - m) ^ 2)).sum
      = (vals.map (fun x => x * x)).sum - 2 * m * vals.sum + (vals.length : ℚ) * m ^ 2 := by
  induction vals with
  | nil => simp
  | cons x xs ih =>
    simp only [List.map_cons, List.sum_cons, List.length_cons, ih]
    push_cast
    ring

/-- The sum that `rqmcReduce` accumulates for block `i` and the estimate it
stores. -/
theorem rqmcReduce_finite (R B : Nat) (vals : List ℚ) (hB : 1 ≤ B)
    (hlen : vals.length = R * B) (h32 : R * B < UINT_RANGE) :
    rqmcReduce R B (vals.map ExactFloat.finite)
      = some ((List.range R).map (fun i =>
          ExactFloat.finite
            (((List.range B).map (fun j => vals.getD (i * B + j) 0)).sum / (B : ℚ)))) := by
  unfold rqmcReduce
  apply forLoop_eq_map
  intro i hi
  have hidx : ∀ j, j < B → i * B + j < vals.length := by
    intro j hj
    rw [hlen]
    calc i * B + j < i * B + B := by omega
      _ = (i + 1) * B := by ring
      _ ≤ R * B := Nat.mul_le_mul_right B hi
  have hfold := forFold_finite_sum
    (fun j (sum : ExactFloat) =>
      match (vals.map ExactFloat.finite)[(i * B + j) % UINT_RANGE]? with
      | none => none
      | some v => some (sum.add v))
    (fun j => vals.getD (i * B + j) 0) B 0
    (fun j hj x => by
      have h1 := hidx j hj
      have h2 : (i * B + j) % UINT_RANGE = i * B + j := Nat.mod_eq_of_lt (by omega)
      simp [h2, map_finite_getElem vals _ h1, ExactFloat.add])
  simp only [zero_add] at hfold
  have hB0 : B ≠ 0 := by omega
  simp only [hfold, ExactFloat.divCount, hB0, if_false]

/-- C11: over exact rational arithmetic, for `n >= 2` values `computeStats`
returns `mean = sum(values) / n` and
`variance = (sumOfSquares - mean * sum) / (n - 1)`, and this variance is the
unbiased sample variance `sum_i (values[i] - mean)^2 / (n - 1)`. -/
theorem computeStats_mean_and_variance (vals : List ℚ) (hn : 2 ≤ vals.length)
    (hsize : vals.length < SIZE_RANGE) :
    computeStats vals.length (vals.map ExactFloat.finite)
      = some (ExactFloat.finite (vals.sum / (vals.length : ℚ)),
              ExactFloat.finite
                (((vals.map (fun x => x * x)).sum - vals.sum / (vals.length : ℚ) * vals.sum)
                  / ((vals.length : ℚ) - 1))) ∧
    ((vals.map (fun x => x * x)).sum - vals.sum / (vals.length : ℚ) * vals.sum)
        / ((vals.length : ℚ) - 1)
      = (vals.map (fun x => (x - vals.sum / (vals.length : ℚ)) ^ 2)).sum
        / ((vals.length : ℚ) - 1) := by
  have hn0 : vals.length ≠ 0 := by omega
  have hq : (vals.length : ℚ) ≠ 0 := by exact_mod_cast hn0
  have hwrap : (vals.length + SIZE_RANGE - 1) % SIZE_RANGE = vals.length - 1 := by
    have : vals.length + SIZE_RANGE - 1 = (vals.length - 1) + SIZE_RANGE := by omega
    rw [this, Nat.add_mod_right, Nat.mod_eq_of_lt (by omega)]
  have hn1 : vals.length - 1 ≠ 0 := by omega
  have hcast : ((vals.length - 1 : Nat) : ℚ) = (vals.length : ℚ) - 1 := by
    rw [Nat.cast_sub (by omega)]
    simp
  constructor
  · rw [computeStats_finite, hwrap]
    simp only [ExactFloat.divCount, ExactFloat.mul, ExactFloat.sub, hn0, hn1, if_false, hcast]
  · have hnm : (vals.length : ℚ) * (vals.sum / (vals.length : ℚ)) = vals.sum := by
      field_simp
    have hnum : (vals.map (fun x => x * x)).sum
          - 2 * (vals.sum / (vals.length : ℚ)) * vals.sum
          + (vals.length : ℚ) * (vals.sum / (vals.length : ℚ)) ^ 2
        = (vals.map (fun x => x * x)).sum - vals.sum / (vals.length : ℚ) * vals.sum := by
      have : (vals.length : ℚ) * (vals.sum / (vals.length : ℚ)) ^ 2
          = vals.sum * (vals.sum / (vals.length : ℚ)) := by
        rw [pow_two, ← mul_assoc, hnm]
      rw [this]
      ring
    rw [sum_sq_dev, hnum]

/-- Witness for C11: `computeStats([1,2,3,4,5])` gives the mean `3` and the
variance `5/2`. -/
theorem computeStats_mean_and_variance_witness :
    computeStats 5 [ExactFloat.finite 1, ExactFloat.finite 2, ExactFloat.finite 3,
        ExactFloat.finite 4, ExactFloat.finite 5]
      = some (ExactFloat.finite 3, ExactFloat.finite (5 / 2)) ∧
    (([1, 2, 3, 4, 5] : List ℚ).map (fun x => (x - 3) ^ 2)).sum / 4 = 5 / 2 := by
  have h := computeStats_mean_and_variance [1, 2, 3, 4, 5] (by decide)
    (by simp [SIZE_RANGE])
  constructor
  · have h1 := h.1
    norm_num at h1
    exact h1
  · norm_num

/-- C12: over exact rational arithmetic, for `R >= 0`, `B >= 1` with
`R * B < 2^32` and an array of `R * B` values, `rqmcReduce` writes exactly `R`
estimates, `estimates[i] = (values[i*B] + ... + values[i*B + B-1]) / B`, the
mean of block `i`; two arrays that agree on block `i` give the same
`estimates[i]`, so no value outside block `i` is used for it. -/
theorem rqmcReduce_block_means (R B : Nat) (vals : List ℚ) (hB : 1 ≤ B)
    (hlen : vals.length = R * B) (h32 : R * B < UINT_RANGE) :
    (∃ estimates, rqmcReduce R B (vals.map ExactFloat.finite) = some estimates ∧
      estimates.length = R ∧
      ∀ i, i < R → estimates[i]? = some (ExactFloat.finite
        (((List.range B).map (fun j => vals.getD (i * B + j) 0)).sum / (B : ℚ)))) ∧
    (∀ (other : List ℚ) (i : Nat), other.length = R * B → i < R →
      (∀ j, j < B → other.getD (i * B + j) 0 = vals.getD (i * B + j) 0) →
      (rqmcReduce R B (other.map ExactFloat.finite)).map (fun e => e[i]?)
        = (rqmcReduce R B (vals.map ExactFloat.finite)).map (fun e => e[i]?)) := by
  constructor
  · refine ⟨_, rqmcReduce_finite R B vals hB hlen h32, by simp, ?_⟩
    intro i hi
    simp [List.getElem?_eq_getElem, hi]
  · intro other i hother hi hagree
    rw [rqmcReduce_finite R B vals hB hlen h32, rqmcReduce_finite R B other hB hother h32]
    simp only [Option.map_some', List.getElem?_map, List.getElem?_range hi, Option.map_some']
    have hsame : (List.range B).map (fun j => other.getD (i * B + j) 0)
        = (List.range B).map (fun j => vals.getD (i * B + j) 0) :=
      List.map_congr_left (fun j hj => hagree j (List.mem_range.mp hj))
    rw [hsame]

/-- Witness for C12: two blocks of three values, `[1,2,3]` and `[4,5,7]`, give
the estimates `2` and `16/3`. -/
theorem rqmcReduce_block_means_witness :
    rqmcReduce 2 3 [ExactFloat.finite 1, ExactFloat.finite 2, ExactFloat.finite 3,
        ExactFloat.finite 4, ExactFloat.finite 5, ExactFloat.finite 7]
      = some [ExactFloat.finite 2, ExactFloat.finite (16 / 3)] := by
  obtain ⟨e, he, hlen, hval⟩ :=
    (rqmcReduce_block_means 2 3 [1, 2, 3, 4, 5, 7] (by decide) rfl (by decide)).1
  have h0 := hval 0 (by decide)
  have h1 := hval 1 (by decide)
  simp only [List.map] at he
  rw [he]
  match e, hlen, h0, h1 with
  | [a, b], _, h0, h1 =>
    simp only [List.getElem?_cons_zero, List.getElem?_cons_succ, Option.some.injEq] at h0 h1
    rw [h0, h1]
    norm_num [List.range_succ]

/-- C13: over exact rational arithmetic, for `B >= 1` values, `rqmcReduce`
with `R = 1` produces a single estimate, and it is the mean that
`computeStats` returns for the same `B` values. -/
theorem rqmcReduce_single_replication (B : Nat) (vals : List ℚ) (hB : 1 ≤ B)
    (hlen : vals.length = B) (h32 : B < UINT_RANGE) :
    ∃ mean var,
      rqmcReduce 1 B (vals.map ExactFloat.finite) = some [mean] ∧
      computeStats B (vals.map ExactFloat.finite) = some (mean, var) ∧
      mean = ExactFloat.finite (vals.sum / (B : ℚ)) := by
  subst hlen
  have hB0 : vals.length ≠ 0 := by omega
  have h1 := rqmcReduce_finite 1 vals.length vals hB (by simp) (by simpa using h32)
  simp only [List.range_succ, List.range_zero, List.nil_append, List.map, Nat.zero_mul,
    Nat.zero_add, range_map_getD] at h1
  have h2 := computeStats_finite vals
  simp only [ExactFloat.divCount, hB0, if_false] at h2
  exact ⟨_, _, h1, h2, rfl⟩

/-- Witness for C13: the three values `[1, 2, 6]` give the estimate `3` and
the mean `3`; the variance of `computeStats` is then computed as well. -/
theorem rqmcReduce_single_replication_witness :
    ∃ mean var,
      rqmcReduce 1 3 [ExactFloat.finite 1, ExactFloat.finite 2, ExactFloat.finite 6]
        = some [mean] ∧
      computeStats 3 [ExactFloat.finite 1, ExactFloat.finite 2, ExactFloat.finite 6]
        = some (mean, var) ∧
      mean = ExactFloat.finite (([1, 2, 6] : List ℚ).sum / ((3 : Nat) : ℚ)) :=
  rqmcReduce_single_replication 3 [1, 2, 6] (by decide) rfl (by decide)

/-! ## Auxiliary facts about the report and the enumeration -/

theorem printf_d_toInt32 (x : Nat) (hx : x < 2 ^ 31) : printf_d (toInt32 x) = toString x := by
  have h1 : x % UINT_RANGE = x := Nat.mod_eq_of_lt (by unfold UINT_RANGE; omega)
  simp only [toInt32, h1, hx, if_true]
  rfl

/-- The text of `rqmcReport` when both counts fit an `int`. -/
theorem rqmcReport_text (fmtG : ExactFloat → String) (malloc : Nat → Bool) (fpsize : Nat)
    (R points B : Nat) (values estimates : List ExactFloat) (avg var : ExactFloat)
    (hm : malloc ((R * fpsize) % SIZE_RANGE) = true)
    (h1 : rqmcReduce R B values = some estimates)
    (h2 : computeStats R estimates = some (avg, var))
    (hR : R < 2 ^ 31) (hp : points < 2 ^ 31) :
    rqmcReport fmtG malloc fpsize R points B values
      = some (if R > 1 then
          padLeft 16 "replications" ++ padLeft 16 "points" ++ padLeft 16 "mean"
            ++ padLeft 16 "variance" ++ "\n"
            ++ padLeft 16 (toString R) ++ padLeft 16 (toString points)
            ++ padLeft 16 (fmtG avg) ++ padLeft 16 (fmtG var) ++ "\n"
        else
          padLeft 16 "replications" ++ padLeft 16 "points" ++ padLeft 16 "mean"
            ++ padLeft 16 "" ++ "\n"
            ++ padLeft 16 (toString R) ++ padLeft 16 (toString points)
            ++ padLeft 16 (fmtG avg) ++ "\n") := by
  simp only [rqmcReport, hm, h1, h2, printf_d_toInt32 R hR, printf_d_toInt32 points hp]
  by_cases h : R > 1 <;> simp [h]

theorem drivePoints_fresh {F : Type} (fp : FpType F) (st : clqmcLatticeRuleStream F)
    (hok : StreamArraysOk st) (h0 : st.coordinateIndex = 0) (k : Nat)
    (hk : st.pointIndex + k < UINT_RANGE) :
    drivePoints fp k st =
      some ((List.range k).map (fun i =>
              (st.pointIndex + i,
               (List.range st.lattice.dimension).map
                 (coordinateOf fp { st with pointIndex := st.pointIndex + i }))),
            { st with pointIndex := st.pointIndex + k }) := by
  induction k with
  | zero =>
    cases st
    simp [drivePoints]
  | succ k ih =>
    rw [drivePoints, ih (by omega)]
    have hok1 : StreamArraysOk { st with pointIndex := st.pointIndex + k } := hok
    have hnext := nextCoordinates_inside fp { st with pointIndex := st.pointIndex + k } hok1 h0
      st.lattice.dimension (Nat.le_refl _)
    simp only [clqmcLatticeRuleDimension, hnext]
    have hwrap : (st.pointIndex + k + 1) % UINT_RANGE = st.pointIndex + (k + 1) := by
      rw [Nat.add_assoc]
      exact Nat.mod_eq_of_lt hk
    simp [clqmcLatticeRuleForwardToNextPoint, clqmcLatticeRuleCurrentPointIndex, hwrap,
      List.range_succ, h0]

/-- C14, evaluated on the code: `rqmcReport(1, 2147483648, 1, values)` with
the single value `1` prints `-2147483648` in the column `points`, because the
`cl_uint` argument is printed with `%d`; the header row and the other columns
are as the claim says, with a blank variance header and no variance value. -/
theorem rqmcReport_prints_counts_signed (fmtG : ExactFloat → String) :
    rqmcReport fmtG (fun _ => true) 8 1 2147483648 1 [ExactFloat.finite 1]
      = some ("    replications          points            mean                \n"
          ++ "               1     -2147483648" ++ padLeft 16 (fmtG (ExactFloat.finite 1))
          ++ "\n") ∧
    padLeft 16 (toString 2147483648) = "      2147483648" := by
  constructor
  · have h1 : rqmcReduce 1 1 [ExactFloat.finite 1] = some [ExactFloat.finite 1] := by
      have h := rqmcReduce_finite 1 1 [1] (by decide) rfl (by decide)
      simpa [List.range_succ] using h
    have h2 : computeStats 1 [ExactFloat.finite 1]
        = some (ExactFloat.finite 1, ExactFloat.nonfinite) := by
      have h := computeStats_finite [1]
      simpa [ExactFloat.divCount, ExactFloat.sub, ExactFloat.mul, SIZE_RANGE] using h
    simp only [rqmcReport, h1, h2]
    rfl
  · decide

/-- C15: for `n` points (in particular `n > 0`), `partCount` dividing `n` and
`partIndex < partCount`, the stream created for `(partCount, partIndex)` and
driven for `n / partCount` points (read the coordinates, then
`clqmcLatticeRuleForwardToNextPoint`) has `clqmcLatticeRuleCurrentPointIndex`
equal, in increasing order, to `(n/partCount)*partIndex`, ...,
`(n/partCount)*(partIndex+1) - 1` while reading, reads `dimension`
coordinates at each of them, and visits no index outside that range. -/
theorem partition_visits_its_range {F : Type} (fp : FpType F) (es : String)
    (target : clqmcLatticeRuleStream F) (lattice : clqmcLatticeRule F)
    (shift : Option (List F)) (partCount partIndex : Nat)
    (hn32 : lattice.numPoints < UINT_RANGE)
    (hdvd : partCount ∣ lattice.numPoints) (hpi : partIndex < partCount)
    (hnormed : lattice.genVecNormed.length = lattice.dimension)
    (hdim : lattice.dimension < UINT_RANGE)
    (hshift : ∀ sh, shift = some sh → lattice.dimension ≤ sh.length) :
    ∃ st visited final,
      clqmcLatticeRuleCreateOverStream fp es (some target) lattice partCount partIndex shift
        = some { status := CLQMC_SUCCESS, stream := some st, errorString := es } ∧
      drivePoints fp (lattice.numPoints / partCount) st = some (visited, final) ∧
      visited.map (fun v => v.1)
        = List.range' (lattice.numPoints / partCount * partIndex)
            (lattice.numPoints / partCount) ∧
      (∀ v ∈ visited, v.2.length = lattice.dimension) ∧
      (∀ v ∈ visited, lattice.numPoints / partCount * partIndex ≤ v.1 ∧
        v.1 < lattice.numPoints / partCount * (partIndex + 1) ∧ v.1 < lattice.numPoints) := by
  have hmod : lattice.numPoints % partCount = 0 := Nat.mod_eq_zero_of_dvd hdvd
  have hend : lattice.numPoints / partCount * (partIndex + 1) ≤ lattice.numPoints := by
    calc lattice.numPoints / partCount * (partIndex + 1)
        ≤ lattice.numPoints / partCount * partCount := Nat.mul_le_mul_left _ hpi
      _ = lattice.numPoints := Nat.div_mul_cancel hdvd
  have hsplit : lattice.numPoints / partCount * (partIndex + 1)
      = lattice.numPoints / partCount * partIndex + lattice.numPoints / partCount := by ring
  rw [hsplit] at hend
  rw [hsplit]
  generalize hq : lattice.numPoints / partCount = q at hend ⊢
  generalize hqp : q * partIndex = start at hend ⊢
  have hstart : start % UINT_RANGE = start := Nat.mod_eq_of_lt (by omega)
  have hcreate := createOverStream_success fp es target lattice partCount partIndex shift
    hpi hmod
  rw [hq, hqp, hstart] at hcreate
  have hok : StreamArraysOk
      ({ lattice := lattice, pointIndex := start,
         coordinateIndex := 0, shift := shift } : clqmcLatticeRuleStream F) :=
    ⟨hnormed, hdim, hshift⟩
  have hdrive := drivePoints_fresh fp _ hok rfl q
    (by show start + q < UINT_RANGE
        omega)
  refine ⟨_, _, _, hcreate, hdrive, ?_, ?_, ?_⟩
  · simp only [List.map_map]
    rw [List.range'_eq_map_range]
    apply List.map_congr_left
    intro i _
    rfl
  · intro v hv
    simp only [List.mem_map, List.mem_range] at hv
    obtain ⟨i, _, rfl⟩ := hv
    simp
  · intro v hv
    simp only [List.mem_map, List.mem_range] at hv
    obtain ⟨i, hi, rfl⟩ := hv
    show start ≤ start + i ∧ start + i < start + q ∧ start + i < lattice.numPoints
    omega

/-- Witness for C15: `n = 8` and `partCount = 2`: partition `0` visits the
points `0, 1, 2, 3` and partition `1` visits `4, 5, 6, 7`. -/
theorem partition_visits_its_range_witness :
    (∃ visited final,
      drivePoints clqmc_double 4
          { lattice := exampleLattice, pointIndex := 0, coordinateIndex := 0, shift := none }
        = some (visited, final) ∧
      visited.map (fun v => v.1) = [0, 1, 2, 3]) ∧
    (∃ visited final,
      drivePoints clqmc_double 4
          { lattice := exampleLattice, pointIndex := 4, coordinateIndex := 0, shift := none }
        = some (visited, final) ∧
      visited.map (fun v => v.1) = [4, 5, 6, 7]) := by
  have key : ∀ partIndex, partIndex < 2 →
      ∃ visited final,
        drivePoints clqmc_double 4
            { lattice := exampleLattice, pointIndex := 4 * partIndex, coordinateIndex := 0,
              shift := none }
          = some (visited, final) ∧
        visited.map (fun v => v.1) = List.range' (4 * partIndex) 4 := by
    intro partIndex hpi
    obtain ⟨st, visited, final, hcreate, hdrive, hvisited, _, _⟩ :=
      partition_visits_its_range clqmc_double "" (blankStream ℚ) exampleLattice none 2
        partIndex (by decide) (by decide) hpi rfl (by decide)
        (by intro sh h; simp at h)
    rw [createOverStream_success _ _ _ _ 2 partIndex none hpi (by decide)] at hcreate
    have hst : st = { lattice := exampleLattice, pointIndex := 4 * partIndex,
                      coordinateIndex := 0, shift := none } := by
      have hlt : 4 * partIndex < UINT_RANGE := by unfold UINT_RANGE; omega
      simp only [Option.some.injEq, CreateOverResult.mk.injEq, true_and, and_true] at hcreate
      rw [← hcreate]
      simp [exampleLattice, Nat.mod_eq_of_lt hlt]
    subst hst
    exact ⟨visited, final, hdrive, hvisited⟩
  exact ⟨key 0 (by decide), key 1 (by decide)⟩

/-! ## Auxiliary facts about creation in general -/

theorem forLoop_some_inv {β : Type} (body : Nat → Option β) (k : Nat) (out : List β)
    (h : forLoop body k = some out) :
    out.length = k ∧ ∀ j, j < k → body j = out[j]? := by
  induction k generalizing out with
  | zero =>
    simp only [forLoop, Option.some.injEq] at h
    subst h
    exact ⟨rfl, fun j hj => absurd hj (Nat.not_lt_zero j)⟩
  | succ k ih =>
    rw [forLoop] at h
    cases h1 : forLoop body k with
    | none => simp [h1] at h
    | some prev =>
      cases h2 : body k with
      | none => simp [h1, h2] at h
      | some x =>
        simp only [h1, h2, Option.some.injEq] at h
        subst h
        obtain ⟨hlen, hget⟩ := ih prev h1
        refine ⟨by simp [hlen], ?_⟩
        intro j hj
        by_cases hjk : j < k
        · rw [hget j hjk, List.getElem?_append_left (by omega)]
        · have hjeq : j = k := by omega
          subst hjeq
          rw [h2, List.getElem?_append_right (by omega)]
          simp [hlen]

/-- What a call of `clqmcLatticeRuleCreate` that returns a lattice has done. -/
theorem create_lattice_inv {F : Type} (fp : FpType F) (malloc : Nat → Bool) (es : String)
    (n s : Nat) (g : List Int) (r : CreateResult F) (L : clqmcLatticeRule F)
    (hc : clqmcLatticeRuleCreate fp malloc es n s g = some r) (hL : r.lattice = some L) :
    L.numPoints = n ∧ L.dimension = s ∧ L.genVec.length = s ∧
    (∀ j, j < s → L.genVec[j]? = g[j]?) ∧ L.genVecNormed.length = s ∧
    r.objectSize = some ((8 + s * (4 + fp.sizeof)) % SIZE_RANGE) ∧
    r.err = CLQMC_SUCCESS := by
  unfold clqmcLatticeRuleCreate clqmcLatticeRuleCreate_ at hc
  by_cases hm : malloc ((8 + s * (4 + fp.sizeof)) % SIZE_RANGE) = true
  · simp only [hm, Bool.not_true, Bool.false_eq_true, if_false] at hc
    cases h1 : forLoop (fun j => g[j]?) s with
    | none => simp [h1] at hc
    | some gv =>
      simp only [h1, if_true] at hc
      obtain ⟨hgvlen, hgv⟩ := forLoop_some_inv _ s gv h1
      split at hc
      · exact absurd hc (by simp)
      · rename_i nv h2
        obtain ⟨hnvlen, _⟩ := forLoop_some_inv _ s nv h2
        simp only [Option.some.injEq] at hc
        subst hc
        simp only [Option.some.injEq] at hL
        subst hL
        exact ⟨rfl, rfl, hgvlen, fun j hj => (hgv j hj).symm, hnvlen, rfl, rfl⟩
  · simp [hm, clqmcSetErrorString, CLQMC_SUCCESS, CLQMC_OUT_OF_RESOURCES, CL_SUCCESS,
      CL_OUT_OF_RESOURCES] at hc
    subst hc
    simp at hL

/-- C16: a call of `clqmcLatticeRuleCreate` that returns a lattice, for
dimension `s` and a precision of `w = 4` or `w = 8` bytes, reports
`objectSize = 8 + s*(4 + w)`; the members lie at the offsets `0`
(`numPoints`) and `4` (`dimension`), `generatingVector[j]` at `8 + 4*j` and
`normalized[j]` at `8 + 4*s + w*j` for `j < s`, each part starts where the
part before it ends and the last one ends at `objectSize`; the stored
generating vector holds the input entries `genVec[j]`, `j < s`, and
`clqmcLatticeRuleNumPoints` and `clqmcLatticeRuleDimension` return the `n` and
`s` passed in. -/
theorem create_object_layout {F : Type} (fp : FpType F) (malloc : Nat → Bool) (es : String)
    (n s : Nat) (g : List Int) (r : CreateResult F) (L : clqmcLatticeRule F)
    (hs32 : s < UINT_RANGE) (hw : fp.sizeof = 4 ∨ fp.sizeof = 8)
    (hc : clqmcLatticeRuleCreate fp malloc es n s g = some r) (hL : r.lattice = some L) :
    r.objectSize = some (8 + s * (4 + fp.sizeof)) ∧
    OFFSETOF_numPoints = 0 ∧
    OFFSETOF_dimension = 4 ∧
    (∀ j, j < s → elementOffset CLQMC_LATTICE_GENVEC SIZEOF_INT j = 8 + 4 * j) ∧
    (∀ j, j < s →
      elementOffset (CLQMC_LATTICE_GENVECNORMED L) fp.sizeof j = 8 + 4 * s + fp.sizeof * j) ∧
    OFFSETOF_numPoints + SIZEOF_UINT = OFFSETOF_dimension ∧
    OFFSETOF_dimension + SIZEOF_UINT = CLQMC_LATTICE_GENVEC ∧
    elementOffset CLQMC_LATTICE_GENVEC SIZEOF_INT s = CLQMC_LATTICE_GENVECNORMED L ∧
    elementOffset (CLQMC_LATTICE_GENVECNORMED L) fp.sizeof s = 8 + s * (4 + fp.sizeof) ∧
    L.genVec.length = s ∧
    (∀ j, j < s → L.genVec[j]? = g[j]?) ∧
    L.genVecNormed.length = s ∧
    clqmcLatticeRuleNumPoints L = n ∧
    clqmcLatticeRuleDimension L = s := by
  obtain ⟨hnum, hdimension, hgvlen, hgv, hnvlen, hsize, _⟩ :=
    create_lattice_inv fp malloc es n s g r L hc hL
  have hfit : (8 + s * (4 + fp.sizeof)) % SIZE_RANGE = 8 + s * (4 + fp.sizeof) := by
    apply Nat.mod_eq_of_lt
    have h1 : s * (4 + fp.sizeof) ≤ s * 12 := Nat.mul_le_mul_left s (by omega)
    unfold UINT_RANGE at hs32
    unfold SIZE_RANGE
    omega
  rw [hfit] at hsize
  refine ⟨hsize, rfl, rfl, ?_, ?_, rfl, rfl, ?_, ?_, hgvlen, hgv, hnvlen, hnum, hdimension⟩
  · intro j _
    simp only [elementOffset, CLQMC_LATTICE_GENVEC, SIZEOF_LATTICE, OFFSETOF_dimension,
      OFFSETOF_numPoints, SIZEOF_UINT, SIZEOF_INT]
    omega
  · intro j _
    simp only [elementOffset, CLQMC_LATTICE_GENVECNORMED, CLQMC_LATTICE_GENVEC, SIZEOF_LATTICE,
      OFFSETOF_dimension, OFFSETOF_numPoints, SIZEOF_UINT, SIZEOF_INT, hdimension]
    rw [Nat.mul_comm j fp.sizeof]
    omega
  · simp only [elementOffset, CLQMC_LATTICE_GENVECNORMED, hdimension]
  · simp only [elementOffset, CLQMC_LATTICE_GENVECNORMED, CLQMC_LATTICE_GENVEC, SIZEOF_LATTICE,
      OFFSETOF_dimension, OFFSETOF_numPoints, SIZEOF_UINT, SIZEOF_INT, hdimension]
    ring

/-- Witness for C16: the double-precision lattice with `n = 8`, `s = 1`,
`g = [3]` occupies `8 + 1*(4 + 8) = 20` bytes, with `generatingVector[0]` at
offset `8` and `normalized[0]` at offset `12`. -/
theorem create_object_layout_witness :
    (some 20 : Option Nat) = some (8 + 1 * (4 + 8)) ∧
    elementOffset CLQMC_LATTICE_GENVEC SIZEOF_INT 0 = 8 ∧
    elementOffset (CLQMC_LATTICE_GENVECNORMED exampleLattice) 8 0 = 12 ∧
    exampleLattice.genVec[0]? = ([3] : List Int)[0]? ∧
    clqmcLatticeRuleNumPoints exampleLattice = 8 ∧
    clqmcLatticeRuleDimension exampleLattice = 1 := by
  have h := create_object_layout (exactFp "clqmc_double" 8) (fun _ => true) "" 8 1 [3] _
    exampleLattice (by decide) (Or.inr rfl) exampleLattice_created rfl
  obtain ⟨h1, _, _, h4, h5, _, _, _, _, _, h11, _, h13, h14⟩ := h
  exact ⟨h1, h4 0 (by decide), h5 0 (by decide), h11 0 (by decide), h13, h14⟩

/-! ## Auxiliary facts about the description of a lattice -/

theorem intercalate_go_snoc (acc sep : String) (l : List String) (x : String) :
    String.intercalate.go acc sep (l ++ [x]) = String.intercalate.go acc sep l ++ sep ++ x := by
  induction l generalizing acc with
  | nil => simp [String.intercalate.go]
  | cons a rest ih => simp [String.intercalate.go, ih]

theorem intercalate_snoc (sep : String) (l : List String) (x : String) (hl : l ≠ []) :
    sep.intercalate (l ++ [x]) = sep.intercalate l ++ sep ++ x := by
  cases l with
  | nil => exact absurd rfl hl
  | cons a rest => simp [String.intercalate, intercalate_go_snoc]

/-- The loop of `clqmcLatticeRuleWriteInfo` appends the first entries of the
generating vector, separated by a comma and a space. -/
theorem writeInfo_loop (g : List Int) (k : Nat) (hk : k ≤ g.length) (file : String) :
    forFold (fun j (file : String) =>
        match g[j]? with
        | none => none
        | some x => some (file ++ ((if j > 0 then ", " else "") ++ printf_d x))) k file
      = some (file ++ ", ".intercalate ((g.take k).map printf_d)) := by
  induction k with
  | zero => simp [forFold, String.intercalate]
  | succ k ih =>
    have hlt : k < g.length := hk
    rw [forFold, ih (Nat.le_of_lt hlt)]
    simp only [List.getElem?_eq_getElem hlt]
    rw [List.take_succ, List.getElem?_eq_getElem hlt]
    simp only [Option.toList_some, List.map_append, List.map_cons, List.map_nil]
    by_cases hk0 : k = 0
    · subst hk0
      simp [String.intercalate, String.intercalate.go]
    · have hne : (g.take k).map printf_d ≠ [] := by
        intro h
        have hlen : ((g.take k).map printf_d).length = k := by
          simp [Nat.min_eq_left (Nat.le_of_lt hlt)]
        rw [h] at hlen
        exact hk0 hlen.symm
      rw [intercalate_snoc _ _ _ hne]
      simp [Nat.pos_of_ne_zero hk0, String.append_assoc]

/-- The text of `clqmcLatticeRuleWriteInfo` for a lattice whose number of
points and dimension fit an `int`. -/
theorem writeInfo_text {F : Type} (es file : String) (L : clqmcLatticeRule F)
    (hwf : L.dimension ≤ L.genVec.length)
    (hn : L.numPoints < 2 ^ 31) (hs : L.dimension < 2 ^ 31) :
    clqmcLatticeRuleWriteInfo es (some L) file
      = some { status := CLQMC_SUCCESS,
               file := file ++ (toString L.dimension ++ "-dimensional, "
                 ++ toString L.numPoints ++ "-point lattice rule with generating vector [ "
                 ++ ", ".intercalate ((L.genVec.take L.dimension).map toString) ++ " ]\n"),
               errorString := es } := by
  simp only [clqmcLatticeRuleWriteInfo, writeInfo_loop L.genVec L.dimension hwf,
    printf_d_toInt32 _ hn, printf_d_toInt32 _ hs]
  have hmap : (L.genVec.take L.dimension).map printf_d
      = (L.genVec.take L.dimension).map toString := rfl
  simp [hmap, String.append_assoc]

/-- C17, evaluated on the code: for the lattice with `n = 2147483648` points,
dimension `1` and generating vector `[1]`, `clqmcLatticeRuleWriteInfo` returns
`CLQMC_SUCCESS` and writes `-2147483648-point`, because the `cl_uint` member
`numPoints` is printed with `%d`; the rest of the line is as the claim says. -/
theorem writeInfo_prints_numPoints_signed :
    clqmcLatticeRuleWriteInfo ""
        (some ({ numPoints := 2147483648, dimension := 1, genVec := [1],
                 genVecNormed := [1 / 2147483648] } : clqmcLatticeRule ℚ)) ""
      = some { status := CLQMC_SUCCESS,
               file := "1-dimensional, -2147483648-point lattice rule with generating vector [ 1 ]\n",
               errorString := "" } ∧
    "1-dimensional, -2147483648-point lattice rule with generating vector [ 1 ]\n"
      ≠ toString 1 ++ "-dimensional, " ++ toString 2147483648
          ++ "-point lattice rule with generating vector [ " ++ toString 1 ++ " ]\n" := by
  constructor
  · rfl
  · decide

/-- C18: `clqmcLatticeRuleDestroy` and `clqmcLatticeRuleWriteInfo` return
`CLQMC_INVALID_VALUE` if and only if the lattice argument is absent, and then
`clqmcLatticeRuleWriteInfo` leaves the sink as it was; with a present lattice
(whose hidden generating vector holds `dimension` entries) both return
`CLQMC_SUCCESS`.  `clqmcLatticeRuleDestroyStream` returns `CLQMC_SUCCESS` for
every argument, an absent stream included. -/
theorem destroy_and_writeInfo_status {F : Type} (es file : String)
    (lattice : Option (clqmcLatticeRule F)) (stream : Option (clqmcLatticeRuleStream F))
    (hwf : ∀ L, lattice = some L → L.dimension ≤ L.genVec.length) :
    ((clqmcLatticeRuleDestroy es lattice).1 = CLQMC_INVALID_VALUE ↔ lattice = none) ∧
    ((clqmcLatticeRuleDestroy es lattice).1 = CLQMC_SUCCESS ↔ lattice ≠ none) ∧
    (∃ r, clqmcLatticeRuleWriteInfo es lattice file = some r ∧
      (r.status = CLQMC_INVALID_VALUE ↔ lattice = none) ∧
      (r.status = CLQMC_SUCCESS ↔ lattice ≠ none) ∧
      (lattice = none → r.file = file)) ∧
    clqmcLatticeRuleDestroyStream stream = CLQMC_SUCCESS ∧
    clqmcLatticeRuleDestroyStream (none : Option (clqmcLatticeRuleStream F)) = CLQMC_SUCCESS := by
  have hne : CLQMC_SUCCESS ≠ CLQMC_INVALID_VALUE := fun h => invalid_ne_success h.symm
  refine ⟨?_, ?_, ?_, ?_, rfl⟩
  · cases lattice with
    | none => exact ⟨fun _ => rfl, fun _ => rfl⟩
    | some L => exact ⟨fun h => absurd h hne, fun h => by simp at h⟩
  · cases lattice with
    | none => exact ⟨fun h => absurd h invalid_ne_success, fun h => absurd rfl h⟩
    | some L => exact ⟨fun _ => by simp, fun _ => rfl⟩
  · cases lattice with
    | none =>
      exact ⟨_, rfl, ⟨fun _ => rfl, fun _ => rfl⟩,
        ⟨fun h => absurd h invalid_ne_success, fun h => absurd rfl h⟩, fun _ => rfl⟩
    | some L =>
      have hloop := writeInfo_loop L.genVec L.dimension (hwf L rfl)
      refine ⟨_, by simp only [clqmcLatticeRuleWriteInfo, hloop]; rfl, ?_, ?_, ?_⟩
      · exact ⟨fun h => absurd h hne, fun h => by simp at h⟩
      · exact ⟨fun _ => by simp, fun _ => rfl⟩
      · intro h
        simp at h
  · cases stream <;> rfl

/-- Witness for C18: the lattice with `n = 8` and `g = [3]` is present, so
both functions return `CLQMC_SUCCESS`. -/
theorem destroy_and_writeInfo_status_witness :
    (clqmcLatticeRuleDestroy "" (some exampleLattice)).1 = CLQMC_SUCCESS ∧
    (∃ r, clqmcLatticeRuleWriteInfo "" (some exampleLattice) "" = some r ∧
      r.status = CLQMC_SUCCESS) := by
  have h := destroy_and_writeInfo_status "" "" (some exampleLattice)
    (some (blankStream ℚ)) (by intro L hL; simp at hL; subst hL; decide)
  obtain ⟨_, h2, ⟨r, hr, _, hr2, _⟩, _, _⟩ := h
  exact ⟨h2.mpr (by simp), r, hr, hr2.mpr (by simp)⟩

/-! ## Auxiliary facts about the library paths -/

theorem utf8ByteSize_append (a b : String) :
    (a ++ b).utf8ByteSize = a.utf8ByteSize + b.utf8ByteSize := by
  cases a with
  | mk da =>
    cases b with
    | mk db =>
      show String.utf8ByteSize ⟨da ++ db⟩ = _
      simp [String.utf8ByteSize_mk, String.utf8Len_append]

/-- The result of `clqmcGetLibraryRoot`, case by case. -/
theorem getLibraryRoot_cases (env : Environment) :
    (∀ p, env.getenv "CLQMC_ROOT" = some p → p ≠ "" → clqmcGetLibraryRoot env = some p) ∧
    ((env.getenv "CLQMC_ROOT" = none ∨ env.getenv "CLQMC_ROOT" = some "") →
      clqmcGetLibraryRoot env =
        if env.access "/usr/include/clQMC/clQMC.h" then some "/usr"
        else if env.access "./include/clQMC/clQMC.h" then some "."
        else none) := by
  constructor
  · intro p hp hne
    simp [clqmcGetLibraryRoot, hp, hne]
  · intro h
    rcases h with h | h <;>
      simp [clqmcGetLibraryRoot, h, lib_path_default1, lib_path_default1_check,
        lib_path_default2, lib_path_default2_check]

/-- The result of `clqmcGetLibraryDeviceIncludes` when there is a library
root: the text is the root followed by `/include`, enclosed in double quotes
and preceded by `-I`; it is returned when it is shorter than 1024 bytes, that
is when the root has at most 1011 bytes. -/
theorem deviceIncludes_of_root (env : Environment) (es : String) (errPresent : Bool)
    (root : String) (hroot : clqmcGetLibraryRoot env = some root) :
    (root.utf8ByteSize ≤ 1011 →
      clqmcGetLibraryDeviceIncludes env es errPresent
        = { includes := some ("-I\"" ++ root ++ "/include\""),
            err := if errPresent then some CLQMC_SUCCESS else none,
            errorString := es }) ∧
    (1011 < root.utf8ByteSize →
      (clqmcGetLibraryDeviceIncludes env es errPresent).includes = none ∧
      (errPresent = true →
        (clqmcGetLibraryDeviceIncludes env es errPresent).err
          = some CLQMC_OUT_OF_RESOURCES)) := by
  have hsize : ("-I\"" ++ root ++ "/include\"").utf8ByteSize = root.utf8ByteSize + 12 := by
    rw [utf8ByteSize_append, utf8ByteSize_append]
    have h1 : ("-I\"" : String).utf8ByteSize = 3 := by decide
    have h2 : ("/include\"" : String).utf8ByteSize = 9 := by decide
    omega
  constructor
  · intro h
    have hlt : ¬ (root.utf8ByteSize + 12 ≥ 1024) := by omega
    simp [clqmcGetLibraryDeviceIncludes, hroot, hsize, SIZEOF_lib_includes, hlt]
  · intro h
    have hge : root.utf8ByteSize + 12 ≥ 1024 := by omega
    constructor
    · cases errPresent <;>
        simp [clqmcGetLibraryDeviceIncludes, hroot, hsize, SIZEOF_lib_includes, hge]
    · intro he
      subst he
      simp [clqmcGetLibraryDeviceIncludes, hroot, hsize, SIZEOF_lib_includes, hge,
        clqmcSetErrorString]

/-- C19, evaluated on the code: without `CLQMC_ROOT`, without the file
`/usr/include/clQMC/clQMC.h` and without the file `./include/clQMC/clQMC.h`,
`clqmcGetLibraryRoot` returns the null pointer and not `"."`; with
`CLQMC_ROOT` defined as the empty text and the file under `/usr` present it
returns `"/usr"` and not the value of the variable. -/
theorem getLibraryRoot_can_be_absent :
    clqmcGetLibraryRoot { getenv := fun _ => none, access := fun _ => false } = none ∧
    clqmcGetLibraryRoot
        { getenv := fun name => if name = "CLQMC_ROOT" then some "" else none,
          access := fun path => path = "/usr/include/clQMC/clQMC.h" }
      = some "/usr" := by
  constructor <;> decide

/-- C20, as amended: for every library root `R` returned by
`clqmcGetLibraryRoot`, the include text is `-I` followed by `R/include` in
double quotes.  When this text with its terminator fits the buffer of 1024
bytes, `clqmcGetLibraryDeviceIncludes` returns exactly it, sets `err` to
`CLQMC_SUCCESS` and leaves the error string as it was.  An error is set in
`err` if and only if the buffer is too small for this text; the error is then
`CLQMC_OUT_OF_RESOURCES` and no text is returned.  With `err` equal to `NULL`
the returned pointer is the same. -/
theorem deviceIncludes_quoted_text (env : Environment) (es : String) (root : String)
    (hroot : clqmcGetLibraryRoot env = some root) :
    (("-I\"" ++ root ++ "/include\"").utf8ByteSize + 1 ≤ SIZEOF_lib_includes →
      clqmcGetLibraryDeviceIncludes env es true
        = { includes := some ("-I\"" ++ root ++ "/include\""),
            err := some CLQMC_SUCCESS,
            errorString := es }) ∧
    ((clqmcGetLibraryDeviceIncludes env es true).err ≠ some CLQMC_SUCCESS ↔
      SIZEOF_lib_includes < ("-I\"" ++ root ++ "/include\"").utf8ByteSize + 1) ∧
    (SIZEOF_lib_includes < ("-I\"" ++ root ++ "/include\"").utf8ByteSize + 1 →
      (clqmcGetLibraryDeviceIncludes env es true).includes = none ∧
      (clqmcGetLibraryDeviceIncludes env es true).err = some CLQMC_OUT_OF_RESOURCES) ∧
    (clqmcGetLibraryDeviceIncludes env es false).includes
      = (clqmcGetLibraryDeviceIncludes env es true).includes := by
  have hsize : ("-I\"" ++ root ++ "/include\"").utf8ByteSize = root.utf8ByteSize + 12 := by
    rw [utf8ByteSize_append, utf8ByteSize_append]
    have h1 : ("-I\"" : String).utf8ByteSize = 3 := by decide
    have h2 : ("/include\"" : String).utf8ByteSize = 9 := by decide
    omega
  obtain ⟨hfit, hlong⟩ := deviceIncludes_of_root env es true root hroot
  obtain ⟨hfitN, hlongN⟩ := deviceIncludes_of_root env es false root hroot
  rw [hsize]
  unfold SIZEOF_lib_includes
  refine ⟨?_, ?_, ?_, ?_⟩
  · intro h
    rw [hfit (by omega)]
    rfl
  · constructor
    · intro herr
      by_contra hnot
      rw [hfit (by omega)] at herr
      exact herr rfl
    · intro h herr
      rw [(hlong (by omega)).2 rfl] at herr
      exact absurd herr (by decide)
  · intro h
    exact ⟨(hlong (by omega)).1, (hlong (by omega)).2 rfl⟩
  · by_cases h : root.utf8ByteSize ≤ 1011
    · rw [hfit h, hfitN h]
    · rw [(hlong (by omega)).1, (hlongN (by omega)).1]

/-- Witness for C20: with `CLQMC_ROOT` set to `/usr/local` the function
returns the text `-I"/usr/local/include"`, quotes included, and sets `err` to
`CLQMC_SUCCESS`. -/
theorem deviceIncludes_quoted_text_witness :
    clqmcGetLibraryDeviceIncludes
        { getenv := fun name => if name = "CLQMC_ROOT" then some "/usr/local" else none,
          access := fun _ => false } "" true
      = { includes := some ("-I\"" ++ "/usr/local" ++ "/include\""),
          err := some CLQMC_SUCCESS,
          errorString := "" } ∧
    "-I\"" ++ "/usr/local" ++ "/include\"" = "-I\"/usr/local/include\"" :=
  ⟨(deviceIncludes_quoted_text
      { getenv := fun name => if name = "CLQMC_ROOT" then some "/usr/local" else none,
        access := fun _ => false } "" "/usr/local" (by decide)).1 (by decide),
   by decide⟩

/-- C20, the claim as stated fails: with `CLQMC_ROOT` set to `/opt/clqmc`,
`clqmcGetLibraryDeviceIncludes` sets `err` to `CLQMC_SUCCESS` and returns the
text with double quotes around the path, which is not `-I` followed by the
root followed by `/include`; with a root of 1012 bytes it returns no text and
sets `err` to `CLQMC_OUT_OF_RESOURCES`, although `-I` followed by the root
followed by `/include` takes 1023 bytes with its terminator and fits the
buffer of 1024 bytes. -/
theorem deviceIncludes_are_quoted :
    clqmcGetLibraryRoot
        { getenv := fun name => if name = "CLQMC_ROOT" then some "/opt/clqmc" else none,
          access := fun _ => false }
      = some "/opt/clqmc" ∧
    clqmcGetLibraryDeviceIncludes
        { getenv := fun name => if name = "CLQMC_ROOT" then some "/opt/clqmc" else none,
          access := fun _ => false } "" true
      = { includes := some "-I\"/opt/clqmc/include\"", err := some CLQMC_SUCCESS,
          errorString := "" } ∧
    "-I\"/opt/clqmc/include\"" ≠ "-I" ++ "/opt/clqmc" ++ "/include" ∧
    (clqmcGetLibraryDeviceIncludes
        { getenv := fun name =>
            if name = "CLQMC_ROOT" then some (String.mk (List.replicate 1012 'a')) else none,
          access := fun _ => false } "" true).includes = none ∧
    (clqmcGetLibraryDeviceIncludes
        { getenv := fun name =>
            if name = "CLQMC_ROOT" then some (String.mk (List.replicate 1012 'a')) else none,
          access := fun _ => false } "" true).err = some CLQMC_OUT_OF_RESOURCES ∧
    ("-I" ++ String.mk (List.replicate 1012 'a') ++ "/include").utf8ByteSize + 1 = 1023 := by
  refine ⟨by decide, by decide, by decide, ?_, ?_, ?_⟩
  · set_option maxRecDepth 100000 in decide
  · set_option maxRecDepth 100000 in decide
  · set_option maxRecDepth 100000 in decide

/-! ## Auxiliary facts about stream states -/

/-- What `clqmcLatticeRuleNextCoordinate` can change: `coordinateIndex` only. -/
theorem nextCoordinate_frame {F : Type} (fp : FpType F) (st st1 : clqmcLatticeRuleStream F)
    (v : F) (h : clqmcLatticeRuleNextCoordinate fp st = some (v, st1)) :
    st1.lattice = st.lattice ∧ st1.shift = st.shift ∧ st1.pointIndex = st.pointIndex ∧
    (st1.coordinateIndex = st.coordinateIndex ∨
      (st.coordinateIndex < st.lattice.dimension ∧
        st1.coordinateIndex = (st.coordinateIndex + 1) % UINT_RANGE)) := by
  unfold clqmcLatticeRuleNextCoordinate at h
  by_cases hge : st.coordinateIndex ≥ st.lattice.dimension
  · simp only [hge, if_true, Option.some.injEq, Prod.mk.injEq] at h
    obtain ⟨_, rfl⟩ := h
    exact ⟨rfl, rfl, rfl, Or.inl rfl⟩
  · simp only [hge, if_false] at h
    split at h
    · exact absurd h (by simp)
    · split at h
      · exact absurd h (by simp)
      · simp only [Option.some.injEq, Prod.mk.injEq] at h
        obtain ⟨_, rfl⟩ := h
        exact ⟨rfl, rfl, rfl, Or.inr ⟨Nat.lt_of_not_ge hge, rfl⟩⟩

theorem createOverStream_success_inv {F : Type} (fp : FpType F) (es es2 : String)
    (target : Option (clqmcLatticeRuleStream F)) (lattice : clqmcLatticeRule F)
    (partCount partIndex : Nat) (shift : Option (List F)) (st : clqmcLatticeRuleStream F)
    (h : clqmcLatticeRuleCreateOverStream fp es target lattice partCount partIndex shift
      = some { status := CLQMC_SUCCESS, stream := some st, errorString := es2 }) :
    st = { lattice := lattice,
           pointIndex := (lattice.numPoints / partCount * partIndex) % UINT_RANGE,
           coordinateIndex := 0, shift := shift } ∧
    partIndex < partCount ∧ lattice.numPoints % partCount = 0 := by
  cases target with
  | none => simp [clqmcLatticeRuleCreateOverStream] at h
  | some t =>
    obtain ⟨r, hr, hbad, hgood⟩ :=
      createOverStream_present fp es t lattice partCount partIndex shift
    rw [hr] at h
    injection h with h
    subst h
    by_cases hc : partCount ≤ partIndex ∨ lattice.numPoints % partCount ≠ 0
    · exact absurd (hbad hc).1.symm invalid_ne_success
    · have hst := (hgood hc).2.2
      simp only [Option.some.injEq] at hst
      refine ⟨hst, ?_, ?_⟩
      · by_contra hlt
        exact hc (Or.inl (Nat.le_of_not_lt hlt))
      · by_contra hmod
        exact hc (Or.inr hmod)

theorem reachable_coordinateIndex_le {F : Type} (fp : FpType F)
    (st : clqmcLatticeRuleStream F) (h : Reachable fp st) :
    st.coordinateIndex ≤ st.lattice.dimension := by
  induction h with
  | created es es2 target lattice partCount partIndex shift st h =>
    rw [(createOverStream_success_inv fp es es2 target lattice partCount partIndex shift st h).1]
    exact Nat.zero_le _
  | nextCoordinate st st1 v _ h ih =>
    obtain ⟨hl, _, _, hci⟩ := nextCoordinate_frame fp st st1 v h
    rw [hl]
    rcases hci with hci | ⟨hlt, hci⟩
    · rw [hci]
      exact ih
    · rw [hci]
      exact Nat.le_trans (Nat.mod_le _ _) hlt
  | forwardToNextPoint st _ _ => exact Nat.zero_le _

/-- C21: `clqmcLatticeRuleNextCoordinate` and
`clqmcLatticeRuleForwardToNextPoint` leave the lattice and the shift that the
stream refers to as they were, `clqmcLatticeRuleNextCoordinate` leaves
`pointIndex` as it was too, and the four accessors only return a member of
their argument. -/
theorem stream_operations_frame {F : Type} (fp : FpType F)
    (st st1 : clqmcLatticeRuleStream F) (v : F)
    (h : clqmcLatticeRuleNextCoordinate fp st = some (v, st1)) :
    st1.lattice = st.lattice ∧ st1.shift = st.shift ∧ st1.pointIndex = st.pointIndex ∧
    (clqmcLatticeRuleForwardToNextPoint st).2.lattice = st.lattice ∧
    (clqmcLatticeRuleForwardToNextPoint st).2.shift = st.shift ∧
    clqmcLatticeRuleCurrentPointIndex st = st.pointIndex ∧
    clqmcLatticeRuleCurrentCoordIndex st = st.coordinateIndex ∧
    clqmcLatticeRuleNumPoints st.lattice = st.lattice.numPoints ∧
    clqmcLatticeRuleDimension st.lattice = st.lattice.dimension := by
  obtain ⟨h1, h2, h3, _⟩ := nextCoordinate_frame fp st st1 v h
  exact ⟨h1, h2, h3, rfl, rfl, rfl, rfl, rfl, rfl⟩

/-- Witness for C21: a call of `clqmcLatticeRuleNextCoordinate` on the stream
at point `3` of the lattice with `n = 8`, `g = [3]` and the shift `[3/4]`. -/
theorem stream_operations_frame_witness :
    (({ lattice := exampleLattice, pointIndex := 3, coordinateIndex := 1,
        shift := some [3 / 4] } : clqmcLatticeRuleStream ℚ).lattice = exampleLattice) ∧
    (clqmcLatticeRuleForwardToNextPoint
      ({ lattice := exampleLattice, pointIndex := 3, coordinateIndex := 0,
         shift := some [3 / 4] } : clqmcLatticeRuleStream ℚ)).2.shift = some [3 / 4] := by
  have hok : StreamArraysOk
      ({ lattice := exampleLattice, pointIndex := 3, coordinateIndex := 0,
         shift := some [3 / 4] } : clqmcLatticeRuleStream ℚ) :=
    ⟨rfl, by decide, by intro sh hsh; simp at hsh; subst hsh; decide⟩
  have h := stream_operations_frame clqmc_double
    { lattice := exampleLattice, pointIndex := 3, coordinateIndex := 0, shift := some [3 / 4] }
    _ _ (nextCoordinate_inside clqmc_double _ hok (by decide))
  exact ⟨h.1, h.2.2.2.2.1⟩

/-- C22: in every stream state reachable from a successful
`clqmcLatticeRuleCreateOverStream` by calls of
`clqmcLatticeRuleNextCoordinate` and `clqmcLatticeRuleForwardToNextPoint`,
`coordinateIndex` is at most the dimension `s`; and when the normalised
generating vector and the shift, if there is one, hold exactly `s` entries, a
further call of `clqmcLatticeRuleNextCoordinate` reads inside them: it either
reads nothing and returns the sentinel (`coordinateIndex = s`) or reads the
entries at `coordinateIndex < s`. -/
theorem reachable_coordinateIndex_bounded {F : Type} (fp : FpType F)
    (st : clqmcLatticeRuleStream F) (hreach : Reachable fp st)
    (hnormed : st.lattice.genVecNormed.length = st.lattice.dimension)
    (hdim : st.lattice.dimension < UINT_RANGE)
    (hshift : ∀ sh, st.shift = some sh → sh.length = st.lattice.dimension) :
    st.coordinateIndex ≤ st.lattice.dimension ∧
    (st.coordinateIndex = st.lattice.dimension →
      clqmcLatticeRuleNextCoordinate fp st = some (fp.negOne, st)) ∧
    (st.coordinateIndex < st.lattice.dimension →
      st.coordinateIndex < st.lattice.genVecNormed.length ∧
      (∀ sh, st.shift = some sh → st.coordinateIndex < sh.length) ∧
      clqmcLatticeRuleNextCoordinate fp st
        = some (coordinateOf fp st st.coordinateIndex,
                { st with coordinateIndex := st.coordinateIndex + 1 })) ∧
    clqmcLatticeRuleNextCoordinate fp st ≠ none := by
  have hle := reachable_coordinateIndex_le fp st hreach
  have hok : StreamArraysOk st :=
    ⟨hnormed, hdim, fun sh hsh => Nat.le_of_eq (hshift sh hsh).symm⟩
  refine ⟨hle, ?_, ?_, ?_⟩
  · intro heq
    exact nextCoordinate_exhausted fp st (Nat.le_of_eq heq.symm)
  · intro hlt
    refine ⟨by omega, ?_, nextCoordinate_inside fp st hok hlt⟩
    intro sh hsh
    rw [hshift sh hsh]
    exact hlt
  · rcases Nat.lt_or_ge st.coordinateIndex st.lattice.dimension with hlt | hge
    · rw [nextCoordinate_inside fp st hok hlt]
      simp
    · rw [nextCoordinate_exhausted fp st hge]
      simp

/-- Witness for C22: the stream created for the whole lattice with `n = 8`,
`g = [3]`, after one call of `clqmcLatticeRuleNextCoordinate`: its
`coordinateIndex` is `1 = s` and the next call returns the sentinel. -/
theorem reachable_coordinateIndex_bounded_witness :
    (1 : Nat) ≤ exampleLattice.dimension ∧
    clqmcLatticeRuleNextCoordinate clqmc_double
        { lattice := exampleLattice, pointIndex := 0, coordinateIndex := 1, shift := none }
      ≠ none := by
  have hok : StreamArraysOk
      ({ lattice := exampleLattice, pointIndex := 0, coordinateIndex := 0,
         shift := none } : clqmcLatticeRuleStream ℚ) :=
    ⟨rfl, by decide, by intro sh hsh; simp at hsh⟩
  have hreach : Reachable clqmc_double
      ({ lattice := exampleLattice, pointIndex := 0, coordinateIndex := 1,
         shift := none } : clqmcLatticeRuleStream ℚ) :=
    Reachable.nextCoordinate _ _ _
      (Reachable.created "" "" (some (blankStream ℚ)) exampleLattice 1 0 none _
        (createOverStream_success clqmc_double "" (blankStream ℚ) exampleLattice 1 0 none
          (by decide) (by decide)))
      (nextCoordinate_inside clqmc_double _ hok (by decide))
  have h := reachable_coordinateIndex_bounded clqmc_double _ hreach rfl (by decide)
    (by intro sh hsh; simp at hsh)
  exact ⟨h.1, h.2.2.2⟩

/-! ## Auxiliary facts about the allocating wrapper -/

theorem out_of_resources_ne_success : CLQMC_OUT_OF_RESOURCES ≠ CLQMC_SUCCESS := by decide

/-- The outcome of `clqmcLatticeRuleCreateStream` in terms of the outcome of
`clqmcLatticeRuleCreateOverStream` on the allocated memory. -/
theorem createStream_eq {F : Type} (fp : FpType F) (malloc : Nat → Bool)
    (uninitialised : clqmcLatticeRuleStream F) (es : String) (lattice : clqmcLatticeRule F)
    (partCount partIndex : Nat) (shift : Option (List F)) :
    (malloc SIZEOF_STREAM = false →
      ∃ c, clqmcLatticeRuleCreateStream fp malloc uninitialised es lattice partCount partIndex
          shift = some c ∧
        c.stream = none ∧ c.err = CLQMC_OUT_OF_RESOURCES) ∧
    (malloc SIZEOF_STREAM = true →
      ∃ c r, clqmcLatticeRuleCreateStream fp malloc uninitialised es lattice partCount
          partIndex shift = some c ∧
        clqmcLatticeRuleCreateOverStream fp es (some uninitialised) lattice partCount partIndex
          shift = some r ∧
        c.stream = r.stream ∧ c.err = r.status ∧ c.errorString = r.errorString) := by
  constructor
  · intro hm
    exact ⟨_, by simp [clqmcLatticeRuleCreateStream, hm]; rfl, rfl, rfl⟩
  · intro hm
    obtain ⟨r, hr, _, _⟩ :=
      createOverStream_present fp es uninitialised lattice partCount partIndex shift
    exact ⟨_, r, by simp [clqmcLatticeRuleCreateStream, hm, hr]; rfl, hr, rfl, rfl, rfl⟩

/-- C23: when the allocation succeeds, the status that
`clqmcLatticeRuleCreateStream` reports is the status that
`clqmcLatticeRuleCreateOverStream` returns for the same lattice, `partCount`,
`partIndex` and shift (over any present target), and on `CLQMC_SUCCESS` the
returned stream has the lattice, `pointIndex`, `coordinateIndex` and shift of
the stream that `clqmcLatticeRuleCreateOverStream` initialises; when the
allocation fails it reports `CLQMC_OUT_OF_RESOURCES` and returns no stream. -/
theorem createStream_delegates {F : Type} (fp : FpType F) (malloc : Nat → Bool)
    (uninitialised target : clqmcLatticeRuleStream F) (es : String)
    (lattice : clqmcLatticeRule F) (partCount partIndex : Nat) (shift : Option (List F)) :
    (malloc SIZEOF_STREAM = true →
      ∃ c r, clqmcLatticeRuleCreateStream fp malloc uninitialised es lattice partCount
          partIndex shift = some c ∧
        clqmcLatticeRuleCreateOverStream fp es (some target) lattice partCount partIndex shift
          = some r ∧
        c.err = r.status ∧
        (r.status = CLQMC_SUCCESS → c.stream = r.stream ∧ ∃ st, c.stream = some st)) ∧
    (malloc SIZEOF_STREAM = false →
      ∃ c, clqmcLatticeRuleCreateStream fp malloc uninitialised es lattice partCount partIndex
          shift = some c ∧
        c.err = CLQMC_OUT_OF_RESOURCES ∧ c.stream = none) := by
  obtain ⟨hfail, hok⟩ := createStream_eq fp malloc uninitialised es lattice partCount partIndex
    shift
  constructor
  · intro hm
    obtain ⟨c, r0, hc, hr0, hstream, herr, _⟩ := hok hm
    obtain ⟨r0', hr0', hbad0, hgood0⟩ :=
      createOverStream_present fp es uninitialised lattice partCount partIndex shift
    obtain ⟨r, hr, hbad, hgood⟩ :=
      createOverStream_present fp es target lattice partCount partIndex shift
    rw [hr0] at hr0'
    injection hr0' with hr0'
    subst hr0'
    refine ⟨c, r, hc, hr, ?_, ?_⟩
    · by_cases hcond : partCount ≤ partIndex ∨ lattice.numPoints % partCount ≠ 0
      · rw [herr, (hbad0 hcond).1, (hbad hcond).1]
      · rw [herr, (hgood0 hcond).1, (hgood hcond).1]
    · intro hs
      by_cases hcond : partCount ≤ partIndex ∨ lattice.numPoints % partCount ≠ 0
      · have h := (hbad hcond).1
        rw [hs] at h
        exact absurd h.symm invalid_ne_success
      · rw [hstream, (hgood0 hcond).2.2, (hgood hcond).2.2]
        exact ⟨rfl, _, rfl⟩
  · intro hm
    obtain ⟨c, hc, hs, he⟩ := hfail hm
    exact ⟨c, hc, he, hs⟩

/-- Witness for C23: partition `1` of `2` of the lattice with `n = 8`, the
allocation succeeding. -/
theorem createStream_delegates_witness :
    ∃ c r, clqmcLatticeRuleCreateStream clqmc_double (fun _ => true) (blankStream ℚ) ""
        exampleLattice 2 1 none = some c ∧
      clqmcLatticeRuleCreateOverStream clqmc_double "" (some (blankStream ℚ)) exampleLattice
        2 1 none = some r ∧
      c.err = r.status ∧
      (r.status = CLQMC_SUCCESS → c.stream = r.stream ∧ ∃ st, c.stream = some st) :=
  (createStream_delegates clqmc_double (fun _ => true) (blankStream ℚ) (blankStream ℚ) ""
    exampleLattice 2 1 none).1 rfl

/-- C30: `clqmcLatticeRuleCreateStream` returns no stream exactly when the
allocation fails; when the allocation succeeds and the partition arguments
are invalid (`partIndex >= partCount` or `n mod partCount != 0`) it reports
`CLQMC_INVALID_VALUE` and returns the allocated stream, whose members hold
what the allocation left there. -/
theorem createStream_returns_allocated {F : Type} (fp : FpType F) (malloc : Nat → Bool)
    (uninitialised : clqmcLatticeRuleStream F) (es : String) (lattice : clqmcLatticeRule F)
    (partCount partIndex : Nat) (shift : Option (List F)) :
    ∃ c, clqmcLatticeRuleCreateStream fp malloc uninitialised es lattice partCount partIndex
        shift = some c ∧
      (c.stream = none ↔ malloc SIZEOF_STREAM = false) ∧
      (malloc SIZEOF_STREAM = true →
        (partIndex ≥ partCount ∨ lattice.numPoints % partCount ≠ 0) →
        c.err = CLQMC_INVALID_VALUE ∧ c.stream = some uninitialised) := by
  obtain ⟨hfail, hok⟩ := createStream_eq fp malloc uninitialised es lattice partCount partIndex
    shift
  cases hm : malloc SIZEOF_STREAM with
  | false =>
    obtain ⟨c, hc, hs, _⟩ := hfail hm
    exact ⟨c, hc, ⟨fun _ => rfl, fun _ => hs⟩, fun h => absurd h (by simp)⟩
  | true =>
    obtain ⟨c, r0, hc, hr0, hstream, herr, _⟩ := hok hm
    obtain ⟨r0', hr0', hbad, hgood⟩ :=
      createOverStream_present fp es uninitialised lattice partCount partIndex shift
    rw [hr0] at hr0'
    injection hr0' with hr0'
    subst hr0'
    refine ⟨c, hc, ⟨?_, fun h => absurd h (by simp)⟩, ?_⟩
    · intro hnone
      rw [hstream] at hnone
      by_cases hcond : partCount ≤ partIndex ∨ lattice.numPoints % partCount ≠ 0
      · rw [(hbad hcond).2] at hnone
        exact absurd hnone (by simp)
      · rw [(hgood hcond).2.2] at hnone
        exact absurd hnone (by simp)
    · intro _ hcond
      rw [herr, hstream]
      exact hbad hcond

/-- Witness for C30: three partitions of the lattice with `n = 8` are refused;
the allocated stream is returned with the contents it had. -/
theorem createStream_returns_allocated_witness :
    ∃ c, clqmcLatticeRuleCreateStream clqmc_double (fun _ => true)
        { lattice := exampleLattice, pointIndex := 5, coordinateIndex := 7, shift := none } ""
        exampleLattice 3 0 none = some c ∧
      c.err = CLQMC_INVALID_VALUE ∧
      c.stream = some { lattice := exampleLattice, pointIndex := 5, coordinateIndex := 7,
                        shift := none } := by
  obtain ⟨c, hc, _, h⟩ := createStream_returns_allocated clqmc_double (fun _ => true)
    { lattice := exampleLattice, pointIndex := 5, coordinateIndex := 7, shift := none } ""
    exampleLattice 3 0 none
  exact ⟨c, hc, h rfl (Or.inr (by decide))⟩

/-- C26: `clqmcLatticeRuleCreateOverStream` returns for every target, lattice,
`partCount` and `partIndex`, so it never reaches a division by zero; for
`partCount = 0` it returns `CLQMC_INVALID_VALUE`, whatever `partIndex` is, and
leaves the target as it was. -/
theorem createOverStream_total {F : Type} (fp : FpType F) (es : String)
    (target : Option (clqmcLatticeRuleStream F)) (lattice : clqmcLatticeRule F)
    (partCount partIndex : Nat) (shift : Option (List F)) :
    (∃ r, clqmcLatticeRuleCreateOverStream fp es target lattice partCount partIndex shift
      = some r) ∧
    (∃ r, clqmcLatticeRuleCreateOverStream fp es target lattice 0 partIndex shift = some r ∧
      r.status = CLQMC_INVALID_VALUE ∧ r.stream = target) ∧
    umod lattice.numPoints 0 = none ∧ udiv lattice.numPoints 0 = none := by
  refine ⟨?_, ?_, rfl, rfl⟩
  · cases target with
    | none =>
      obtain ⟨r, hr, _⟩ := createOverStream_absent fp es lattice partCount partIndex shift
      exact ⟨r, hr⟩
    | some t =>
      obtain ⟨r, hr, _⟩ := createOverStream_present fp es t lattice partCount partIndex shift
      exact ⟨r, hr⟩
  · cases target with
    | none =>
      obtain ⟨r, hr, hs, hstream⟩ := createOverStream_absent fp es lattice 0 partIndex shift
      exact ⟨r, hr, hs, hstream⟩
    | some t =>
      obtain ⟨r, hr, hbad, _⟩ := createOverStream_present fp es t lattice 0 partIndex shift
      exact ⟨r, hr, hbad (Or.inl (Nat.zero_le _))⟩

/-- The status and the text of `clqmcSetErrorString` for every status code
and every message: the status is `err` and the text is the message after the
name of the status in brackets. -/
theorem setErrorString_text (err : Int) (m : String) :
    (clqmcSetErrorString err m).1 = err ∧
    (err = CLQMC_SUCCESS → (clqmcSetErrorString err m).2 = "[" ++ "success" ++ "] " ++ m) ∧
    (err = CLQMC_OUT_OF_RESOURCES →
      (clqmcSetErrorString err m).2 = "[" ++ "out of resources" ++ "] " ++ m) ∧
    (err = CLQMC_INVALID_VALUE →
      (clqmcSetErrorString err m).2 = "[" ++ "invalid value" ++ "] " ++ m) ∧
    (err = CLQMC_INVALID_ENVIRONMENT →
      (clqmcSetErrorString err m).2 = "[" ++ "invalid environment" ++ "] " ++ m) ∧
    (err = CLQMC_NOT_IMPLEMENTED →
      (clqmcSetErrorString err m).2 = "[" ++ "not implemented" ++ "] " ++ m) ∧
    (err ≠ CLQMC_SUCCESS → err ≠ CLQMC_OUT_OF_RESOURCES → err ≠ CLQMC_INVALID_VALUE →
      err ≠ CLQMC_INVALID_ENVIRONMENT → err ≠ CLQMC_NOT_IMPLEMENTED →
      (clqmcSetErrorString err m).2 = "[" ++ "unknown status" ++ "] " ++ m) := by
  refine ⟨rfl, ?_, ?_, ?_, ?_, ?_, ?_⟩
  · intro h
    subst h
    rfl
  · intro h
    subst h
    rfl
  · intro h
    subst h
    rfl
  · intro h
    subst h
    rfl
  · intro h
    subst h
    rfl
  · intro h1 h2 h3 h4 h5
    simp [clqmcSetErrorString, h1, h2, h3, h4, h5, MSG_DEFAULT]

theorem mul_add_div_mod (N a j : Nat) (hj : j < N) :
    (a * N + j) / N = a ∧ (a * N + j) % N = j := by
  have hN : 0 < N := Nat.lt_of_le_of_lt (Nat.zero_le j) hj
  constructor
  · rw [Nat.add_comm, Nat.add_mul_div_right j a hN, Nat.div_eq_of_lt hj, Nat.zero_add]
  · rw [Nat.add_comm, Nat.add_mul_mod_self_right, Nat.mod_eq_of_lt hj]

/-- The indices of Example 4 without wrap-around. -/
theorem example4_indices (N r rw gid kw : Nat) (hdvd : rw ∣ r)
    (h32 : r * N < UINT_RANGE) (hgid : gid < example4_global_size r rw N) (hkw : kw < rw) :
    example4_j N gid < N ∧
    example4_k N rw gid kw = gid / N * rw + kw ∧
    example4_k N rw gid kw < r ∧
    example4_slot N rw gid kw = example4_k N rw gid kw * N + example4_j N gid ∧
    example4_slot N rw gid kw < r * N := by
  unfold example4_global_size at hgid
  have hN : 0 < N := by
    rcases Nat.eq_zero_or_pos N with h | h
    · rw [h, Nat.mul_zero] at hgid
      exact absurd hgid (Nat.not_lt_zero _)
    · exact h
  have hj : gid % N < N := Nat.mod_lt _ hN
  have hb : gid / N < r / rw := (Nat.div_lt_iff_lt_mul hN).mpr hgid
  have hr : r / rw * rw = r := Nat.div_mul_cancel hdvd
  have hk : gid / N * rw + kw < r := by
    have h1 : (gid / N + 1) * rw ≤ r / rw * rw := Nat.mul_le_mul_right rw hb
    have h2 : (gid / N + 1) * rw = gid / N * rw + rw := by ring
    omega
  have hrN : r ≤ r * N := Nat.le_mul_of_pos_right r hN
  have hkwrap : (gid / N * rw + kw) % UINT_RANGE = gid / N * rw + kw :=
    Nat.mod_eq_of_lt (by omega)
  have hslot : (gid / N * rw + kw) * N + gid % N < r * N := by
    have h1 : (gid / N * rw + kw + 1) * N ≤ r * N := Nat.mul_le_mul_right N hk
    have h2 : (gid / N * rw + kw + 1) * N = (gid / N * rw + kw) * N + N := by ring
    omega
  refine ⟨hj, hkwrap, ?_, ?_, ?_⟩
  · rw [example4_k, hkwrap]
    exact hk
  · simp only [example4_slot, example4_k, example4_j, hkwrap]
    exact Nat.mod_eq_of_lt (by omega)
  · simp only [example4_slot, example4_k, example4_j, hkwrap]
    rw [Nat.mod_eq_of_lt (by omega)]
    exact hslot

/-- C25, as amended: in Example 4, with `N` point subsets, `r` replications,
`rw > 0` dividing `r`, `r * N < 2^32` and `G = (r / rw) * N` work items, for
`gid < G` and `kw < rw` the index `j = gid mod N` is below `N`, the index
`k = (gid / N) * rw + kw` is below `r`, and the slot `k * N + j` lies in block
`k` of the `N` values that `rqmcReduce(r, N, ...)` averages into
`estimates[k]`; the map `(gid, kw) -> k * N + j` is one-to-one and reaches
every slot of `[0, r * N)`. -/
theorem example4_slots_bijective (N r rw : Nat) (hrw : 0 < rw) (hdvd : rw ∣ r)
    (h32 : r * N < UINT_RANGE) :
    (∀ gid kw, gid < example4_global_size r rw N → kw < rw →
      example4_j N gid < N ∧
      example4_k N rw gid kw < r ∧
      example4_slot N rw gid kw = example4_k N rw gid kw * N + example4_j N gid ∧
      example4_k N rw gid kw * N ≤ example4_slot N rw gid kw ∧
      example4_slot N rw gid kw < (example4_k N rw gid kw + 1) * N ∧
      example4_slot N rw gid kw < r * N) ∧
    (∀ gid kw gid2 kw2, gid < example4_global_size r rw N → kw < rw →
      gid2 < example4_global_size r rw N → kw2 < rw →
      example4_slot N rw gid kw = example4_slot N rw gid2 kw2 → gid = gid2 ∧ kw = kw2) ∧
    (∀ slot, slot < r * N →
      ∃ gid kw, gid < example4_global_size r rw N ∧ kw < rw ∧
        example4_slot N rw gid kw = slot) ∧
    (∀ vals : List ℚ, vals.length = r * N → 1 ≤ N →
      rqmcReduce r N (vals.map ExactFloat.finite)
        = some ((List.range r).map (fun k => ExactFloat.finite
            (((List.range N).map (fun j => vals.getD (k * N + j) 0)).sum / (N : ℚ))))) := by
  refine ⟨?_, ?_, ?_, ?_⟩
  · intro gid kw hgid hkw
    obtain ⟨hj, _, hk, hslot, hlt⟩ := example4_indices N r rw gid kw hdvd h32 hgid hkw
    refine ⟨hj, hk, hslot, ?_, ?_, hlt⟩
    · rw [hslot]
      exact Nat.le_add_right _ _
    · rw [hslot]
      have : (example4_k N rw gid kw + 1) * N = example4_k N rw gid kw * N + N := by ring
      omega
  · intro gid kw gid2 kw2 hgid hkw hgid2 hkw2 heq
    obtain ⟨hj, hk, _, hslot, _⟩ := example4_indices N r rw gid kw hdvd h32 hgid hkw
    obtain ⟨hj2, hk2, _, hslot2, _⟩ := example4_indices N r rw gid2 kw2 hdvd h32 hgid2 hkw2
    rw [hslot, hslot2] at heq
    have hkeq : example4_k N rw gid kw = example4_k N rw gid2 kw2 := by
      have h1 := (mul_add_div_mod N (example4_k N rw gid kw) (example4_j N gid) hj).1
      have h2 := (mul_add_div_mod N (example4_k N rw gid2 kw2) (example4_j N gid2) hj2).1
      rw [heq] at h1
      exact h1.symm.trans h2
    have hjeq : example4_j N gid = example4_j N gid2 := by
      have h1 := (mul_add_div_mod N (example4_k N rw gid kw) (example4_j N gid) hj).2
      have h2 := (mul_add_div_mod N (example4_k N rw gid2 kw2) (example4_j N gid2) hj2).2
      rw [heq] at h1
      exact h1.symm.trans h2
    rw [hk, hk2] at hkeq
    have hbeq : gid / N = gid2 / N := by
      have h1 := (mul_add_div_mod rw (gid / N) kw hkw).1
      have h2 := (mul_add_div_mod rw (gid2 / N) kw2 hkw2).1
      rw [hkeq] at h1
      exact h1.symm.trans h2
    have hkweq : kw = kw2 := by
      have h1 := (mul_add_div_mod rw (gid / N) kw hkw).2
      have h2 := (mul_add_div_mod rw (gid2 / N) kw2 hkw2).2
      rw [hkeq] at h1
      exact h1.symm.trans h2
    refine ⟨?_, hkweq⟩
    unfold example4_j at hjeq
    rw [← Nat.div_add_mod gid N, ← Nat.div_add_mod gid2 N, hbeq, hjeq]
  · intro slot hslot
    have hN : 0 < N := by
      rcases Nat.eq_zero_or_pos N with h | h
      · rw [h, Nat.mul_zero] at hslot
        exact absurd hslot (Nat.not_lt_zero _)
      · exact h
    have hr : r / rw * rw = r := Nat.div_mul_cancel hdvd
    have hk : slot / N < r := (Nat.div_lt_iff_lt_mul hN).mpr hslot
    have hj : slot % N < N := Nat.mod_lt _ hN
    have hkw : slot / N % rw < rw := Nat.mod_lt _ hrw
    have hb : slot / N / rw < r / rw := by
      apply (Nat.div_lt_iff_lt_mul hrw).mpr
      rw [hr]
      exact hk
    have hgid : slot / N / rw * N + slot % N < example4_global_size r rw N := by
      unfold example4_global_size
      have h1 : (slot / N / rw + 1) * N ≤ r / rw * N := Nat.mul_le_mul_right N hb
      have h2 : (slot / N / rw + 1) * N = slot / N / rw * N + N := by ring
      omega
    refine ⟨slot / N / rw * N + slot % N, slot / N % rw, hgid, hkw, ?_⟩
    obtain ⟨_, hkval, _, hslotval, _⟩ :=
      example4_indices N r rw _ _ hdvd h32 hgid hkw
    rw [hslotval, hkval]
    unfold example4_j
    rw [(mul_add_div_mod N (slot / N / rw) (slot % N) hj).1,
      (mul_add_div_mod N (slot / N / rw) (slot % N) hj).2]
    have hkk : slot / N / rw * rw + slot / N % rw = slot / N := by
      rw [Nat.mul_comm]
      exact Nat.div_add_mod (slot / N) rw
    rw [hkk, Nat.mul_comm]
    exact Nat.div_add_mod slot N
  · intro vals hlen hN
    exact rqmcReduce_finite r N vals hN hlen h32

/-- Witness for C25: `N = 2` point subsets, `r = 4` replications, `rw = 2`:
the four work items with two replications each fill the slots `0, ..., 7`;
work item `3` with `kw = 1` has `k = 3`, `j = 1` and writes slot `7`. -/
theorem example4_slots_bijective_witness :
    example4_j 2 3 < 2 ∧ example4_k 2 2 3 1 < 4 ∧ example4_slot 2 2 3 1 = 7 ∧
    (∀ slot, slot < 4 * 2 →
      ∃ gid kw, gid < example4_global_size 4 2 2 ∧ kw < 2 ∧ example4_slot 2 2 gid kw = slot) := by
  have h := example4_slots_bijective 2 4 2 (by decide) (by decide) (by decide)
  obtain ⟨h1, _, h3, _⟩ := h
  obtain ⟨hj, hk, _, _, _, _⟩ := h1 3 1 (by decide) (by decide)
  exact ⟨hj, hk, by decide, h3⟩

/-- C25, the claim as stated fails: with `N = 2^30` point subsets, `r = 8`
replications and `rw = 8`, there are `G = 2^30` work items, and work item `0`
writes the same slot for `kw = 0` and for `kw = 4`: the index `k * N + j` is
computed in `uint` arithmetic, and `4 * 2^30 + 0` wraps around to `0`.  The
slot of `kw = 4` is not in block `k = 4`. -/
theorem example4_slots_wrap_around :
    0 < 8 ∧ 8 ∣ 8 ∧ 0 < example4_global_size 8 8 (2 ^ 30) ∧ 0 < 8 ∧ 4 < 8 ∧
    example4_k (2 ^ 30) 8 0 0 = 0 ∧ example4_k (2 ^ 30) 8 0 4 = 4 ∧
    example4_j (2 ^ 30) 0 = 0 ∧
    example4_slot (2 ^ 30) 8 0 0 = example4_slot (2 ^ 30) 8 0 4 ∧
    example4_slot (2 ^ 30) 8 0 4 = 0 ∧
    ¬ (example4_k (2 ^ 30) 8 0 4 * 2 ^ 30 ≤ example4_slot (2 ^ 30) 8 0 4) := by
  refine ⟨by decide, by decide, ?_, by decide, by decide, ?_, ?_, ?_, ?_, ?_, ?_⟩ <;>
    norm_num [example4_global_size, example4_k, example4_j, example4_slot, UINT_RANGE]

/-! ## Auxiliary facts about blocks of consecutive indices -/

theorem range_mul_blocks {α : Type} (R B : Nat) (f : Nat → α) :
    (List.range (R * B)).map f
      = ((List.range R).map (fun i => (List.range B).map (fun j => f (i * B + j)))).flatten := by
  induction R with
  | zero => simp
  | succ R ih =>
    have hsplit : (R + 1) * B = R * B + B := by ring
    rw [hsplit, List.range_add, List.map_append, ih, List.range_succ, List.map_append,
      List.flatten_append]
    simp [List.map_map, Function.comp_def]

theorem length_flatten_const {α : Type} (L : List (List α)) (s : Nat)
    (h : ∀ l ∈ L, l.length = s) : L.flatten.length = L.length * s := by
  induction L with
  | nil => simp
  | cons a rest ih =>
    have ha := h a (List.mem_cons_self a rest)
    have hrest := ih (fun l hl => h l (List.mem_cons_of_mem a hl))
    simp only [List.flatten_cons, List.length_append, List.length_cons, ha, hrest]
    ring

/-- The coordinates that the stream of one partition returns. -/
theorem enumeratePartition_eq {F : Type} (fp : FpType F) (es : String)
    (target : clqmcLatticeRuleStream F) (lattice : clqmcLatticeRule F)
    (shift : Option (List F)) (partCount partIndex : Nat)
    (hn32 : lattice.numPoints < UINT_RANGE)
    (hdvd : partCount ∣ lattice.numPoints) (hpi : partIndex < partCount)
    (hnormed : lattice.genVecNormed.length = lattice.dimension)
    (hdim : lattice.dimension < UINT_RANGE)
    (hshift : ∀ sh, shift = some sh → lattice.dimension ≤ sh.length) :
    enumeratePartition fp es target lattice shift partCount partIndex
      = some ((List.range (lattice.numPoints / partCount)).map (fun i =>
          (List.range lattice.dimension).map
            (coordinateOf fp { lattice := lattice,
                               pointIndex := partIndex * (lattice.numPoints / partCount) + i,
                               coordinateIndex := 0, shift := shift }))).flatten := by
  have hmod : lattice.numPoints % partCount = 0 := Nat.mod_eq_zero_of_dvd hdvd
  have hend : lattice.numPoints / partCount * (partIndex + 1) ≤ lattice.numPoints := by
    calc lattice.numPoints / partCount * (partIndex + 1)
        ≤ lattice.numPoints / partCount * partCount := Nat.mul_le_mul_left _ hpi
      _ = lattice.numPoints := Nat.div_mul_cancel hdvd
  have hsplit : lattice.numPoints / partCount * (partIndex + 1)
      = lattice.numPoints / partCount * partIndex + lattice.numPoints / partCount := by ring
  rw [hsplit] at hend
  have hcreate := createOverStream_success fp es target lattice partCount partIndex shift
    hpi hmod
  unfold enumeratePartition
  rw [hcreate]
  simp only [clqmcLatticeRuleNumPoints, if_true]
  rw [Nat.mul_comm partIndex (lattice.numPoints / partCount)]
  generalize lattice.numPoints / partCount = q at hend ⊢
  generalize q * partIndex = start at hend ⊢
  have hstart : start % UINT_RANGE = start := Nat.mod_eq_of_lt (by omega)
  rw [hstart]
  have hok : StreamArraysOk
      ({ lattice := lattice, pointIndex := start,
         coordinateIndex := 0, shift := shift } : clqmcLatticeRuleStream F) :=
    ⟨hnormed, hdim, hshift⟩
  have hdrive := drivePoints_fresh fp _ hok rfl q
    (by show start + q < UINT_RANGE
        omega)
  simp only [hdrive, List.map_map, Function.comp_def]

/-- C27: for a lattice of `n` points (in particular `n > 0`) and dimension `s`,
an optional shift and
`partCount` dividing `n`, the coordinate sequences of the streams created for
`(partCount, partIndex)`, `partIndex = 0, ..., partCount - 1`, each driven for
`n / partCount` points with `s` calls of `clqmcLatticeRuleNextCoordinate` per
point followed by `clqmcLatticeRuleForwardToNextPoint`, concatenated in the
order of `partIndex`, are the sequence of `n * s` values of the single stream
created with `partCount = 1` and driven for `n` points. -/
theorem partitioned_enumeration_eq_whole {F : Type} (fp : FpType F) (es : String)
    (target : clqmcLatticeRuleStream F) (lattice : clqmcLatticeRule F)
    (shift : Option (List F)) (partCount : Nat)
    (hn32 : lattice.numPoints < UINT_RANGE)
    (hdvd : partCount ∣ lattice.numPoints)
    (hnormed : lattice.genVecNormed.length = lattice.dimension)
    (hdim : lattice.dimension < UINT_RANGE)
    (hshift : ∀ sh, shift = some sh → lattice.dimension ≤ sh.length) :
    ∃ (parts : Nat → List F) (whole : List F),
      (∀ partIndex, partIndex < partCount →
        enumeratePartition fp es target lattice shift partCount partIndex
          = some (parts partIndex)) ∧
      enumeratePartition fp es target lattice shift 1 0 = some whole ∧
      ((List.range partCount).map parts).flatten = whole ∧
      whole.length = lattice.numPoints * lattice.dimension := by
  have hwhole := enumeratePartition_eq fp es target lattice shift 1 0 hn32 (Nat.one_dvd _)
    (by decide) hnormed hdim hshift
  simp only [Nat.div_one, Nat.zero_mul, Nat.zero_add] at hwhole
  refine ⟨fun partIndex => ((List.range (lattice.numPoints / partCount)).map (fun i =>
      (List.range lattice.dimension).map
        (coordinateOf fp { lattice := lattice,
                           pointIndex := partIndex * (lattice.numPoints / partCount) + i,
                           coordinateIndex := 0, shift := shift }))).flatten, _, ?_, hwhole,
    ?_, ?_⟩
  · intro partIndex hpi
    exact enumeratePartition_eq fp es target lattice shift partCount partIndex hn32 hdvd hpi
      hnormed hdim hshift
  · have hblocks := range_mul_blocks partCount (lattice.numPoints / partCount)
      (fun i => (List.range lattice.dimension).map
        (coordinateOf fp { lattice := lattice, pointIndex := i, coordinateIndex := 0,
                           shift := shift }))
    have hprod : partCount * (lattice.numPoints / partCount) = lattice.numPoints :=
      Nat.mul_div_cancel' hdvd
    rw [hprod] at hblocks
    rw [hblocks, List.flatten_flatten, List.map_map]
    rfl
  · rw [length_flatten_const _ lattice.dimension]
    · simp
    · intro l hl
      simp only [List.mem_map, List.mem_range] at hl
      obtain ⟨i, _, rfl⟩ := hl
      simp

/-- Witness for C27: the lattice with `n = 8`, `g = [3]` in two partitions. -/
theorem partitioned_enumeration_eq_whole_witness :
    ∃ (parts : Nat → List ℚ) (whole : List ℚ),
      (∀ partIndex, partIndex < 2 →
        enumeratePartition clqmc_double "" (blankStream ℚ) exampleLattice none 2 partIndex
          = some (parts partIndex)) ∧
      enumeratePartition clqmc_double "" (blankStream ℚ) exampleLattice none 1 0 = some whole ∧
      ((List.range 2).map parts).flatten = whole ∧
      whole.length = exampleLattice.numPoints * exampleLattice.dimension :=
  partitioned_enumeration_eq_whole clqmc_double "" (blankStream ℚ) exampleLattice none 2
    (by decide) (by decide) rfl (by decide) (by intro sh h; simp at h)

/-! ## Auxiliary facts about the mean of the block means -/

theorem sum_flatten_eq {L : List (List ℚ)} : L.flatten.sum = (L.map List.sum).sum := by
  induction L with
  | nil => simp
  | cons a rest ih => simp [List.sum_append, ih]

theorem sum_map_div_const (l : List Nat) (f : Nat → ℚ) (c : ℚ) :
    (l.map (fun i => f i / c)).sum = (l.map f).sum / c := by
  induction l with
  | nil => simp
  | cons a rest ih =>
    simp only [List.map_cons, List.sum_cons, ih]
    ring

theorem sum_of_block_sums (R B : Nat) (vals : List ℚ) (hlen : vals.length = R * B) :
    ((List.range R).map (fun i =>
        ((List.range B).map (fun j => vals.getD (i * B + j) 0)).sum)).sum = vals.sum := by
  have h := range_mul_blocks R B (fun k => vals.getD k 0)
  rw [← hlen, range_map_getD] at h
  have hv := congrArg List.sum h
  rw [hv, sum_flatten_eq]
  simp only [List.map_map, Function.comp_def]

theorem sum_sq_dev_nonneg (l : List ℚ) (m : ℚ) : 0 ≤ (l.map (fun x => (x - m) ^ 2)).sum := by
  induction l with
  | nil => simp
  | cons a rest ih =>
    simp only [List.map_cons, List.sum_cons]
    have := sq_nonneg (a - m)
    linarith

/-- The mean and the variance of `computeStats` for two values or more, with
the variance as a sum of squared deviations. -/
theorem computeStats_of_two (vals : List ℚ) (hn : 2 ≤ vals.length)
    (hsize : vals.length < SIZE_RANGE) :
    computeStats vals.length (vals.map ExactFloat.finite)
      = some (ExactFloat.finite (vals.sum / (vals.length : ℚ)),
              ExactFloat.finite
                ((vals.map (fun x => (x - vals.sum / (vals.length : ℚ)) ^ 2)).sum
                  / ((vals.length : ℚ) - 1))) := by
  have hn0 : vals.length ≠ 0 := by omega
  have hq : (vals.length : ℚ) ≠ 0 := by exact_mod_cast hn0
  have hwrap : (vals.length + SIZE_RANGE - 1) % SIZE_RANGE = vals.length - 1 := by
    have : vals.length + SIZE_RANGE - 1 = (vals.length - 1) + SIZE_RANGE := by omega
    rw [this, Nat.add_mod_right, Nat.mod_eq_of_lt (by omega)]
  have hn1 : vals.length - 1 ≠ 0 := by omega
  have hcast : ((vals.length - 1 : Nat) : ℚ) = (vals.length : ℚ) - 1 := by
    rw [Nat.cast_sub (by omega)]
    simp
  have hnm : (vals.length : ℚ) * (vals.sum / (vals.length : ℚ)) = vals.sum := by
    field_simp
  have hnum : (vals.map (fun x => x * x)).sum
        - 2 * (vals.sum / (vals.length : ℚ)) * vals.sum
        + (vals.length : ℚ) * (vals.sum / (vals.length : ℚ)) ^ 2
      = (vals.map (fun x => x * x)).sum - vals.sum / (vals.length : ℚ) * vals.sum := by
    have : (vals.length : ℚ) * (vals.sum / (vals.length : ℚ)) ^ 2
        = vals.sum * (vals.sum / (vals.length : ℚ)) := by
      rw [pow_two, ← mul_assoc, hnm]
    rw [this]
    ring
  rw [computeStats_finite, hwrap, sum_sq_dev, hnum]
  simp only [ExactFloat.divCount, ExactFloat.mul, ExactFloat.sub, hn0, hn1, if_false, hcast]

/-- The estimates of `rqmcReduce` when every index it computes in `cl_uint`
arithmetic is inside the array. -/
theorem rqmcReduce_finite_wrapped (R B : Nat) (vals : List ℚ) (hB : 1 ≤ B)
    (hidx : ∀ i j, i < R → j < B → (i * B + j) % UINT_RANGE < vals.length) :
    rqmcReduce R B (vals.map ExactFloat.finite)
      = some ((List.range R).map (fun i =>
          ExactFloat.finite
            (((List.range B).map
              (fun j => vals.getD ((i * B + j) % UINT_RANGE) 0)).sum / (B : ℚ)))) := by
  unfold rqmcReduce
  apply forLoop_eq_map
  intro i hi
  have hfold := forFold_finite_sum
    (fun j (sum : ExactFloat) =>
      match (vals.map ExactFloat.finite)[(i * B + j) % UINT_RANGE]? with
      | none => none
      | some v => some (sum.add v))
    (fun j => vals.getD ((i * B + j) % UINT_RANGE) 0) B 0
    (fun j hj x => by
      simp [map_finite_getElem vals _ (hidx i j hi hj), ExactFloat.add])
  simp only [zero_add] at hfold
  have hB0 : B ≠ 0 := by omega
  simp only [hfold, ExactFloat.divCount, hB0, if_false]

/-- Three blocks of `B` values with `2 * B = 2^32`, the first two blocks of
zeros and the third of ones: the index of the third block wraps around, so
`rqmcReduce` averages the first block a second time. -/
theorem rqmcReduce_third_block_wraps (B : Nat) (hB : 1 ≤ B) (h2 : 2 * B = UINT_RANGE) :
    (List.replicate (2 * B) (0 : ℚ) ++ List.replicate B 1).length = 3 * B ∧
    rqmcReduce 3 B ((List.replicate (2 * B) (0 : ℚ) ++ List.replicate B 1).map
        ExactFloat.finite)
      = some [ExactFloat.finite 0, ExactFloat.finite 0, ExactFloat.finite 0] ∧
    (List.replicate (2 * B) (0 : ℚ) ++ List.replicate B 1).sum / ((3 : ℚ) * (B : ℚ))
      = 1 / 3 := by
  have hU : 0 < UINT_RANGE := by omega
  have hBq : (B : ℚ) ≠ 0 := by
    have : B ≠ 0 := by omega
    exact_mod_cast this
  refine ⟨?_, ?_, ?_⟩
  · simp only [List.length_append, List.length_replicate]
    omega
  · have hzero : ∀ i, ((List.range B).map (fun j =>
          (List.replicate (2 * B) (0 : ℚ) ++ List.replicate B 1).getD
            ((i * B + j) % UINT_RANGE) 0)).sum = 0 := by
      intro i
      apply List.sum_eq_zero
      intro x hx
      obtain ⟨j, _, rfl⟩ := List.mem_map.mp hx
      have hlt : (i * B + j) % UINT_RANGE < 2 * B := by
        rw [h2]
        exact Nat.mod_lt _ hU
      rw [List.getD_append _ _ _ _ (by simpa using hlt), List.getD_eq_getElem?_getD,
        List.getElem?_replicate]
      simp [hlt]
    rw [rqmcReduce_finite_wrapped 3 B _ hB (by
      intro i j _ _
      have := Nat.mod_lt (i * B + j) hU
      simp only [List.length_append, List.length_replicate]
      omega)]
    simp only [hzero, zero_div]
    rfl
  · rw [List.sum_append, List.sum_replicate, List.sum_replicate]
    simp only [smul_zero, zero_add, nsmul_eq_mul, mul_one]
    field_simp
    ring

/-- C29, as amended: over exact rational arithmetic, for `R >= 1`, `B >= 1`
with `R * B < 2^32` and an array of `R * B` values, the mean that `rqmcReport`
computes and prints, that of `computeStats` on the `R` block means of
`rqmcReduce`, is the grand mean `sum(values) / (R * B)`; and for `R >= 2` the
variance it computes and prints is a finite number that is not negative. -/
theorem report_mean_is_grand_mean (R B : Nat) (vals : List ℚ) (hR : 1 ≤ R) (hB : 1 ≤ B)
    (hlen : vals.length = R * B) (h32 : R * B < UINT_RANGE) :
    ∃ estimates var,
      rqmcReduce R B (vals.map ExactFloat.finite) = some estimates ∧
      estimates.length = R ∧
      computeStats R estimates
        = some (ExactFloat.finite (vals.sum / ((R : ℚ) * (B : ℚ))), var) ∧
      (2 ≤ R → ∃ v, var = ExactFloat.finite v ∧ 0 ≤ v) ∧
      ∀ (fmtG : ExactFloat → String) (malloc : Nat → Bool) (fpsize points : Nat),
        malloc ((R * fpsize) % SIZE_RANGE) = true →
        rqmcReport fmtG malloc fpsize R points B (vals.map ExactFloat.finite)
          = some (if R > 1 then
              padLeft 16 "replications" ++ padLeft 16 "points" ++ padLeft 16 "mean"
                ++ padLeft 16 "variance" ++ "\n"
                ++ padLeft 16 (printf_d (toInt32 R)) ++ padLeft 16 (printf_d (toInt32 points))
                ++ padLeft 16 (fmtG (ExactFloat.finite (vals.sum / ((R : ℚ) * (B : ℚ)))))
                ++ padLeft 16 (fmtG var) ++ "\n"
            else
              padLeft 16 "replications" ++ padLeft 16 "points" ++ padLeft 16 "mean"
                ++ padLeft 16 "" ++ "\n"
                ++ padLeft 16 (printf_d (toInt32 R)) ++ padLeft 16 (printf_d (toInt32 points))
                ++ padLeft 16 (fmtG (ExactFloat.finite (vals.sum / ((R : ℚ) * (B : ℚ)))))
                ++ "\n") := by
  have hred := rqmcReduce_finite R B vals hB hlen h32
  have hmap : (List.range R).map (fun i => ExactFloat.finite
        (((List.range B).map (fun j => vals.getD (i * B + j) 0)).sum / (B : ℚ)))
      = ((List.range R).map (fun i =>
          ((List.range B).map (fun j => vals.getD (i * B + j) 0)).sum / (B : ℚ))).map
          ExactFloat.finite := by
    rw [List.map_map]
    rfl
  rw [hmap] at hred
  generalize hes : (List.range R).map (fun i =>
      ((List.range B).map (fun j => vals.getD (i * B + j) 0)).sum / (B : ℚ)) = es at hred
  have heslen : es.length = R := by
    rw [← hes]
    simp
  have hsum : es.sum = vals.sum / (B : ℚ) := by
    rw [← hes, sum_map_div_const, sum_of_block_sums R B vals hlen]
  have hRB : R ≤ R * B := Nat.le_mul_of_pos_right R hB
  have hsize : es.length < SIZE_RANGE := by
    rw [heslen]
    unfold UINT_RANGE at h32
    unfold SIZE_RANGE
    omega
  have hmean : es.sum / (R : ℚ) = vals.sum / ((R : ℚ) * (B : ℚ)) := by
    rw [hsum, div_div, mul_comm (B : ℚ) (R : ℚ)]
  have hcore : ∃ var, computeStats R (es.map ExactFloat.finite)
        = some (ExactFloat.finite (vals.sum / ((R : ℚ) * (B : ℚ))), var) ∧
      (2 ≤ R → ∃ v, var = ExactFloat.finite v ∧ 0 ≤ v) := by
    by_cases h2 : 2 ≤ R
    · have hstats := computeStats_of_two es (by omega) hsize
      rw [heslen, hmean] at hstats
      refine ⟨_, hstats, ?_⟩
      intro _
      refine ⟨_, rfl, ?_⟩
      apply div_nonneg (sum_sq_dev_nonneg es _)
      have : (1 : ℚ) ≤ (R : ℚ) := by exact_mod_cast hR
      linarith
    · have hstats := computeStats_finite es
      have hn0 : es.length ≠ 0 := by omega
      simp only [ExactFloat.divCount, hn0, if_false] at hstats
      rw [heslen, hmean] at hstats
      refine ⟨_, hstats, ?_⟩
      intro h
      exact absurd h h2
  obtain ⟨var, hstats, hvar⟩ := hcore
  refine ⟨_, var, hred, by simp [heslen], hstats, hvar, ?_⟩
  intro fmtG malloc fpsize points hm
  simp only [rqmcReport, hm, hred, hstats]
  by_cases h : R > 1 <;> simp [h]

/-- Witness for C29: two blocks of three values, `[1,2,3]` and `[4,5,7]`: the
block means are `2` and `16/3`, their mean is `22/6 = 11/3`, the grand mean,
and this is the mean in the text of the report. -/
theorem report_mean_is_grand_mean_witness :
    ∃ estimates var,
      rqmcReduce 2 3 (([1, 2, 3, 4, 5, 7] : List ℚ).map ExactFloat.finite) = some estimates ∧
      estimates.length = 2 ∧
      computeStats 2 estimates
        = some (ExactFloat.finite
            (([1, 2, 3, 4, 5, 7] : List ℚ).sum / (((2 : Nat) : ℚ) * ((3 : Nat) : ℚ))), var) ∧
      (2 ≤ 2 → ∃ v, var = ExactFloat.finite v ∧ 0 ≤ v) ∧
      rqmcReport (fun _ => "*") (fun _ => true) 8 2 6 3
          (([1, 2, 3, 4, 5, 7] : List ℚ).map ExactFloat.finite)
        = some (if 2 > 1 then
            padLeft 16 "replications" ++ padLeft 16 "points" ++ padLeft 16 "mean"
              ++ padLeft 16 "variance" ++ "\n"
              ++ padLeft 16 (printf_d (toInt32 2)) ++ padLeft 16 (printf_d (toInt32 6))
              ++ padLeft 16 ((fun _ => "*") (ExactFloat.finite
                  (([1, 2, 3, 4, 5, 7] : List ℚ).sum / (((2 : Nat) : ℚ) * ((3 : Nat) : ℚ)))))
              ++ padLeft 16 ((fun _ => "*") var) ++ "\n"
          else
            padLeft 16 "replications" ++ padLeft 16 "points" ++ padLeft 16 "mean"
              ++ padLeft 16 "" ++ "\n"
              ++ padLeft 16 (printf_d (toInt32 2)) ++ padLeft 16 (printf_d (toInt32 6))
              ++ padLeft 16 ((fun _ => "*") (ExactFloat.finite
                  (([1, 2, 3, 4, 5, 7] : List ℚ).sum / (((2 : Nat) : ℚ) * ((3 : Nat) : ℚ)))))
              ++ "\n") := by
  obtain ⟨e, v, h1, h2, h3, h4, h5⟩ :=
    report_mean_is_grand_mean 2 3 [1, 2, 3, 4, 5, 7] (by decide) (by decide) rfl (by decide)
  exact ⟨e, v, h1, h2, h3, h4, h5 (fun _ => "*") (fun _ => true) 8 6 rfl⟩

/-- C29, the claim as stated fails: for `R = 3` and `B = 2^31`, with an array
of `3 * 2^31` values whose first two blocks are zeros and whose third block is
ones, the grand mean is `1/3`, but the index `2 * 2^31 + j` of the third block
wraps around to `j` in `cl_uint` arithmetic: `rqmcReduce` averages the first
block a second time, the three estimates are `0` and the mean that
`computeStats` returns for `rqmcReport` is `0`. -/
theorem report_mean_wraps_around :
    ((List.replicate (2 * 2 ^ 31) (0 : ℚ) ++ List.replicate (2 ^ 31) 1).length = 3 * 2 ^ 31 ∧
      rqmcReduce 3 (2 ^ 31)
          ((List.replicate (2 * 2 ^ 31) (0 : ℚ) ++ List.replicate (2 ^ 31) 1).map
            ExactFloat.finite)
        = some [ExactFloat.finite 0, ExactFloat.finite 0, ExactFloat.finite 0] ∧
      (List.replicate (2 * 2 ^ 31) (0 : ℚ) ++ List.replicate (2 ^ 31) 1).sum
          / ((3 : ℚ) * ((2 ^ 31 : Nat) : ℚ))
        = 1 / 3) ∧
    computeStats 3 [ExactFloat.finite 0, ExactFloat.finite 0, ExactFloat.finite 0]
      = some (ExactFloat.finite 0, ExactFloat.finite 0) ∧
    ∀ (fmtG : ExactFloat → String) (points : Nat),
      rqmcReport fmtG (fun _ => true) 8 3 points (2 ^ 31)
          ((List.replicate (2 * 2 ^ 31) (0 : ℚ) ++ List.replicate (2 ^ 31) 1).map
            ExactFloat.finite)
        = some (padLeft 16 "replications" ++ padLeft 16 "points" ++ padLeft 16 "mean"
            ++ padLeft 16 "variance" ++ "\n"
            ++ padLeft 16 (printf_d (toInt32 3)) ++ padLeft 16 (printf_d (toInt32 points))
            ++ padLeft 16 (fmtG (ExactFloat.finite 0))
            ++ padLeft 16 (fmtG (ExactFloat.finite 0)) ++ "\n") := by
  have hwrap := rqmcReduce_third_block_wraps (2 ^ 31) (by norm_num) (by norm_num [UINT_RANGE])
  have hstats : computeStats 3
      [ExactFloat.finite 0, ExactFloat.finite 0, ExactFloat.finite 0]
      = some (ExactFloat.finite 0, ExactFloat.finite 0) := by
    have h := computeStats_finite [0, 0, 0]
    simp only [List.map, List.length] at h
    rw [h]
    norm_num [ExactFloat.divCount, ExactFloat.mul, ExactFloat.sub, SIZE_RANGE]
  refine ⟨hwrap, hstats, ?_⟩
  intro fmtG points
  simp only [rqmcReport, hwrap.2.1, hstats]
  simp

/-! ## Auxiliary facts about a generator coprime to the number of points -/

theorem latticeCoordinate_natCast (n a i : Nat) :
    latticeCoordinate n (a : Int) i = (((i * a) % n : Nat) : ℚ) / (n : ℚ) := by
  unfold latticeCoordinate
  have h : (((i * a) % n : Nat) : Int) = ((i : Int) * (a : Int)) % (n : Int) := by
    rw [Int.natCast_mod, Nat.cast_mul]
  rw [← h, Int.cast_natCast]

theorem mul_mod_injective (n a i i2 : Nat) (hcop : Nat.gcd n a = 1) (hi : i < n) (hi2 : i2 < n)
    (h : (i * a) % n = (i2 * a) % n) : i = i2 := by
  have hmod : i ≡ i2 [MOD n] := Nat.ModEq.cancel_right_of_coprime hcop h
  unfold Nat.ModEq at hmod
  rw [Nat.mod_eq_of_lt hi, Nat.mod_eq_of_lt hi2] at hmod
  exact hmod

theorem mul_mod_surjective (n a k : Nat) (hcop : Nat.gcd n a = 1) (hn : 1 < n) (hk : k < n) :
    ∃ i, i < n ∧ (i * a) % n = k := by
  have hcop2 : Nat.Coprime a n := by
    unfold Nat.Coprime
    rw [Nat.gcd_comm]
    exact hcop
  obtain ⟨m, hm⟩ := Nat.exists_mul_emod_eq_one_of_coprime hcop2 hn
  have hn0 : 0 < n := by omega
  refine ⟨(k * m) % n, Nat.mod_lt _ hn0, ?_⟩
  have h1 : (k * m) % n * a ≡ k * m * a [MOD n] := (Nat.mod_modEq _ _).mul_right a
  have h2 : a * m ≡ 1 [MOD n] := by
    unfold Nat.ModEq
    rw [hm, Nat.mod_eq_of_lt hn]
  have h3 : k * m * a ≡ k * 1 [MOD n] := by
    have : k * m * a = k * (a * m) := by ring
    rw [this]
    exact h2.mul_left k
  have h4 := h1.trans h3
  unfold Nat.ModEq at h4
  rw [h4, Nat.mul_one, Nat.mod_eq_of_lt hk]

theorem coordinateOf_point_zero (typeName : String) (sizeof : Nat)
    (L : clqmcLatticeRule ℚ) (c k : Nat) :
    coordinateOf (exactFp typeName sizeof)
      { lattice := L, pointIndex := 0, coordinateIndex := c, shift := none } k = 0 := by
  simp [coordinateOf, coordinateExpr, shiftAt, exactFp, fmodQ, truncQ]

/-- C28: over exact rational arithmetic, for `n > 0` points and a coordinate
`j` whose generating-vector entry `g[j]` lies in `[1, n-1]` and is coprime to
`n`, the values that the unshifted stream created with `partCount = 1` returns
for coordinate `j` at the points `i = 0, ..., n-1` are the numbers
`((i * g[j]) mod n) / n`; they are pairwise distinct and are exactly the
numbers `0, 1/n, ..., (n-1)/n`; and at point `0` every coordinate is `0`. -/
theorem coprime_coordinate_values (typeName : String) (sizeof : Nat) (malloc : Nat → Bool)
    (es es2 : String) (n s : Nat) (g : List Int) (r : CreateResult ℚ)
    (L : clqmcLatticeRule ℚ) (target : clqmcLatticeRuleStream ℚ) (j : Nat)
    (hn : 0 < n) (hn32 : n < UINT_RANGE) (hs32 : s < UINT_RANGE) (hg : g.length = s)
    (hj : j < s) (hvalid : 1 ≤ g.getD j 0 ∧ g.getD j 0 ≤ (n : Int) - 1)
    (hcop : Int.gcd (g.getD j 0) (n : Int) = 1)
    (hc : clqmcLatticeRuleCreate (exactFp typeName sizeof) malloc es n s g = some r)
    (hL : r.lattice = some L) :
    clqmcLatticeRuleCreateOverStream (exactFp typeName sizeof) es2 (some target) L 1 0 none
      = some { status := CLQMC_SUCCESS,
               stream := some { lattice := L, pointIndex := 0, coordinateIndex := 0,
                                shift := none },
               errorString := es2 } ∧
    (∀ i, i < n →
      ∃ vals final,
        nextCoordinates (exactFp typeName sizeof) s
          (forwardPoints i { lattice := L, pointIndex := 0, coordinateIndex := 0,
                             shift := none }) = some (vals, final) ∧
        vals[j]? = some (latticeCoordinate n (g.getD j 0) i)) ∧
    (∀ i i2, i < n → i2 < n →
      latticeCoordinate n (g.getD j 0) i = latticeCoordinate n (g.getD j 0) i2 → i = i2) ∧
    (∀ k, k < n → ∃ i, i < n ∧ latticeCoordinate n (g.getD j 0) i = (k : ℚ) / (n : ℚ)) ∧
    (∀ i, i < n → ∃ k, k < n ∧ latticeCoordinate n (g.getD j 0) i = (k : ℚ) / (n : ℚ)) ∧
    nextCoordinates (exactFp typeName sizeof) s
        { lattice := L, pointIndex := 0, coordinateIndex := 0, shift := none }
      = some (List.replicate s 0,
              { lattice := L, pointIndex := 0, coordinateIndex := s, shift := none }) := by
  have hLeq := create_lattice_eq _ malloc es n s g r L hn hg hc hL
  subst hLeq
  obtain ⟨hlo, hhi⟩ := hvalid
  have hjg : j < g.length := by omega
  have hlt : g.getD j 0 < (UINT_RANGE : Int) := by
    have : (n : Int) < (UINT_RANGE : Int) := by exact_mod_cast hn32
    omega
  have hn1 : 1 < n := by omega
  have hq : (n : ℚ) ≠ 0 := by
    have : n ≠ 0 := by omega
    exact_mod_cast this
  obtain ⟨a, ha⟩ : ∃ a : Nat, (a : Int) = g.getD j 0 := ⟨(g.getD j 0).toNat, by omega⟩
  have hcopN : Nat.gcd n a = 1 := by
    rw [← ha] at hcop
    rw [Nat.gcd_comm]
    simpa [Int.gcd] using hcop
  have hok : ∀ i, StreamArraysOk
      ({ lattice := { numPoints := n, dimension := s, genVec := g,
                      genVecNormed := normedOf (exactFp typeName sizeof) n g },
         pointIndex := i, coordinateIndex := 0, shift := none } :
        clqmcLatticeRuleStream ℚ) := by
    intro i
    refine ⟨?_, hs32, ?_⟩
    · simp [normedOf, hg]
    · intro sh h
      simp at h
  refine ⟨?_, ?_, ?_, ?_, ?_, ?_⟩
  · rw [createOverStream_success _ es2 target _ 1 0 none (by decide) (Nat.mod_one _)]
    simp
  · intro i hi
    rw [forwardPoints_fresh i _ rfl (by simp; omega)]
    refine ⟨_, _, nextCoordinates_inside _ _ (hok (0 + i)) rfl s (Nat.le_refl _), ?_⟩
    rw [List.getElem?_map, List.getElem?_range hj]
    simp only [Option.map_some', Nat.zero_add, Option.some.injEq]
    rw [coordinateOf_exact typeName sizeof n s g i 0 j none hn hjg (by omega) hlt
      (by simp [shiftAt, exactFp])]
    have hz : shiftAt (exactFp typeName sizeof) none j = 0 := rfl
    rw [hz, add_zero]
    exact Int.fract_eq_iff.mpr ⟨latticeCoordinate_nonneg n _ i hn,
      latticeCoordinate_lt_one n _ i hn, 0, by simp⟩
  · intro i i2 hi hi2 heq
    rw [← ha, latticeCoordinate_natCast, latticeCoordinate_natCast] at heq
    field_simp at heq
    exact mul_mod_injective n a i i2 hcopN hi hi2 (by exact_mod_cast heq)
  · intro k hk
    obtain ⟨i, hi, hik⟩ := mul_mod_surjective n a k hcopN hn1 hk
    refine ⟨i, hi, ?_⟩
    rw [← ha, latticeCoordinate_natCast, hik]
  · intro i hi
    refine ⟨(i * a) % n, Nat.mod_lt _ hn, ?_⟩
    rw [← ha, latticeCoordinate_natCast]
  · rw [nextCoordinates_inside _ _ (hok 0) rfl s (Nat.le_refl _)]
    simp only [Option.some.injEq, Prod.mk.injEq, and_true]
    have hzero : (List.range s).map (coordinateOf (exactFp typeName sizeof)
          { lattice := { numPoints := n, dimension := s, genVec := g,
                         genVecNormed := normedOf (exactFp typeName sizeof) n g },
            pointIndex := 0, coordinateIndex := 0, shift := none })
        = (List.range s).map (fun _ => (0 : ℚ)) :=
      List.map_congr_left (fun k _ => coordinateOf_point_zero typeName sizeof _ 0 k)
    rw [hzero]
    simp

/-- Witness for C28: `n = 8` and `g = [3]`, which is coprime to `8`: the
values of coordinate `0` are pairwise distinct and every `k/8` is reached. -/
theorem coprime_coordinate_values_witness :
    (∀ i i2 : Nat, i < 8 → i2 < 8 →
      latticeCoordinate 8 3 i = latticeCoordinate 8 3 i2 → i = i2) ∧
    (∀ k : Nat, k < 8 →
      ∃ i : Nat, i < 8 ∧ latticeCoordinate 8 3 i = (k : ℚ) / ((8 : Nat) : ℚ)) ∧
    nextCoordinates clqmc_double 1
        { lattice := exampleLattice, pointIndex := 0, coordinateIndex := 0, shift := none }
      = some (List.replicate 1 0,
              { lattice := exampleLattice, pointIndex := 0, coordinateIndex := 1,
                shift := none }) := by
  have h := coprime_coordinate_values "clqmc_double" 8 (fun _ => true) "" "" 8 1 [3] _
    exampleLattice (blankStream ℚ) 0 (by decide) (by decide) (by decide) rfl (by decide)
    (by decide) (by decide) exampleLattice_created rfl
  exact ⟨h.2.2.1, h.2.2.2.1, h.2.2.2.2.2⟩

end ClQMC
